import Mathlib

/-!
Expenseinr: the in-memory engine of `public/app.js`.

A shallow embedding of the dashboard engine: the value normaliser `toNumber`,
the row sanitiser `cleanRow` / `removeEmptyRows`, the balance reconciler
`updateModeBalances`, the reload procedure `loadAllData`, the filters
`applyFilters` / `applyModalFilters`, the sorts `applySorting` /
`applyModalSorting`, the pagination `paginate` / `totalPages` with the table
views, the unified view `buildUnifiedTransactions`, and the chart totals
`updateCharts`.

Modelling conventions.

* A JavaScript string is a `List Char` (`Str`).
* A JavaScript number is a `JSNumber`: `NaN`, `±Infinity`, or a rational.
* A field value that is `null` or `undefined` is `none`.
* The values of the form controls are a `Controls` record, and the built-in
  functions whose results are fixed outside the program (lower-casing, date
  parsing, number printing, collation) are parameters.

The engine is described at two levels.

* The plain description: arithmetic on finite numbers is exact, and an object
  (`{}`) is the insertion-ordered list of its own properties with `Obj.get` /
  `Obj.set`.  It serves the statements on parsing, reloading, filtering,
  sorting, paging and the choice of the opening-balance field.
* The machine description, in the namespace `Machine`: a Number value is an IEEE
  754 double, so that `parseFloat` and every `+` and `-` round to the nearest
  double, ties to even, and overflow to `Infinity`; and an object created by `{}`
  inherits the members of `Object.prototype`, ignores a write of a number or a
  string to `__proto__`, and enumerates its array-index names first.  It serves
  the statements on the balances of the reconciler, on the rows that the
  sanitiser returns and on the chart totals.
-/

namespace Expenseinr

/-! ## Strings -/

/-- JavaScript strings. -/
abbrev Str := List Char

/-- White space and line terminators: the characters removed by
`String.prototype.trim` and matched by the regular-expression class `\s`. -/
def isWhiteSpace (c : Char) : Bool :=
  c.toNat == 0x09 || c.toNat == 0x0A || c.toNat == 0x0B || c.toNat == 0x0C ||
  c.toNat == 0x0D || c.toNat == 0x20 || c.toNat == 0xA0 || c.toNat == 0x1680 ||
  (0x2000 ≤ c.toNat && c.toNat ≤ 0x200A) ||
  c.toNat == 0x2028 || c.toNat == 0x2029 || c.toNat == 0x202F ||
  c.toNat == 0x205F || c.toNat == 0x3000 || c.toNat == 0xFEFF

/-- The method `String.prototype.trim`. -/
def trim (s : Str) : Str :=
  (s.dropWhile isWhiteSpace).rdropWhile isWhiteSpace

/-- Global replacement by the empty string of a three-letter pattern: `m1`, `m2`
and `m3` recognise the first, second and third letter.  Matches are found left
to right and do not overlap; the text is scanned once. -/
def removeAll3 (m1 m2 m3 : Char → Bool) : Str → Str
  | a :: b :: c :: rest =>
    if m1 a && m2 b && m3 c then removeAll3 m1 m2 m3 rest
    else a :: removeAll3 m1 m2 m3 (b :: c :: rest)
  | a :: t => a :: removeAll3 m1 m2 m3 t
  | [] => []

/-- A letter of a case-insensitive pattern: `u` is the upper-case and `l` the
lower-case form. -/
def letter (u l : Char) (c : Char) : Bool := c == u || c == l

/-- The replacement `v.replace(/AED/gi, "")`. -/
def removeAED (v : Str) : Str :=
  removeAll3 (letter 'A' 'a') (letter 'E' 'e') (letter 'D' 'd') v

/-- The replacement `v.replace(/INR/gi, "")`. -/
def removeINR (v : Str) : Str :=
  removeAll3 (letter 'I' 'i') (letter 'N' 'n') (letter 'R' 'r') v

/-- The replacement `v.replace(/₹/g, "")`. -/
def removeRupee (v : Str) : Str := v.filter (fun c => c != '₹')

/-- The replacement `v.replace(/\s+/g, "")`. -/
def removeSpaces (v : Str) : Str := v.filter (fun c => !isWhiteSpace c)

/-- The replacement `v.replace(/,/g, "")`. -/
def removeCommas (v : Str) : Str := v.filter (fun c => c != ',')

/-- The test `v.startsWith(a)` for a one-character `a`. -/
def startsWithChar (v : Str) (a : Char) : Bool := v.head? == some a

/-- The test `v.endsWith(a)` for a one-character `a`. -/
def endsWithChar (v : Str) (a : Char) : Bool := v.getLast? == some a

/-! ## Numbers -/

/-- JavaScript numbers, with exact finite values. -/
inductive JSNumber where
  | nan : JSNumber
  | inf (negative : Bool) : JSNumber
  | num (q : ℚ) : JSNumber
  deriving DecidableEq

namespace JSNumber

/-- Unary minus. -/
def neg : JSNumber → JSNumber
  | nan => nan
  | inf b => inf (!b)
  | num q => num (-q)

/-- Addition: `NaN` is absorbing and opposite infinities add to `NaN`. -/
def add : JSNumber → JSNumber → JSNumber
  | nan, _ => nan
  | _, nan => nan
  | inf a, inf b => if a = b then inf a else nan
  | inf a, num _ => inf a
  | num _, inf b => inf b
  | num p, num q => num (p + q)

/-- Subtraction. -/
def sub (x y : JSNumber) : JSNumber := add x (neg y)

/-- The global function `isNaN` on numbers. -/
def isNaN : JSNumber → Bool
  | nan => true
  | _ => false

instance : Zero JSNumber := ⟨num 0⟩
instance : Add JSNumber := ⟨add⟩
instance : Neg JSNumber := ⟨neg⟩
instance : Sub JSNumber := ⟨sub⟩

/-- Numbers under addition, with `0`: addition is associative and commutative
because finite values are exact. -/
instance : AddCommMonoid JSNumber where
  nsmul := nsmulRec
  add_assoc a b c := by
    show add (add a b) c = add a (add b c)
    cases a <;> cases b <;> cases c <;> simp [add] <;>
      first
        | (split_ifs <;> simp_all [add])
        | ring
  zero_add a := by
    show add (num 0) a = a
    cases a <;> simp [add]
  add_zero a := by
    show add a (num 0) = a
    cases a <;> simp [add]
  add_comm a b := by
    show add a b = add b a
    cases a <;> cases b <;> simp [add, add_comm, eq_comm]
    split_ifs <;> simp_all

end JSNumber

open JSNumber

/-- A decimal digit `0`..`9`. -/
def isDigit (c : Char) : Bool := 48 ≤ c.toNat && c.toNat ≤ 57

/-- The value of a run of decimal digits. -/
def digitsValue (ds : Str) : ℕ :=
  ds.foldl (fun n c => 10 * n + (c.toNat - 48)) 0

/-- The number `q * 10 ^ z` for an integer exponent. -/
def scale10 (q : ℚ) : ℤ → ℚ
  | Int.ofNat n => q * 10 ^ n
  | Int.negSucc n => q / 10 ^ (n + 1)

/-- The exponent part of a decimal literal at the head of `s`: `e` or `E`, an
optional sign and at least one digit.  The value is `0` when `s` does not start
with an exponent part. -/
def exponentPart (s : Str) : ℤ :=
  match s with
  | e :: t =>
    if e = 'e' ∨ e = 'E' then
      match t with
      | '+' :: u =>
        if u.takeWhile isDigit = [] then 0 else (digitsValue (u.takeWhile isDigit) : ℤ)
      | '-' :: u =>
        if u.takeWhile isDigit = [] then 0 else -(digitsValue (u.takeWhile isDigit) : ℤ)
      | u =>
        if u.takeWhile isDigit = [] then 0 else (digitsValue (u.takeWhile isDigit) : ℤ)
    else 0
  | [] => 0

/-- The unsigned part of `parseFloat`: the longest prefix of `s` that is a
`StrUnsignedDecimalLiteral` (`Infinity`, or digits with an optional fraction and
an optional exponent), and `NaN` when there is none. -/
def parseUnsigned (s : Str) : JSNumber :=
  if "Infinity".toList <+: s then inf false
  else
    let ip := s.takeWhile isDigit
    let r1 := s.dropWhile isDigit
    let fp := match r1 with
      | '.' :: t => t.takeWhile isDigit
      | _ => []
    let r2 := match r1 with
      | '.' :: t => t.dropWhile isDigit
      | _ => r1
    if ip = [] ∧ fp = [] then nan
    else num (scale10 (digitsValue (ip ++ fp)) (exponentPart r2 - fp.length))

/-- The global function `parseFloat` on strings: leading white space is skipped,
an optional sign is read, and the longest prefix that is a decimal literal gives
the value; text after that prefix is ignored. -/
def parseFloat (s : Str) : JSNumber :=
  match s.dropWhile isWhiteSpace with
  | '-' :: t => neg (parseUnsigned t)
  | '+' :: t => parseUnsigned t
  | t => parseUnsigned t

/-- The value normaliser `toNumber`.  The argument is `none` for `null` and
`undefined` and `some s` for a value whose `String(value)` is `s`. -/
def toNumber (value : Option Str) : JSNumber :=
  match value with
  | none => num 0
  | some s =>
    let v := trim s
    if v = [] then num 0
    else
      let v := removeAED v
      let v := removeINR v
      let v := removeRupee v
      let v := removeSpaces v
      let isBracketNegative := startsWithChar v '(' && endsWithChar v ')'
      let v := if isBracketNegative then v.tail.dropLast else v
      let v := if endsWithChar v '-' then '-' :: v.dropLast else v
      let v := removeCommas v
      let n := parseFloat v
      if isNaN n then num 0
      else if isBracketNegative then neg n
      else n

/-- The text `v` of `toNumber` once the currency markers and the white space
have been removed. -/
def stripped (s : Str) : Str :=
  removeSpaces (removeRupee (removeINR (removeAED (trim s))))

/-- The flag `isBracketNegative` of `toNumber`. -/
def bracketNegative (s : Str) : Bool :=
  startsWithChar (stripped s) '(' && endsWithChar (stripped s) ')'

/-- The text that `toNumber` hands to `parseFloat`. -/
def parsedText (s : Str) : Str :=
  let v := stripped s
  let v := if bracketNegative s then v.tail.dropLast else v
  let v := if endsWithChar v '-' then '-' :: v.dropLast else v
  removeCommas v

/-! ### Renderings of a decimal value -/

/-- The text of an unsigned decimal: the integer digits `ip`, followed by a point
and the fraction digits `fp` when there are any. -/
def unsignedText (ip fp : Str) : Str :=
  if fp = [] then ip else ip ++ '.' :: fp

/-- The value of the unsigned decimal with integer digits `ip` and fraction
digits `fp`. -/
def decimalValue (ip fp : Str) : ℚ :=
  (digitsValue ip : ℚ) + (digitsValue fp : ℚ) / 10 ^ fp.length

/-- How the sign of a rendered amount is written. -/
inductive SignStyle where
  | unsigned
  | leadingMinus
  | trailingMinus
  | parentheses
  deriving DecidableEq

/-- The body `b` with its sign written in the given style. -/
def signedText : SignStyle → Str → Str
  | .unsigned, b => b
  | .leadingMinus, b => '-' :: b
  | .trailingMinus, b => b ++ ['-']
  | .parentheses, b => '(' :: b ++ [')']

/-- The value `q` with the sign that the style denotes. -/
def signedValue : SignStyle → ℚ → ℚ
  | .unsigned, q => q
  | _, q => -q

/-- A currency marker: `AED` or `INR` in any letter case, or the glyph `₹`. -/
def isMarker (m : Str) : Bool :=
  match m with
  | [a, e, d] =>
    (letter 'A' 'a' a && letter 'E' 'e' e && letter 'D' 'd' d) ||
    (letter 'I' 'i' a && letter 'N' 'n' e && letter 'R' 'r' d)
  | [g] => g == '₹'
  | _ => false

/-- A character that can occur in a rendered amount outside its currency
marker: white space, a digit, the point, the comma, a parenthesis or the minus
sign. -/
def plainChar (c : Char) : Bool :=
  isWhiteSpace c || isDigit c || c == '.' || c == ',' || c == '(' || c == ')' || c == '-'

/-- The text `text` renders the decimal with integer digits `ip` and fraction
digits `fp` in sign style `σ`: a body `b` is the decimal text with commas
inserted (deleting the commas of `b` gives the decimal text), `p ++ q` is the
signed body with white space inserted anywhere (deleting the white space of
`p ++ q` gives the signed body), and a currency marker `m`, or none, stands
between `p` and `q`. -/
def IsRendering (text : Str) (σ : SignStyle) (ip fp : Str) : Prop :=
  ∃ b p m q : Str,
    b.filter (fun c => c != ',') = unsignedText ip fp ∧
    (p ++ q).filter (fun c => !isWhiteSpace c) = signedText σ b ∧
    (m = [] ∨ isMarker m = true) ∧
    text = p ++ m ++ q

/-! ## Objects and rows -/

/-- A plain object with values in `α`: its own properties in insertion order. -/
abbrev Obj (α : Type) := List (Str × α)

namespace Obj

variable {α : Type}

/-- The property read `o[k]`; `none` stands for `undefined`. -/
def get : Obj α → Str → Option α
  | [], _ => none
  | (k', v) :: t, k => if k' = k then some v else get t k

/-- The property write `o[k] = v`: an existing property keeps its place, a new
one is added last. -/
def set : Obj α → Str → α → Obj α
  | [], k, v => [(k, v)]
  | (k', v') :: t, k, v => if k' = k then (k, v) :: t else (k', v') :: set t k v

/-- The list `Object.keys(o)`. -/
def keys (o : Obj α) : List Str := o.map Prod.fst

/-- The list `Object.values(o)`. -/
def values (o : Obj α) : List α := o.map Prod.snd

end Obj

/-- A parsed CSV record: field name to field text (`none` for a `null` or
`undefined` value). -/
abbrev Row := Obj (Option Str)

/-- The property read `r[k]` of a record, `none` when absent, `null` or
`undefined`. -/
def field (r : Row) (k : Str) : Option Str := (Obj.get r k).join

/-- The expression `x || ""` for a string-or-missing `x`. -/
def orEmpty (x : Option Str) : Str := x.getD []

/-- The function `cleanRow`: every own key of `row`, in order, is written
trimmed into a fresh object with the trimmed text of its value. -/
def cleanRow (row : Row) : Row :=
  (Obj.keys row).foldl
    (fun cleaned key => Obj.set cleaned (trim key) (some (trim (orEmpty (field row key)))))
    []

/-- The function `removeEmptyRows`. -/
def removeEmptyRows (data : List Row) : List Row :=
  (data.map cleanRow).filter (fun r => (Obj.values r).any (fun v => v != some []))

/-- The row has at least one field value that is non-empty after trimming, a
missing value counting as the empty string. -/
def hasData (r : Row) : Bool := (Obj.values r).any (fun v => trim (orEmpty v) != [])

/-- One field with its name and its value trimmed, a missing value becoming the
empty string. -/
def cleanEntry (kv : Str × Option Str) : Str × Option Str :=
  (trim kv.1, some (trim (orEmpty kv.2)))

/-! ## Balance by mode -/

/-- The in-memory collections and page numbers of the dashboard, with the
selected currency symbol. -/
structure State where
  currencySymbol : Str
  expenseData : List Row
  receiptData : List Row
  contraData : List Row
  openingBalanceData : List Row
  expensePage : ℤ
  receiptPage : ℤ
  contraPage : ℤ
  deriving DecidableEq

/-- JavaScript truthiness of a string-or-missing value. -/
def truthy (x : Option Str) : Bool := x != none && x != some []

/-- The argument `r.OpeningBalance || r.OB || r.Balance || 0` as `toNumber`
receives it; the number `0` is given as its string form. -/
def openingField (r : Row) : Option Str :=
  if truthy (field r "OpeningBalance".toList) then field r "OpeningBalance".toList
  else if truthy (field r "OB".toList) then field r "OB".toList
  else if truthy (field r "Balance".toList) then field r "Balance".toList
  else some "0".toList

/-- The two maps built by `updateModeBalances`, as lists of own numeric
properties. -/
structure Ledger where
  modeBalances : Obj JSNumber
  openingMap : Obj JSNumber
  deriving DecidableEq

/-- The body of `openingBalanceData.forEach`. -/
def openingStep (l : Ledger) (r : Row) : Ledger :=
  let mode := trim (orEmpty (field r "Mode".toList))
  if mode = [] then l
  else
    let obVal := toNumber (openingField r)
    { openingMap := Obj.set l.openingMap mode obVal,
      modeBalances := Obj.set l.modeBalances mode obVal }

/-! ### Derived notions of the reconciler -/

/-- The trimmed `Mode` of a row, `(r.Mode || "").trim()`. -/
def modeOf (r : Row) : Str := trim (orEmpty (field r "Mode".toList))

/-- The trimmed `From` of a contra row, `(r.From || "").trim()`. -/
def fromOf (r : Row) : Str := trim (orEmpty (field r "From".toList))

/-- The trimmed `To` of a contra row, `(r.To || "").trim()`. -/
def toOf (r : Row) : Str := trim (orEmpty (field r "To".toList))

/-- The amount of a row, `toNumber(r.Amount)`. -/
def amountOf (r : Row) : JSNumber := toNumber (field r "Amount".toList)

/-- The opening balance that an opening-balance row seeds,
`toNumber(r.OpeningBalance || r.OB || r.Balance || 0)`. -/
def openingAmount (r : Row) : JSNumber := toNumber (openingField r)

/-! ### Sample inputs -/

/-- The scenario of the specification: opening balance `Cash` 1000, one expense
`(200)` and one receipt `500` on `Cash`. -/
def scenarioState : State :=
  { currencySymbol := "₹".toList,
    expenseData := [[("Mode".toList, some "Cash".toList), ("Amount".toList, some "(200)".toList)]],
    receiptData := [[("Mode".toList, some "Cash".toList), ("Amount".toList, some "500".toList)]],
    contraData := [],
    openingBalanceData := [[("Mode".toList, some "Cash".toList), ("OB".toList, some "1000".toList)]],
    expensePage := 1, receiptPage := 1, contraPage := 1 }

/-- A single contra with `From` `Cash`, an empty `To` and amount 300. -/
def oneSidedContra : State :=
  { currencySymbol := "₹".toList, expenseData := [], receiptData := [],
    contraData := [[("From".toList, some "Cash".toList), ("To".toList, some []),
      ("Amount".toList, some "300".toList)]],
    openingBalanceData := [], expensePage := 1, receiptPage := 1, contraPage := 1 }

/-- A single receipt of 500 with an empty `Mode`. -/
def receiptWithoutMode : State :=
  { currencySymbol := "₹".toList, expenseData := [],
    receiptData := [[("Mode".toList, some []), ("Amount".toList, some "500".toList)]],
    contraData := [], openingBalanceData := [],
    expensePage := 1, receiptPage := 1, contraPage := 1 }

/-- Two opening-balance rows for the mode `Cash`, 100 and 250. -/
def repeatedOpening : State :=
  { currencySymbol := "₹".toList, expenseData := [], receiptData := [], contraData := [],
    openingBalanceData :=
      [[("Mode".toList, some "Cash".toList), ("OB".toList, some "100".toList)],
       [("Mode".toList, some "Cash".toList), ("OB".toList, some "250".toList)]],
    expensePage := 1, receiptPage := 1, contraPage := 1 }

/-- Opening balance `Cash` 1000, an expense `(200)` on `Cash`, a receipt 500 on
`Bank` and a contra of 300 from `Cash` to `Bank`. -/
def transferState : State :=
  { currencySymbol := "₹".toList,
    expenseData := [[("Mode".toList, some "Cash".toList), ("Amount".toList, some "(200)".toList)]],
    receiptData := [[("Mode".toList, some "Bank".toList), ("Amount".toList, some "500".toList)]],
    contraData := [[("From".toList, some "Cash".toList), ("To".toList, some "Bank".toList),
      ("Amount".toList, some "300".toList)]],
    openingBalanceData := [[("Mode".toList, some "Cash".toList), ("OB".toList, some "1000".toList)]],
    expensePage := 1, receiptPage := 1, contraPage := 1 }

/-- The contra `{From: "Cash", To: "Bank", Amount: "300"}`. -/
def cashToBank : Row :=
  [("From".toList, some "Cash".toList), ("To".toList, some "Bank".toList),
    ("Amount".toList, some "300".toList)]

/-! ## Reload -/

/-- An entry of `datasets`. -/
structure Dataset where
  name : Str
  currency : Str
  expenseCSV : Str
  receiptsCSV : Str
  contraCSV : Str
  obCSV : Str
  deriving DecidableEq

/-- The function `resetPagesAndUpdate`, as far as the state is concerned. -/
def resetPagesAndUpdate (s : State) : State :=
  { s with expensePage := 1, receiptPage := 1, contraPage := 1 }

/-- The function `loadAllData` for the selected dataset.  `parseCSV url` is the
outcome of the download of `url`: the parsed rows, or `none` when the promise
is rejected.  The four downloads are awaited in sequence and each result is
assigned as soon as it arrives; a rejection leaves the `try` block. -/
def loadAllData (parseCSV : Str → Option (List Row)) (selected : Dataset) (s : State) : State :=
  let s := { s with currencySymbol := selected.currency }
  match parseCSV selected.expenseCSV with
  | none => s
  | some e =>
    let s := { s with expenseData := removeEmptyRows e }
    match parseCSV selected.receiptsCSV with
    | none => s
    | some r =>
      let s := { s with receiptData := removeEmptyRows r }
      match parseCSV selected.contraCSV with
      | none => s
      | some c =>
        let s := { s with contraData := removeEmptyRows c }
        match parseCSV selected.obCSV with
        | none => s
        | some o =>
          let s := { s with openingBalanceData := removeEmptyRows o }
          resetPagesAndUpdate s

/-- The entry `datasets.INDIA`. -/
def datasetIndia : Dataset :=
  { name := "India Expenses".toList, currency := "₹".toList,
    expenseCSV := "/api/csv/india/expense".toList,
    receiptsCSV := "/api/csv/india/receipts".toList,
    contraCSV := "/api/csv/india/contra".toList,
    obCSV := "/api/csv/india/ob".toList }

/-- The entry `datasets.UAE`. -/
def datasetUAE : Dataset :=
  { name := "UAE Expenses".toList, currency := "AED".toList,
    expenseCSV := "/api/csv/uae/expense".toList,
    receiptsCSV := "/api/csv/uae/receipts".toList,
    contraCSV := "/api/csv/uae/contra".toList,
    obCSV := "/api/csv/uae/ob".toList }

/-- A dashboard state with one expense and one receipt loaded. -/
def loadedState : State :=
  { currencySymbol := "₹".toList,
    expenseData := [[("Mode".toList, some "Cash".toList), ("Amount".toList, some "10".toList)]],
    receiptData := [[("Mode".toList, some "Cash".toList), ("Amount".toList, some "20".toList)]],
    contraData := [], openingBalanceData := [],
    expensePage := 2, receiptPage := 1, contraPage := 1 }

/-- Downloads in which the expense sheet arrives and every later request is
rejected. -/
def expenseOnly (url : Str) : Option (List Row) :=
  if url = "/api/csv/india/expense".toList then
    some [[("Mode".toList, some "Bank".toList), ("Amount".toList, some "99".toList)]]
  else none

/-! ## Filtering, sorting and pagination -/

/-- The built-in functions that the engine calls and whose results are fixed by
the JavaScript host, not by the program: `String.prototype.toLowerCase`, the
time value of `new Date(text)` (`NaN` for an invalid date) and the conversion of
a number to a string. -/
structure Host where
  toLowerCase : Str → Str
  dateValue : Str → JSNumber
  numberToString : JSNumber → Str

/-- The values of the form controls that the engine reads. -/
structure Controls where
  monthFilter : Str
  modeFilter : Str
  groupFilter : Str
  searchBox : Str
  expenseSort : Str
  receiptSort : Str
  contraSort : Str
  txnSearchBox : Str
  txnTypeFilter : Str
  txnSort : Str
  deriving DecidableEq

/-- The method `s.includes(q)`: `q` occurs in `s` as a contiguous run. -/
def includes (s q : Str) : Bool := s.tails.any (fun t => decide (q <+: t))

/-- The method `parts.join(sep)` on strings. -/
def joinWith (sep : Str) : List Str → Str
  | [] => []
  | [a] => a
  | a :: b :: rest => a ++ sep ++ joinWith sep (b :: rest)

/-- The method `s.split(sep)` for a one-character separator. -/
def splitChar (sep : Char) : Str → List Str
  | [] => [[]]
  | c :: t =>
    if c = sep then [] :: splitChar sep t
    else
      match splitChar sep t with
      | [] => [[c]]
      | h :: r => (c :: h) :: r

/-- The text `Object.values(row).join(" ")` of a record; `join` writes a missing
value as the empty string. -/
def rowText (row : Row) : Str := joinWith [' '] ((Obj.values row).map orEmpty)

/-- The function `applyFilters`. -/
def applyFilters (host : Host) (ctl : Controls) (data : List Row) (type : Str) : List Row :=
  let selectedMonth := ctl.monthFilter
  let selectedMode := ctl.modeFilter
  let selectedGroup := ctl.groupFilter
  let q := host.toLowerCase (trim ctl.searchBox)
  let filtered := data.filter (fun r => truthy (field r "Date".toList))
  let filtered :=
    if selectedMonth ≠ "ALL".toList then
      filtered.filter (fun r => trim (orEmpty (field r "Month".toList)) = selectedMonth)
    else filtered
  let filtered :=
    if selectedMode ≠ "ALL".toList then
      if type = "expense".toList ∨ type = "receipt".toList then
        filtered.filter (fun r => trim (orEmpty (field r "Mode".toList)) = selectedMode)
      else if type = "contra".toList then
        filtered.filter (fun r =>
          trim (orEmpty (field r "From".toList)) = selectedMode ∨
          trim (orEmpty (field r "To".toList)) = selectedMode)
      else filtered
    else filtered
  let filtered :=
    if selectedGroup ≠ "ALL".toList then
      if type = "expense".toList then
        filtered.filter (fun r => trim (orEmpty (field r "Group".toList)) = selectedGroup)
      else filtered
    else filtered
  let filtered :=
    if q ≠ [] then
      filtered.filter (fun row => includes (host.toLowerCase (rowText row)) q)
    else filtered
  filtered

/-- The function `parseDateValue`, as the time value of the date it returns.  The
argument is `none` for `undefined`. -/
def parseDateValue (host : Host) (dateStr : Option Str) : JSNumber :=
  if truthy dateStr then
    let clean := trim ((splitChar ',' (orEmpty dateStr)).headD [])
    match splitChar '/' clean with
    | [day, mon, year] => host.dateValue (day ++ [' '] ++ mon ++ [' '] ++ year)
    | _ => host.dateValue clean
  else host.dateValue "1900-01-01".toList

/-- The test `x > 0` on numbers. -/
def JSNumber.isPositive : JSNumber → Bool
  | nan => false
  | inf negative => !negative
  | num q => decide (0 < q)

/-- The method `Array.prototype.sort` with the comparator `cmp`: a stable sort in
which `a` stays before `b` unless `cmp a b` is positive (a `NaN` result counts as
`0`).  For a comparator that is a consistent ordering every stable sort gives
this list. -/
def arraySort {α : Type} (cmp : α → α → JSNumber) (l : List α) : List α :=
  l.insertionSort (fun a b => (cmp a b).isPositive = false)

/-- The function `applySorting`. -/
def applySorting (host : Host) (data : List Row) (sortValue : Str) : List Row :=
  let sorted := data
  let sorted :=
    if sortValue = "date_desc".toList then
      arraySort (fun a b =>
        parseDateValue host (field b "Date".toList) - parseDateValue host (field a "Date".toList))
        sorted
    else sorted
  let sorted :=
    if sortValue = "date_asc".toList then
      arraySort (fun a b =>
        parseDateValue host (field a "Date".toList) - parseDateValue host (field b "Date".toList))
        sorted
    else sorted
  let sorted :=
    if sortValue = "amount_desc".toList then
      arraySort (fun a b =>
        toNumber (field b "Amount".toList) - toNumber (field a "Amount".toList)) sorted
    else sorted
  let sorted :=
    if sortValue = "amount_asc".toList then
      arraySort (fun a b =>
        toNumber (field a "Amount".toList) - toNumber (field b "Amount".toList)) sorted
    else sorted
  sorted

/-- The constant `pageSize`. -/
def pageSize : ℕ := 25

/-- The index that `Array.prototype.slice` derives from an argument: a negative
argument counts from the end, and the result is kept within `0 .. len`. -/
def sliceIndex (len : ℕ) (i : ℤ) : ℕ :=
  if i < 0 then (len + i).toNat else min i.toNat len

/-- The method `data.slice(start, stop)`. -/
def slice {α : Type} (data : List α) (start stop : ℤ) : List α :=
  (data.drop (sliceIndex data.length start)).take
    (sliceIndex data.length stop - sliceIndex data.length start)

/-- The function `paginate`. -/
def paginate {α : Type} (data : List α) (page : ℤ) : List α :=
  let start := (page - 1) * pageSize
  slice data start (start + pageSize)

/-- The function `totalPages`. -/
def totalPages {α : Type} (data : List α) : ℤ :=
  max 1 ⌈((data.length : ℚ) / (pageSize : ℚ))⌉

/-- What a table shows: the page number after clamping, the number of pages, the
rows of the page and the number of rows of the whole view. -/
structure TableView (α : Type) where
  page : ℤ
  maxPages : ℤ
  pageData : List α
  rowCount : ℕ

/-- The function `updateExpenseTable`: the state with the clamped `expensePage`,
and the table. -/
def updateExpenseTable (host : Host) (ctl : Controls) (s : State) : State × TableView Row :=
  let exp := applyFilters host ctl s.expenseData "expense".toList
  let exp := applySorting host exp ctl.expenseSort
  let maxPages := totalPages exp
  let s := if s.expensePage > maxPages then { s with expensePage := maxPages } else s
  let s := if s.expensePage < 1 then { s with expensePage := 1 } else s
  let pageData := paginate exp s.expensePage
  (s, { page := s.expensePage, maxPages := maxPages, pageData := pageData,
        rowCount := exp.length })

/-- The function `updateReceiptTable`. -/
def updateReceiptTable (host : Host) (ctl : Controls) (s : State) : State × TableView Row :=
  let rec_ := applyFilters host ctl s.receiptData "receipt".toList
  let rec_ := applySorting host rec_ ctl.receiptSort
  let maxPages := totalPages rec_
  let s := if s.receiptPage > maxPages then { s with receiptPage := maxPages } else s
  let s := if s.receiptPage < 1 then { s with receiptPage := 1 } else s
  let pageData := paginate rec_ s.receiptPage
  (s, { page := s.receiptPage, maxPages := maxPages, pageData := pageData,
        rowCount := rec_.length })

/-- The function `updateContraTable`. -/
def updateContraTable (host : Host) (ctl : Controls) (s : State) : State × TableView Row :=
  let con := applyFilters host ctl s.contraData "contra".toList
  let con := applySorting host con ctl.contraSort
  let maxPages := totalPages con
  let s := if s.contraPage > maxPages then { s with contraPage := maxPages } else s
  let s := if s.contraPage < 1 then { s with contraPage := 1 } else s
  let pageData := paginate con s.contraPage
  (s, { page := s.contraPage, maxPages := maxPages, pageData := pageData,
        rowCount := con.length })

/-! ## The unified transaction view -/

/-- A row of the unified view, with its properties in the order of the object
literal. -/
structure Txn where
  Date : Str
  Month : Str
  Type_ : Str
  Mode : Str
  From : Str
  To : Str
  Item : Str
  Group : Str
  SubGroup : Str
  Narration : Str
  Amount : JSNumber
  deriving DecidableEq

/-- The unified row pushed for an expense. -/
def expenseTxn (r : Row) : Txn :=
  { Date := orEmpty (field r "Date".toList),
    Month := orEmpty (field r "Month".toList),
    Type_ := "EXPENSE".toList,
    Mode := orEmpty (field r "Mode".toList),
    From := [],
    To := [],
    Item := orEmpty (field r "Item".toList),
    Group := orEmpty (field r "Group".toList),
    SubGroup := orEmpty (field r "SubGroup".toList),
    Narration := orEmpty (field r "Narration".toList),
    Amount := toNumber (field r "Amount".toList) }

/-- The unified row pushed for a receipt. -/
def receiptTxn (r : Row) : Txn :=
  { Date := orEmpty (field r "Date".toList),
    Month := orEmpty (field r "Month".toList),
    Type_ := "RECEIPT".toList,
    Mode := orEmpty (field r "Mode".toList),
    From := orEmpty (field r "From".toList),
    To := [],
    Item := [],
    Group := [],
    SubGroup := [],
    Narration := [],
    Amount := toNumber (field r "Amount".toList) }

/-- The first unified row pushed for a contra, the debit leg. -/
def contraOutTxn (r : Row) : Txn :=
  let amt := toNumber (field r "Amount".toList)
  { Date := orEmpty (field r "Date".toList),
    Month := orEmpty (field r "Month".toList),
    Type_ := "CONTRA_OUT".toList,
    Mode := orEmpty (field r "From".toList),
    From := orEmpty (field r "From".toList),
    To := orEmpty (field r "To".toList),
    Item := [],
    Group := [],
    SubGroup := [],
    Narration := [],
    Amount := amt }

/-- The second unified row pushed for a contra, the credit leg. -/
def contraInTxn (r : Row) : Txn :=
  let amt := toNumber (field r "Amount".toList)
  { Date := orEmpty (field r "Date".toList),
    Month := orEmpty (field r "Month".toList),
    Type_ := "CONTRA_IN".toList,
    Mode := orEmpty (field r "To".toList),
    From := orEmpty (field r "From".toList),
    To := orEmpty (field r "To".toList),
    Item := [],
    Group := [],
    SubGroup := [],
    Narration := [],
    Amount := amt }

/-- The function `buildUnifiedTransactions`: three loops that push onto `txns`. -/
def buildUnifiedTransactions (s : State) : List Txn :=
  let txns : List Txn := []
  let txns := s.expenseData.foldl (fun txns r => txns ++ [expenseTxn r]) txns
  let txns := s.receiptData.foldl (fun txns r => txns ++ [receiptTxn r]) txns
  let txns := s.contraData.foldl (fun txns r => (txns ++ [contraOutTxn r]) ++ [contraInTxn r]) txns
  txns

/-- The text `Object.values(r).join(" ")` of a unified row; the amount is written
by the number-to-string conversion. -/
def txnText (host : Host) (r : Txn) : Str :=
  joinWith [' '] [r.Date, r.Month, r.Type_, r.Mode, r.From, r.To, r.Item, r.Group, r.SubGroup,
    r.Narration, host.numberToString r.Amount]

/-- The function `applyModalFilters`. -/
def applyModalFilters (host : Host) (ctl : Controls) (data : List Txn) : List Txn :=
  let q := host.toLowerCase (trim ctl.txnSearchBox)
  let typeFilter := ctl.txnTypeFilter
  let filtered := data
  let filtered :=
    if typeFilter ≠ "ALL".toList then filtered.filter (fun r => r.Type_ = typeFilter)
    else filtered
  let filtered :=
    if q ≠ [] then filtered.filter (fun r => includes (host.toLowerCase (txnText host r)) q)
    else filtered
  filtered

/-- The function `applyModalSorting`. -/
def applyModalSorting (host : Host) (ctl : Controls) (data : List Txn) : List Txn :=
  let sortValue := ctl.txnSort
  let sorted := data
  let sorted :=
    if sortValue = "date_desc".toList then
      arraySort (fun a b =>
        parseDateValue host (some b.Date) - parseDateValue host (some a.Date)) sorted
    else sorted
  let sorted :=
    if sortValue = "date_asc".toList then
      arraySort (fun a b =>
        parseDateValue host (some a.Date) - parseDateValue host (some b.Date)) sorted
    else sorted
  let sorted :=
    if sortValue = "amount_desc".toList then
      arraySort (fun a b => b.Amount - a.Amount) sorted
    else sorted
  let sorted :=
    if sortValue = "amount_asc".toList then
      arraySort (fun a b => a.Amount - b.Amount) sorted
    else sorted
  sorted

/-- The constant `modalPageSize`. -/
def modalPageSize : ℕ := 25

/-- The state of the transaction modal. -/
structure Modal where
  modalData : List Txn
  modalPage : ℤ
  deriving DecidableEq

/-- The function `renderModalTable`: the modal with the clamped `modalPage`, and
the table. -/
def renderModalTable (host : Host) (ctl : Controls) (m : Modal) : Modal × TableView Txn :=
  let filtered := applyModalFilters host ctl m.modalData
  let filtered := applyModalSorting host ctl filtered
  let maxPages : ℤ := max 1 ⌈((filtered.length : ℚ) / (modalPageSize : ℚ))⌉
  let m := if m.modalPage > maxPages then { m with modalPage := maxPages } else m
  let m := if m.modalPage < 1 then { m with modalPage := 1 } else m
  let start := (m.modalPage - 1) * modalPageSize
  let pageRows := slice filtered start (start + modalPageSize)
  (m, { page := m.modalPage, maxPages := maxPages, pageData := pageRows,
        rowCount := filtered.length })

/-! ### The filters as one predicate -/

/-- The text `q` that `applyFilters` searches for. -/
def queryOf (host : Host) (ctl : Controls) : Str := host.toLowerCase (trim ctl.searchBox)

/-- The record passes the first step of `applyFilters`: its `Date` is truthy. -/
def hasDate (r : Row) : Bool := truthy (field r "Date".toList)

/-- The record passes the period step of `applyFilters`. -/
def monthOk (ctl : Controls) (r : Row) : Bool :=
  decide (ctl.monthFilter = "ALL".toList) ||
    decide (trim (orEmpty (field r "Month".toList)) = ctl.monthFilter)

/-- The record passes the mode step of `applyFilters` for the kind `type`. -/
def modeOk (ctl : Controls) (type : Str) (r : Row) : Bool :=
  if ctl.modeFilter = "ALL".toList then true
  else if type = "expense".toList ∨ type = "receipt".toList then
    decide (modeOf r = ctl.modeFilter)
  else if type = "contra".toList then
    decide (fromOf r = ctl.modeFilter ∨ toOf r = ctl.modeFilter)
  else true

/-- The record passes the category step of `applyFilters` for the kind `type`. -/
def groupOk (ctl : Controls) (type : Str) (r : Row) : Bool :=
  if ctl.groupFilter = "ALL".toList then true
  else if type = "expense".toList then
    decide (trim (orEmpty (field r "Group".toList)) = ctl.groupFilter)
  else true

/-- The record passes the free-text step of `applyFilters`. -/
def queryOk (host : Host) (ctl : Controls) (r : Row) : Bool :=
  decide (queryOf host ctl = []) || includes (host.toLowerCase (rowText r)) (queryOf host ctl)

/-- The record passes every step of `applyFilters`. -/
def keepRow (host : Host) (ctl : Controls) (type : Str) (r : Row) : Bool :=
  hasDate r && monthOk ctl r && modeOk ctl type r && groupOk ctl type r && queryOk host ctl r

/-- The text `q` that `applyModalFilters` searches for. -/
def txnQueryOf (host : Host) (ctl : Controls) : Str := host.toLowerCase (trim ctl.txnSearchBox)

/-- The unified row passes every step of `applyModalFilters`. -/
def keepTxn (host : Host) (ctl : Controls) (r : Txn) : Bool :=
  (decide (ctl.txnTypeFilter = "ALL".toList) || decide (r.Type_ = ctl.txnTypeFilter)) &&
  (decide (txnQueryOf host ctl = []) ||
    includes (host.toLowerCase (txnText host r)) (txnQueryOf host ctl))

/-- The filter state `s'` is `s` with one unrestricted clause (period `ALL`, mode
`ALL`, category `ALL` or an empty query) replaced by a value. -/
def addsClause (host : Host) (s s' : Controls) : Prop :=
  (s.monthFilter = "ALL".toList ∧ ∃ v, s' = { s with monthFilter := v }) ∨
  (s.modeFilter = "ALL".toList ∧ ∃ v, s' = { s with modeFilter := v }) ∨
  (s.groupFilter = "ALL".toList ∧ ∃ v, s' = { s with groupFilter := v }) ∨
  (queryOf host s = [] ∧ ∃ v, s' = { s with searchBox := v })

/-- The modal filter state `s'` is `s` with one unrestricted clause (type `ALL` or
an empty query) replaced by a value. -/
def addsModalClause (host : Host) (s s' : Controls) : Prop :=
  (s.txnTypeFilter = "ALL".toList ∧ ∃ v, s' = { s with txnTypeFilter := v }) ∨
  (txnQueryOf host s = [] ∧ ∃ v, s' = { s with txnSearchBox := v })

/-- The sorted, filtered expenses that `updateExpenseTable` pages through. -/
def expenseRows (host : Host) (ctl : Controls) (s : State) : List Row :=
  applySorting host (applyFilters host ctl s.expenseData "expense".toList) ctl.expenseSort

/-- The sorted, filtered receipts that `updateReceiptTable` pages through. -/
def receiptRows (host : Host) (ctl : Controls) (s : State) : List Row :=
  applySorting host (applyFilters host ctl s.receiptData "receipt".toList) ctl.receiptSort

/-- The sorted, filtered contras that `updateContraTable` pages through. -/
def contraRows (host : Host) (ctl : Controls) (s : State) : List Row :=
  applySorting host (applyFilters host ctl s.contraData "contra".toList) ctl.contraSort

/-- The sorted, filtered unified rows that `renderModalTable` pages through. -/
def modalRows (host : Host) (ctl : Controls) (m : Modal) : List Txn :=
  applyModalSorting host ctl (applyModalFilters host ctl m.modalData)

/-- The two statements `if (page > maxPages) page = maxPages;` and
`if (page < 1) page = 1;`. -/
def clampPage (page maxPages : ℤ) : ℤ :=
  let page := if page > maxPages then maxPages else page
  if page < 1 then 1 else page

/-- The table `v` shows a page of `rows` that is the requested page brought into
range: the page number lies between `1` and the number of pages, is the requested
one when that is in range, the last one when the request is larger and the first
one when the request is below `1`, and the page of a non-empty collection is not
empty. -/
def ShowsClampedPage {α : Type} (requested : ℤ) (rows : List α) (v : TableView α) : Prop :=
  v.maxPages = totalPages rows ∧ v.rowCount = rows.length ∧
  1 ≤ v.page ∧ v.page ≤ v.maxPages ∧
  (1 ≤ requested → requested ≤ v.maxPages → v.page = requested) ∧
  (v.maxPages < requested → v.page = v.maxPages) ∧
  (requested < 1 → v.page = 1) ∧
  v.pageData = paginate rows v.page ∧
  (rows ≠ [] → v.pageData ≠ [])

/-! ### Sample inputs for the views -/

/-- A host whose `toLowerCase` maps the ASCII letters, whose dates are all
invalid and whose numbers are written as the empty text. -/
def plainHost : Host :=
  { toLowerCase := fun s => s.map Char.toLower,
    dateValue := fun _ => nan,
    numberToString := fun _ => [] }

/-- Controls with every filter unrestricted and the newest-first sort. -/
def noFilters : Controls :=
  { monthFilter := "ALL".toList, modeFilter := "ALL".toList, groupFilter := "ALL".toList,
    searchBox := [],
    expenseSort := "date_desc".toList, receiptSort := "date_desc".toList,
    contraSort := "date_desc".toList,
    txnSearchBox := [], txnTypeFilter := "ALL".toList, txnSort := "date_desc".toList }

/-- An expense whose `Item` is `i + 1` letters long. -/
def numberedRow (i : ℕ) : Row :=
  [("Date".toList, some "01/Jan/2024".toList), ("Item".toList, some (List.replicate (i + 1) 'x')),
    ("Amount".toList, some "10".toList)]

/-- Sixty expenses, with page 10 requested. -/
def sixtyExpenses : State :=
  { currencySymbol := "₹".toList,
    expenseData := (List.range 60).map numberedRow,
    receiptData := [], contraData := [], openingBalanceData := [],
    expensePage := 10, receiptPage := 1, contraPage := 1 }

/-- Four expenses: tea in January on `Cash`, a row without `Date`, a bracketed
rent refund in February on `Bank`, and fruit in February on `Cash`. -/
def sampleExpenses : List Row :=
  [[("Date".toList, some "01/Jan/2024".toList), ("Month".toList, some "Jan".toList),
    ("Item".toList, some "Tea".toList), ("Group".toList, some "Food".toList),
    ("Mode".toList, some "Cash".toList), ("Amount".toList, some "100".toList)],
   [("Date".toList, some []), ("Month".toList, some "Jan".toList),
    ("Item".toList, some "Bus".toList), ("Group".toList, some "Travel".toList),
    ("Mode".toList, some "Cash".toList), ("Amount".toList, some "5".toList)],
   [("Date".toList, some "02/Feb/2024".toList), ("Month".toList, some "Feb".toList),
    ("Item".toList, some "Refund".toList), ("Group".toList, some "Rent".toList),
    ("Mode".toList, some "Bank".toList), ("Amount".toList, some "(20)".toList)],
   [("Date".toList, some "03/Feb/2024".toList), ("Month".toList, some "Feb".toList),
    ("Item".toList, some "Fruit".toList), ("Group".toList, some "Food".toList),
    ("Mode".toList, some "Cash".toList), ("Amount".toList, some "30".toList)]]

/-- Three contras: `Cash` to `Bank`, `Bank` to `Card` and `Card` to `Cash`. -/
def sampleContras : List Row :=
  [[("Date".toList, some "01/Jan/2024".toList), ("Month".toList, some "Jan".toList),
    ("From".toList, some "Cash".toList), ("To".toList, some "Bank".toList),
    ("Amount".toList, some "300".toList)],
   [("Date".toList, some "02/Jan/2024".toList), ("Month".toList, some "Jan".toList),
    ("From".toList, some "Bank".toList), ("To".toList, some "Card".toList),
    ("Amount".toList, some "50".toList)],
   [("Date".toList, some "03/Jan/2024".toList), ("Month".toList, some "Jan".toList),
    ("From".toList, some "Card".toList), ("To".toList, some "Cash".toList),
    ("Amount".toList, some "70".toList)]]

/-! ## Amount order -/

/-- The comparison `x <= y` on numbers, false when a side is `NaN`. -/
def JSNumber.le : JSNumber → JSNumber → Bool
  | nan, _ => false
  | _, nan => false
  | inf true, _ => true
  | _, inf false => true
  | inf false, _ => false
  | _, inf true => false
  | num p, num q => decide (p ≤ q)

/-- Four rows with the amounts `100`, `garbage`, `(20)` and `5`. -/
def mixedAmounts : List Row :=
  [[("Item".toList, some "a".toList), ("Amount".toList, some "100".toList)],
   [("Item".toList, some "b".toList), ("Amount".toList, some "garbage".toList)],
   [("Item".toList, some "c".toList), ("Amount".toList, some "(20)".toList)],
   [("Item".toList, some "d".toList), ("Amount".toList, some "5".toList)]]

/-- Controls with every filter unrestricted and the modal sorted by rising
amount. -/
def modalByAmount : Controls := { noFilters with txnSort := "amount_asc".toList }

/-! ## Opening-balance fields -/

/-- The names of the opening-balance fields, in the order in which
`updateModeBalances` tries them. -/
def openingFieldNames : List Str := ["OpeningBalance".toList, "OB".toList, "Balance".toList]

/-- The amount of the first of the fields `OpeningBalance`, `OB`, `Balance` that
the row has (with a text, empty or not), and `0` when it has none of them. -/
def firstPresentAmount (r : Row) : JSNumber :=
  match (openingFieldNames.map (field r)).find? Option.isSome with
  | some v => toNumber v
  | none => num 0

/-- The amount of the first of the fields `OpeningBalance`, `OB`, `Balance` whose
text is not empty, and `0` when none of them has a non-empty text. -/
def firstNonEmptyAmount (r : Row) : JSNumber :=
  match (openingFieldNames.map (field r)).find? truthy with
  | some v => toNumber v
  | none => num 0

/-- The empty pair of maps with which `updateModeBalances` starts. -/
def emptyLedger : Ledger := { modeBalances := [], openingMap := [] }

/-- The opening-balance row `{Mode: "Cash", OB: "1000"}`. -/
def cashOpening : Row := [("Mode".toList, some "Cash".toList), ("OB".toList, some "1000".toList)]

/-- The opening-balance row `{Mode: "Cash", OpeningBalance: "", OB: "1000"}`, as a
sheet with both columns gives it when the first cell is blank. -/
def blankThenOB : Row :=
  [("Mode".toList, some "Cash".toList), ("OpeningBalance".toList, some []),
    ("OB".toList, some "1000".toList)]

/-! ## The two negative notations -/

/-- The interior `v.slice(1, -1)` of a text. -/
def interior (v : Str) : Str := v.tail.dropLast

/-- The trailing-minus rewrite of `toNumber`:
`if (v.endsWith("-")) v = "-" + v.slice(0, -1)`. -/
def moveTrailingMinus (v : Str) : Str :=
  if endsWithChar v '-' then '-' :: v.dropLast else v

/-- The value normaliser with the two negative notations as alternatives, as the
specification words it: the text is either unwrapped from its parentheses, or
else its trailing minus sign is moved to the front. -/
def toNumberAlternatives (value : Option Str) : JSNumber :=
  match value with
  | none => num 0
  | some s =>
    let v := trim s
    if v = [] then num 0
    else
      let v := removeAED v
      let v := removeINR v
      let v := removeRupee v
      let v := removeSpaces v
      let isBracketNegative := startsWithChar v '(' && endsWithChar v ')'
      let v :=
        if isBracketNegative then v.tail.dropLast
        else if endsWithChar v '-' then '-' :: v.dropLast
        else v
      let v := removeCommas v
      let n := parseFloat v
      if isNaN n then num 0
      else if isBracketNegative then neg n
      else n

/-! ## The pages of a collection -/

/-- The pages `paginate(data, 1)`, ..., `paginate(data, totalPages(data))`, in
order. -/
def allPages {α : Type} (data : List α) : List (List α) :=
  (List.range (totalPages data).toNat).map (fun i : ℕ => paginate data ((i : ℤ) + 1))

/-! ## The engine on the machine -/

/-! The same functions with what the plain description leaves out: Number values
are IEEE 754 doubles, so every sum is rounded, and an object created by `{}`
inherits the members of `Object.prototype`. -/

/-! ### Doubles -/

/-- The number of binary digits of `n`, for `n` at most `fuel`. -/
def bitLength : ℕ → ℕ → ℕ
  | 0, _ => 0
  | fuel + 1, n => if n = 0 then 0 else bitLength fuel (n / 2) + 1

/-- The integer `⌊log₂ a⌋` of a positive rational `a`. -/
def floorLog2 (a : ℚ) : ℤ :=
  let k : ℤ := (bitLength a.num.natAbs a.num.natAbs : ℤ) - (bitLength a.den a.den : ℤ)
  if (2 : ℚ) ^ k ≤ a then k else k - 1

/-- Rounding of a rational to the nearest integer, a tie going to the even one. -/
def roundHalfEven (x : ℚ) : ℤ :=
  if x - ⌊x⌋ < 1 / 2 then ⌊x⌋
  else if 1 / 2 < x - ⌊x⌋ then ⌊x⌋ + 1
  else if ⌊x⌋ % 2 = 0 then ⌊x⌋
  else ⌊x⌋ + 1

/-- The IEEE 754 binary64 value nearest to a positive rational `a`, a tie going to
the even significand: a multiple of `2 ^ e` with a significand of at most 53 bits,
where `e` is at least `-1074`, and `Infinity` when the rounded value reaches
`2 ^ 1024`. -/
def roundPositive (a : ℚ) : JSNumber :=
  let e : ℤ := max (floorLog2 a - 52) (-1074)
  let v : ℚ := (roundHalfEven (a / (2 : ℚ) ^ e) : ℚ) * (2 : ℚ) ^ e
  if v < (2 : ℚ) ^ (1024 : ℤ) then num v else inf false

/-- The double nearest to a rational (round to nearest, ties to even); the two
zeros are not told apart. -/
def roundDouble (q : ℚ) : JSNumber :=
  if q = 0 then num 0
  else if 0 < q then roundPositive q
  else neg (roundPositive (-q))

/-- The Number value of an exact result: `NaN` and the infinities are kept and a
finite value is rounded to the nearest double. -/
def JSNumber.toDouble : JSNumber → JSNumber
  | nan => nan
  | inf b => inf b
  | num q => roundDouble q

/-- The number is a Number value: rounding does not change it. -/
def JSNumber.isDouble (x : JSNumber) : Prop := x.toDouble = x

instance (x : JSNumber) : Decidable x.isDouble := by
  unfold JSNumber.isDouble; infer_instance

namespace Machine

/-- The operator `x + y` on Number values: the exact sum, rounded. -/
def add (x y : JSNumber) : JSNumber := (x + y).toDouble

/-- The operator `x - y` on Number values: the exact difference, rounded. -/
def sub (x y : JSNumber) : JSNumber := (x - y).toDouble

/-- The global function `parseFloat`: the Number value of the decimal that is
read. -/
def parseFloat (s : Str) : JSNumber := (Expenseinr.parseFloat s).toDouble

/-- The value normaliser `toNumber` with Number values. -/
def toNumber (value : Option Str) : JSNumber :=
  match value with
  | none => num 0
  | some s =>
    let v := trim s
    if v = [] then num 0
    else
      let v := removeAED v
      let v := removeINR v
      let v := removeRupee v
      let v := removeSpaces v
      let isBracketNegative := startsWithChar v '(' && endsWithChar v ')'
      let v := if isBracketNegative then v.tail.dropLast else v
      let v := if endsWithChar v '-' then '-' :: v.dropLast else v
      let v := removeCommas v
      let n := parseFloat v
      if isNaN n then num 0
      else if isBracketNegative then neg n
      else n

end Machine

/-! ### Objects with a prototype -/

/-- A value found in an object that the engine indexes with data: `undefined`, a
number, or anything else.  The other values are the members that `{}` inherits
(functions, and the prototype itself under `__proto__`) and the strings that `+`
makes of them; the engine only tests such a value for `undefined` and for
truthiness, adds a number to it, which gives a string, or subtracts a number from
it, which gives `NaN`. -/
inductive Value where
  | undefined : Value
  | number (x : JSNumber) : Value
  | other : Value
  deriving DecidableEq

/-- The names of the properties that an object created by `{}` inherits from
`Object.prototype`. -/
def inheritedNames : List Str :=
  ["constructor".toList, "__defineGetter__".toList, "__defineSetter__".toList,
   "hasOwnProperty".toList, "__lookupGetter__".toList, "__lookupSetter__".toList,
   "isPrototypeOf".toList, "propertyIsEnumerable".toList, "toString".toList,
   "valueOf".toList, "__proto__".toList, "toLocaleString".toList]

/-- The array index that a property name denotes, if any: a decimal numeral
without a leading zero, below `2 ^ 32 - 1`. -/
def arrayIndex (k : Str) : Option ℕ :=
  if k ≠ [] ∧ k.all isDigit = true ∧ (k = ['0'] ∨ k.head? ≠ some '0') ∧
      digitsValue k < 2 ^ 32 - 1 then
    some (digitsValue k)
  else none

/-- The order in which the own properties of an object are enumerated
(`Object.keys`, `Object.values`, `for ... in`): the array indices in rising
order, then the other names in the order of their creation. -/
def enumerate {α : Type} (o : Obj α) : Obj α :=
  (o.filter (fun kv => (arrayIndex kv.1).isSome)).insertionSort
      (fun a b => (arrayIndex a.1).getD 0 ≤ (arrayIndex b.1).getD 0) ++
    o.filter (fun kv => !(arrayIndex kv.1).isSome)

/-- An object created by `{}`, with its own properties in the order of their
creation. -/
abbrev Dict := Obj Value

namespace Dict

/-- The property read `d[k]`: an own property, else an inherited member, else
`undefined`. -/
def read (d : Dict) (k : Str) : Value :=
  match Obj.get d k with
  | some v => v
  | none => if k ∈ inheritedNames then Value.other else Value.undefined

/-- The property write `d[k] = v` of a number or a string: the name `__proto__`,
unless it is an own property, is the inherited setter, which ignores such a
value; any other name gets an own property. -/
def write (d : Dict) (k : Str) (v : Value) : Dict :=
  if k = "__proto__".toList ∧ Obj.get d k = none then d else Obj.set d k v

/-- The list `Object.keys(d)`. -/
def keys (d : Dict) : List Str := Obj.keys (enumerate d)

/-- The list `Object.values(d)`. -/
def values (d : Dict) : List Value := Obj.values (enumerate d)

end Dict

namespace Value

/-- The expression `v + x` for a number `x`. -/
def plus (v : Value) (x : JSNumber) : Value :=
  match v with
  | undefined => number nan
  | number a => number (Machine.add a x)
  | other => other

/-- The expression `v - x` for a number `x`. -/
def minus (v : Value) (x : JSNumber) : Value :=
  match v with
  | undefined => number nan
  | number a => number (Machine.sub a x)
  | other => number nan

/-- The expression `v || 0`. -/
def orZero (v : Value) : Value :=
  match v with
  | undefined => number 0
  | number x => if x = nan ∨ x = num 0 then number 0 else number x
  | other => other

/-- The number that a value is in a sum of numbers: `NaN` for what is not a
number. -/
def asNumber (v : Value) : JSNumber :=
  match v with
  | number x => x
  | _ => nan

end Value

namespace Machine

/-- The two maps built by `updateModeBalances`. -/
structure Ledger where
  modeBalances : Dict
  openingMap : Dict
  deriving DecidableEq

/-- The statement `if (mb[k] === undefined) mb[k] = 0;`. -/
def ensure (mb : Dict) (k : Str) : Dict :=
  if Dict.read mb k = Value.undefined then Dict.write mb k (Value.number 0) else mb

/-- The body of `openingBalanceData.forEach`. -/
def openingStep (l : Ledger) (r : Row) : Ledger :=
  let mode := trim (orEmpty (field r "Mode".toList))
  if mode = [] then l
  else
    let obVal := toNumber (openingField r)
    { openingMap := Dict.write l.openingMap mode (Value.number obVal),
      modeBalances := Dict.write l.modeBalances mode (Value.number obVal) }

/-- The body of `receiptData.forEach`. -/
def receiptStep (mb : Dict) (r : Row) : Dict :=
  let mode := trim (orEmpty (field r "Mode".toList))
  if mode = [] then mb
  else
    let mb := ensure mb mode
    Dict.write mb mode ((Dict.read mb mode).plus (toNumber (field r "Amount".toList)))

/-- The body of `expenseData.forEach`. -/
def expenseStep (mb : Dict) (r : Row) : Dict :=
  let mode := trim (orEmpty (field r "Mode".toList))
  if mode = [] then mb
  else
    let mb := ensure mb mode
    Dict.write mb mode ((Dict.read mb mode).minus (toNumber (field r "Amount".toList)))

/-- The body of `contraData.forEach`. -/
def contraStep (mb : Dict) (r : Row) : Dict :=
  let from_ := trim (orEmpty (field r "From".toList))
  let to_ := trim (orEmpty (field r "To".toList))
  let amt := toNumber (field r "Amount".toList)
  let mb :=
    if from_ = [] then mb
    else
      let mb := ensure mb from_
      Dict.write mb from_ ((Dict.read mb from_).minus amt)
  let mb :=
    if to_ = [] then mb
    else
      let mb := ensure mb to_
      Dict.write mb to_ ((Dict.read mb to_).plus amt)
  mb

/-- The maps of `updateModeBalances` after its four loops. -/
def ledger (s : State) : Ledger :=
  let l := s.openingBalanceData.foldl openingStep { modeBalances := [], openingMap := [] }
  let mb := s.receiptData.foldl receiptStep l.modeBalances
  let mb := s.expenseData.foldl expenseStep mb
  let mb := s.contraData.foldl contraStep mb
  { modeBalances := mb, openingMap := l.openingMap }

/-- One balance card: the mode, its balance and its opening balance. -/
structure Card where
  mode : Str
  val : Value
  ob : Value
  deriving DecidableEq

/-- The function `updateModeBalances`: the cards it renders, in order.  The
collation order of `localeCompare` is a parameter. -/
def updateModeBalances (localeCompare : Str → Str → ℤ) (s : State) : List Card :=
  let l := ledger s
  let sortedModes :=
    (Dict.keys l.modeBalances).insertionSort (fun a b => localeCompare a b ≤ 0)
  sortedModes.map
    (fun mode =>
      { mode := mode, val := Dict.read l.modeBalances mode,
        ob := (Dict.read l.openingMap mode).orZero })

/-- The amount of a row, `toNumber(r.Amount)`, as a Number value. -/
def amountOf (r : Row) : JSNumber := toNumber (field r "Amount".toList)

/-- The opening balance that an opening-balance row seeds, as a Number value. -/
def openingAmount (r : Row) : JSNumber := toNumber (openingField r)

/-- The statements `if (mb[k] === undefined) mb[k] = 0;` and then `mb[k] += a`
(a credit) or `mb[k] -= a` (a debit). -/
def applyFlow (mb : Dict) (k : Str) (credit : Bool) (a : JSNumber) : Dict :=
  Dict.write (ensure mb k) k
    (if credit then (Dict.read (ensure mb k) k).plus a else (Dict.read (ensure mb k) k).minus a)

/-- What a credit or a debit of `a` makes of the value `v` of an entry. -/
def stepValue (v : Value) (f : Bool × JSNumber) : Value :=
  if f.1 then (if v = Value.undefined then Value.number 0 else v).plus f.2
  else (if v = Value.undefined then Value.number 0 else v).minus f.2

/-- The credits (`true`) and debits (`false`) that the loops make to the entry
`m`, in their order: the receipts, the expenses, and for every contra the debit of
its `From` and then the credit of its `To`. -/
def flowsAt (s : State) (m : Str) : List (Bool × JSNumber) :=
  (s.receiptData.filter (fun r => modeOf r = m)).map (fun r => (true, amountOf r)) ++
    ((s.expenseData.filter (fun r => modeOf r = m)).map (fun r => (false, amountOf r)) ++
      s.contraData.flatMap (fun r =>
        (if fromOf r = m then [(false, amountOf r)] else []) ++
          (if toOf r = m then [(true, amountOf r)] else [])))

/-- The opening balance of mode `m`: the opening amount of the opening-balance
row for `m` (the last one, should there be several) and `0` when there is none. -/
def openingBalanceOf (rows : List Row) (m : Str) : JSNumber :=
  match (rows.filter (fun r => modeOf r = m)).getLast? with
  | none => 0
  | some r => openingAmount r

/-- The value of the entry `m` once the opening-balance loop has run on empty
maps: the opening amount of the last opening-balance row for `m`, and what `{}`
gives for `m` when there is none. -/
def openingValue (rows : List Row) (m : Str) : Value :=
  match (rows.filter (fun r => modeOf r = m)).getLast? with
  | none => Dict.read [] m
  | some r => Value.number (openingAmount r)

/-- The amount of a credit, and minus the amount of a debit. -/
def signed (f : Bool × JSNumber) : JSNumber := if f.1 then f.2 else -f.2

/-- No credit or debit of the sequence rounds when it is applied in order to the
balance `x`: every new balance, as an exact sum, is a Number value. -/
def NoRounding : JSNumber → List (Bool × JSNumber) → Prop
  | _, [] => True
  | x, f :: fs => (x + signed f).isDouble ∧ NoRounding (x + signed f) fs

/-- Whether a sequence of credits and debits rounds can be computed. -/
def decNoRounding :
    (x : JSNumber) → (fs : List (Bool × JSNumber)) → Decidable (NoRounding x fs)
  | _, [] => isTrue trivial
  | x, f :: fs =>
    @instDecidableAnd _ _ (inferInstanceAs (Decidable (x + signed f).isDouble))
      (decNoRounding (x + signed f) fs)

instance (x : JSNumber) (fs : List (Bool × JSNumber)) : Decidable (NoRounding x fs) :=
  decNoRounding x fs

/-- A credit or a debit of a numeric balance. -/
def numStep (x : JSNumber) (f : Bool × JSNumber) : JSNumber :=
  if f.1 then add x f.2 else sub x f.2

end Machine

/-- The object has distinct own names and no own property `__proto__`, as every
object has that is built from `{}` by writes of numbers and strings. -/
def Dict.Clean (d : Dict) : Prop :=
  (Obj.keys d).Nodup ∧ Obj.get d "__proto__".toList = none

/-- A mode name occurs in the inputs: as the trimmed `Mode` of an opening-balance
row, a receipt or an expense, or as the trimmed `From` or `To` of a contra. -/
def Occurs (s : State) (m : Str) : Prop :=
  m ∈ s.openingBalanceData.map modeOf ∨ m ∈ s.receiptData.map modeOf ∨
    m ∈ s.expenseData.map modeOf ∨ m ∈ s.contraData.map fromOf ∨ m ∈ s.contraData.map toOf

/-- A single receipt of 500 on the mode `__proto__`. -/
def protoReceipt : State :=
  { currencySymbol := "₹".toList, expenseData := [],
    receiptData := [[("Mode".toList, some "__proto__".toList), ("Amount".toList, some "500".toList)]],
    contraData := [], openingBalanceData := [],
    expensePage := 1, receiptPage := 1, contraPage := 1 }

/-- A single receipt of 500 on the mode `constructor`. -/
def constructorReceipt : State :=
  { currencySymbol := "₹".toList, expenseData := [],
    receiptData :=
      [[("Mode".toList, some "constructor".toList), ("Amount".toList, some "500".toList)]],
    contraData := [], openingBalanceData := [],
    expensePage := 1, receiptPage := 1, contraPage := 1 }

/-- Opening balance `Cash` 0.1 and two receipts on `Cash`, 0.2 and 0.3. -/
def tenthsState : State :=
  { currencySymbol := "₹".toList, expenseData := [],
    receiptData :=
      [[("Mode".toList, some "Cash".toList), ("Amount".toList, some "0.2".toList)],
       [("Mode".toList, some "Cash".toList), ("Amount".toList, some "0.3".toList)]],
    contraData := [],
    openingBalanceData := [[("Mode".toList, some "Cash".toList), ("OB".toList, some "0.1".toList)]],
    expensePage := 1, receiptPage := 1, contraPage := 1 }

/-- A state with the given rows and nothing else. -/
def stateOf (opening receipts expenses contras : List Row) : State :=
  { currencySymbol := "₹".toList, expenseData := expenses, receiptData := receipts,
    contraData := contras, openingBalanceData := opening,
    expensePage := 1, receiptPage := 1, contraPage := 1 }

/-- A single contra of 300 with an empty `From` and `To` `Bank`. -/
def contraWithoutFrom : State :=
  stateOf [] [] [] [[("From".toList, some []), ("To".toList, some "Bank".toList),
    ("Amount".toList, some "300".toList)]]

/-- A single contra from `Cash` to `Bank` with the amount `Infinity`. -/
def infiniteContra : State :=
  stateOf [] [] [] [[("From".toList, some "Cash".toList), ("To".toList, some "Bank".toList),
    ("Amount".toList, some "Infinity".toList)]]

/-- A single expense of 500 with an empty `Mode`. -/
def expenseWithoutMode : State :=
  stateOf [] [] [[("Mode".toList, some []), ("Amount".toList, some "500".toList)]] []

/-- A single opening-balance row of 100 with an empty `Mode`. -/
def openingWithoutMode : State :=
  stateOf [[("Mode".toList, some []), ("OB".toList, some "100".toList)]] [] [] []

/-- A single opening-balance row of 100 on the mode `__proto__`. -/
def protoOpening : State :=
  stateOf [[("Mode".toList, some "__proto__".toList), ("OB".toList, some "100".toList)]] [] [] []

/-- A single receipt of 500 on the mode `m`. -/
def receiptOn (m : Str) : State :=
  stateOf [] [[("Mode".toList, some m), ("Amount".toList, some "500".toList)]] [] []

/-- The total of the balances: the exact sum of the values of the map, a value
that is not a number counting as `NaN`. -/
def Dict.total (d : Dict) : JSNumber := ((Dict.values d).map Value.asNumber).sum

/-- The entry `k` of the map holds the number `x`: it is an own property with
that value, or there is no such property, nothing is inherited under that name,
and `x` is `0`. -/
def Dict.HasBalance (d : Dict) (k : Str) (x : JSNumber) : Prop :=
  Obj.get d k = some (Value.number x) ∨ (Obj.get d k = none ∧ k ∉ inheritedNames ∧ x = 0)

/-- The contra with the given `From`, `To` and `Amount`. -/
def contraRow (f t a : Str) : Row :=
  [("From".toList, some f), ("To".toList, some t), ("Amount".toList, some a)]

/-- A balance map with the single entry `Cash`, ten thousand million million. -/
def largeCash : Dict := [("Cash".toList, Value.number (num 10000000000000000))]

namespace Machine

/-- The property write `cleaned[k] = v` of a string on an object created by `{}`:
the name `__proto__`, unless it is an own property, is the inherited setter, which
ignores a string; any other name gets an own property. -/
def assign (o : Row) (k : Str) (v : Option Str) : Row :=
  if k = "__proto__".toList ∧ Obj.get o k = none then o else Obj.set o k v

/-- The function `cleanRow`: every own key of `row`, in the order of `for ... in`,
is written trimmed into a fresh object with the trimmed text of its value. -/
def cleanRow (row : Row) : Row :=
  (Obj.keys (enumerate row)).foldl
    (fun cleaned key => assign cleaned (trim key) (some (trim (orEmpty (field row key)))))
    []

/-- The function `removeEmptyRows`. -/
def removeEmptyRows (data : List Row) : List Row :=
  (data.map cleanRow).filter (fun r => (Obj.values (enumerate r)).any (fun v => v != some []))

end Machine

/-! ## Chart totals -/

/-- The trimmed `Month` of a row, `(r.Month || "").trim()`. -/
def monthOf (r : Row) : Str := trim (orEmpty (field r "Month".toList))

/-- The trimmed `Group` of a row, `(r.Group || "").trim()`. -/
def groupOf (r : Row) : Str := trim (orEmpty (field r "Group".toList))

namespace Machine

/-- The data handed to one chart: the labels and the values. -/
structure Series where
  labels : List Str
  data : List Value
  deriving DecidableEq

/-- The data of the four charts that `updateCharts` draws. -/
structure Charts where
  expenseTrend : Series
  expenseMode : Series
  expenseGroup : Series
  receiptVsExpense : Series
  deriving DecidableEq

/-- The function `updateCharts`: the data it hands to the four charts.  The
collation order of `localeCompare` is a parameter. -/
def updateCharts (localeCompare : Str → Str → ℤ) (host : Host) (ctl : Controls) (s : State) :
    Charts :=
  let monthTotals : Dict :=
    s.expenseData.foldl
      (fun monthTotals r =>
        let m := trim (orEmpty (field r "Month".toList))
        if m = [] then monthTotals
        else Dict.write monthTotals m
          ((Dict.read monthTotals m).orZero.plus (toNumber (field r "Amount".toList))))
      []
  let months := (Dict.keys monthTotals).insertionSort (fun a b => localeCompare a b ≤ 0)
  let totals := months.map (fun m => Dict.read monthTotals m)
  let expFiltered := applyFilters host ctl s.expenseData "expense".toList
  let modeTotals : Dict :=
    expFiltered.foldl
      (fun modeTotals r =>
        let mode := trim (orEmpty (field r "Mode".toList))
        if mode = [] then modeTotals
        else Dict.write modeTotals mode
          ((Dict.read modeTotals mode).orZero.plus (toNumber (field r "Amount".toList))))
      []
  let groupTotals : Dict :=
    expFiltered.foldl
      (fun groupTotals r =>
        let g := trim (orEmpty (field r "Group".toList))
        if g = [] then groupTotals
        else Dict.write groupTotals g
          ((Dict.read groupTotals g).orZero.plus (toNumber (field r "Amount".toList))))
      []
  let recFiltered := applyFilters host ctl s.receiptData "receipt".toList
  let totalExp := expFiltered.foldl (fun sum r => add sum (toNumber (field r "Amount".toList))) 0
  let totalRec := recFiltered.foldl (fun sum r => add sum (toNumber (field r "Amount".toList))) 0
  { expenseTrend := { labels := months, data := totals },
    expenseMode := { labels := Dict.keys modeTotals, data := Dict.values modeTotals },
    expenseGroup := { labels := Dict.keys groupTotals, data := Dict.values groupTotals },
    receiptVsExpense :=
      { labels := ["Expense (Net)".toList, "Receipts".toList],
        data := [Value.number totalExp, Value.number totalRec] } }

end Machine

/-- Three January expenses with the amounts `Infinity`, `-Infinity` and `5`. -/
def infiniteJanuary : State :=
  { currencySymbol := "₹".toList,
    expenseData :=
      [[("Date".toList, some "01/Jan/2024".toList), ("Month".toList, some "Jan".toList),
        ("Mode".toList, some "Cash".toList), ("Group".toList, some "Food".toList),
        ("Amount".toList, some "Infinity".toList)],
       [("Date".toList, some "02/Jan/2024".toList), ("Month".toList, some "Jan".toList),
        ("Mode".toList, some "Cash".toList), ("Group".toList, some "Food".toList),
        ("Amount".toList, some "-Infinity".toList)],
       [("Date".toList, some "03/Jan/2024".toList), ("Month".toList, some "Jan".toList),
        ("Mode".toList, some "Cash".toList), ("Group".toList, some "Food".toList),
        ("Amount".toList, some "5".toList)]],
    receiptData := [], contraData := [], openingBalanceData := [],
    expensePage := 1, receiptPage := 1, contraPage := 1 }

/-! # Theorems -/

/-! ## The value normaliser -/

theorem removeAll3_cons_of_not {m1 m2 m3 : Char → Bool} {a : Char} (t : Str)
    (h : m1 a = false) : removeAll3 m1 m2 m3 (a :: t) = a :: removeAll3 m1 m2 m3 t := by
  rcases t with _ | ⟨b, _ | ⟨c, rest⟩⟩ <;> simp [removeAll3, h]

theorem removeAll3_append_of_not {m1 m2 m3 : Char → Bool} (p q : Str)
    (h : ∀ c ∈ p, m1 c = false) :
    removeAll3 m1 m2 m3 (p ++ q) = p ++ removeAll3 m1 m2 m3 q := by
  induction p with
  | nil => rfl
  | cons a p ih =>
    rw [List.cons_append, removeAll3_cons_of_not _ (h a (by simp)), ih (fun c hc => h c (by simp [hc]))]
    rfl

theorem removeAll3_of_not {m1 m2 m3 : Char → Bool} (p : Str)
    (h : ∀ c ∈ p, m1 c = false) : removeAll3 m1 m2 m3 p = p := by
  have := @removeAll3_append_of_not m1 m2 m3 p [] h
  simpa [removeAll3] using this

theorem removeAll3_append_right {m1 m2 m3 : Char → Bool} (t w : Str)
    (h : ∀ c ∈ w, m1 c = false ∧ m2 c = false ∧ m3 c = false) :
    removeAll3 m1 m2 m3 (t ++ w) = removeAll3 m1 m2 m3 t ++ w := by
  induction t using removeAll3.induct m1 m2 m3 with
  | case1 a b c rest hm ih =>
    simp only [List.cons_append, removeAll3, hm, if_true]
    exact ih
  | case2 a b c rest hm ih =>
    simp only [List.cons_append, removeAll3, hm] at ih ⊢
    simp [ih]
  | case3 a t hne ih =>
    rcases t with _ | ⟨b, _ | ⟨c, rest⟩⟩
    · rcases w with _ | ⟨x, _ | ⟨y, w⟩⟩
      · simp [removeAll3]
      · simp [removeAll3]
      · have hy := h y (by simp)
        have hr := @removeAll3_of_not m1 m2 m3 (x :: y :: w)
          (fun c hc => (h c hc).1)
        simp [removeAll3, hy.2.2, hr]
    · rcases w with _ | ⟨x, w⟩
      · simp [removeAll3]
      · have hx := h x (by simp)
        have hr := @removeAll3_of_not m1 m2 m3 (x :: w)
          (fun c hc => (h c hc).1)
        have hb : removeAll3 m1 m2 m3 (b :: x :: w) = b :: x :: w := by
          rcases w with _ | ⟨y, w⟩
          · simp [removeAll3]
          · have hy := h y (by simp)
            simp only [removeAll3, hy.2.2, Bool.and_false]
            simp [hr]
        simp [removeAll3, hx.2.2, hb]
    · exact absurd rfl (hne b c rest)
  | case4 => simp [removeAll3_of_not w (fun c hc => (h c hc).1), removeAll3]

theorem trim_decomp (s : Str) :
    ∃ w1 w2 : Str, (∀ c ∈ w1, isWhiteSpace c = true) ∧ (∀ c ∈ w2, isWhiteSpace c = true) ∧
      s = w1 ++ trim s ++ w2 := by
  refine ⟨s.takeWhile isWhiteSpace, (s.dropWhile isWhiteSpace).rtakeWhile isWhiteSpace, ?_, ?_, ?_⟩
  · intro c hc
    exact List.mem_takeWhile_imp hc
  · intro c hc
    exact List.mem_rtakeWhile_imp hc
  · unfold trim
    have h : ∀ l : Str, l.rdropWhile isWhiteSpace ++ l.rtakeWhile isWhiteSpace = l := by
      intro l
      simp [List.rdropWhile, List.rtakeWhile, ← List.reverse_append,
        List.takeWhile_append_dropWhile]
    rw [List.append_assoc, h, List.takeWhile_append_dropWhile]

theorem letter_false_of_ws {u l c : Char} (hu : isWhiteSpace u = false) (hl : isWhiteSpace l = false)
    (hc : isWhiteSpace c = true) : letter u l c = false := by
  have hcu : c ≠ u := by rintro rfl; simp_all
  have hcl : c ≠ l := by rintro rfl; simp_all
  simp [letter, hcu, hcl]

theorem removeAll3_ws_frame {u1 l1 u2 l2 u3 l3 : Char}
    (h1 : isWhiteSpace u1 = false ∧ isWhiteSpace l1 = false)
    (h2 : isWhiteSpace u2 = false ∧ isWhiteSpace l2 = false)
    (h3 : isWhiteSpace u3 = false ∧ isWhiteSpace l3 = false)
    (w1 t w2 : Str) (hw1 : ∀ c ∈ w1, isWhiteSpace c = true) (hw2 : ∀ c ∈ w2, isWhiteSpace c = true) :
    removeAll3 (letter u1 l1) (letter u2 l2) (letter u3 l3) (w1 ++ t ++ w2) =
      w1 ++ removeAll3 (letter u1 l1) (letter u2 l2) (letter u3 l3) t ++ w2 := by
  rw [List.append_assoc, removeAll3_append_of_not, removeAll3_append_right, List.append_assoc]
  · intro c hc
    exact ⟨letter_false_of_ws h1.1 h1.2 (hw2 c hc), letter_false_of_ws h2.1 h2.2 (hw2 c hc),
      letter_false_of_ws h3.1 h3.2 (hw2 c hc)⟩
  · intro c hc
    exact letter_false_of_ws h1.1 h1.2 (hw1 c hc)

theorem removeSpaces_ws {w : Str} (h : ∀ c ∈ w, isWhiteSpace c = true) : removeSpaces w = [] := by
  simp only [removeSpaces, List.filter_eq_nil_iff]
  intro c hc
  simp [h c hc]

theorem removeRupee_ws {w : Str} (h : ∀ c ∈ w, isWhiteSpace c = true) : removeRupee w = w := by
  simp only [removeRupee, List.filter_eq_self]
  intro c hc
  have := h c hc
  by_contra hne
  simp at hne
  subst hne
  revert this
  decide

theorem stripped_eq (s : Str) :
    stripped s = removeSpaces (removeRupee (removeINR (removeAED s))) := by
  obtain ⟨w1, w2, h1, h2, hs⟩ := trim_decomp s
  conv_rhs => rw [hs]
  unfold stripped removeAED removeINR
  rw [removeAll3_ws_frame (by decide) (by decide) (by decide) _ _ _ h1 h2,
    removeAll3_ws_frame (by decide) (by decide) (by decide) _ _ _ h1 h2]
  simp only [removeRupee, removeSpaces, List.filter_append]
  have e1 := removeRupee_ws h1
  have e2 := removeRupee_ws h2
  have e3 := removeSpaces_ws h1
  have e4 := removeSpaces_ws h2
  simp only [removeRupee, removeSpaces] at e1 e2 e3 e4
  rw [e1, e2, e3, e4]
  simp

theorem digitsValue_foldl (n : ℕ) (b : Str) :
    b.foldl (fun n c => 10 * n + (c.toNat - 48)) n = n * 10 ^ b.length + digitsValue b := by
  unfold digitsValue
  induction b generalizing n with
  | nil => simp
  | cons c b ih =>
    simp only [List.foldl_cons, List.length_cons]
    rw [ih, ih (10 * 0 + (c.toNat - 48))]
    ring

theorem digitsValue_append (a b : Str) :
    digitsValue (a ++ b) = digitsValue a * 10 ^ b.length + digitsValue b := by
  conv_lhs => unfold digitsValue
  rw [List.foldl_append, digitsValue_foldl]
  rfl

theorem scale10_neg_nat (q : ℚ) (n : ℕ) : scale10 q (0 - (n : ℤ)) = q / 10 ^ n := by
  cases n with
  | zero => simp [scale10]
  | succ k =>
    have : (0 : ℤ) - ((k + 1 : ℕ) : ℤ) = Int.negSucc k := by
      simp [Int.negSucc_eq]
    rw [this]
    rfl

theorem isDigit_not_ws {c : Char} (h : isDigit c = true) : isWhiteSpace c = false := by
  simp only [isDigit, Bool.and_eq_true, decide_eq_true_eq] at h
  simp only [isWhiteSpace, Bool.or_eq_false_iff, Bool.and_eq_false_iff, beq_eq_false_iff_ne,
    decide_eq_false_iff_not, ne_eq]
  omega

theorem isDigit_ne {c x : Char} (h : isDigit c = true) (hx : isDigit x = false) : c ≠ x := by
  rintro rfl; simp [h] at hx

theorem infinity_not_leading {c : Char} (t : Str) (h : c ≠ 'I') :
    ¬ ("Infinity".toList <+: c :: t) := by
  have e : "Infinity".toList = 'I' :: "nfinity".toList := by decide
  rw [e, List.cons_prefix_cons]
  rintro ⟨rfl, -⟩
  exact h rfl

theorem parseUnsigned_decimal (ip fp : Str) (hne : ip ≠ [])
    (hip : ∀ c ∈ ip, isDigit c = true) (hfp : ∀ c ∈ fp, isDigit c = true) :
    parseUnsigned (unsignedText ip fp) = num (decimalValue ip fp) := by
  obtain ⟨c, ip', rfl⟩ := List.exists_cons_of_ne_nil hne
  have hc : isDigit c = true := hip c (by simp)
  have hI : c ≠ 'I' := isDigit_ne hc (by decide)
  unfold unsignedText
  split_ifs with hfpe
  · subst hfpe
    have h1 : (c :: ip').takeWhile isDigit = c :: ip' := List.takeWhile_eq_self_iff.mpr hip
    have h2 : (c :: ip').dropWhile isDigit = [] := List.dropWhile_eq_nil_iff.mpr hip
    unfold parseUnsigned
    rw [if_neg (infinity_not_leading _ hI)]
    simp only [h1, h2]
    simp [exponentPart, scale10, decimalValue, digitsValue]
  · have h1 : (c :: ip' ++ '.' :: fp).takeWhile isDigit = c :: ip' := by
      rw [List.takeWhile_append_of_pos hip]
      simp [List.takeWhile, show isDigit '.' = false by decide]
    have h2 : (c :: ip' ++ '.' :: fp).dropWhile isDigit = '.' :: fp := by
      rw [List.dropWhile_append_of_pos hip]
      simp [List.dropWhile, show isDigit '.' = false by decide]
    have h3 : fp.takeWhile isDigit = fp := List.takeWhile_eq_self_iff.mpr hfp
    have h4 : fp.dropWhile isDigit = [] := List.dropWhile_eq_nil_iff.mpr hfp
    unfold parseUnsigned
    rw [if_neg (by rw [List.cons_append]; exact infinity_not_leading _ hI)]
    simp only [h1, h2, h3, h4]
    rw [if_neg (by simp)]
    simp only [exponentPart, scale10_neg_nat, digitsValue_append, decimalValue]
    congr 1
    push_cast
    field_simp

theorem parseFloat_decimal (ip fp : Str) (hne : ip ≠ [])
    (hip : ∀ c ∈ ip, isDigit c = true) (hfp : ∀ c ∈ fp, isDigit c = true) :
    parseFloat (unsignedText ip fp) = num (decimalValue ip fp) := by
  rw [← parseUnsigned_decimal ip fp hne hip hfp]
  obtain ⟨c, ip', rfl⟩ := List.exists_cons_of_ne_nil hne
  have hc : isDigit c = true := hip c (by simp)
  have e : unsignedText (c :: ip') fp = c :: (if fp = [] then ip' else ip' ++ '.' :: fp) := by
    unfold unsignedText; split_ifs <;> rfl
  rw [e]
  unfold parseFloat
  simp only [List.dropWhile, isDigit_not_ws hc]
  have hm : c ≠ '-' := isDigit_ne hc (by decide)
  have hp : c ≠ '+' := isDigit_ne hc (by decide)
  split
  · rename_i h; simp at h; exact absurd h.1 hm
  · rename_i h; simp at h; exact absurd h.1 hp
  · rfl

theorem parseFloat_minus (t : Str) : parseFloat ('-' :: t) = neg (parseUnsigned t) := by
  unfold parseFloat
  simp [List.dropWhile, show isWhiteSpace '-' = false by decide]

theorem toNumber_some (s : Str) :
    toNumber (some s) =
      if trim s = [] then num 0
      else if isNaN (parseFloat (parsedText s)) then num 0
      else if bracketNegative s then neg (parseFloat (parsedText s))
      else parseFloat (parsedText s) := rfl

theorem isNaN_neg (x : JSNumber) : isNaN (neg x) = isNaN x := by
  cases x <;> rfl

theorem ne_nan_of_isNaN {x : JSNumber} (h : isNaN x = false) : x ≠ nan := by
  rintro rfl; simp [isNaN] at h

/-- C6: `toNumber` is total and lenient.  It gives `0` for `null` and `undefined`
and for every string that is empty after trimming; it never gives `NaN`; it
gives `0` whenever `parseFloat` finds no number in the cleaned text; and
`toNumber("garbage")` is `0`. -/
theorem toNumber_total_lenient :
    toNumber none = num 0 ∧
    (∀ s : Str, trim s = [] → toNumber (some s) = num 0) ∧
    (∀ v : Option Str, toNumber v ≠ nan) ∧
    (∀ s : Str, parseFloat (parsedText s) = nan → toNumber (some s) = num 0) ∧
    toNumber (some "garbage".toList) = num 0 := by
  refine ⟨rfl, ?_, ?_, ?_, by decide!⟩
  · intro s h
    simp [toNumber_some, h]
  · intro v
    cases v with
    | none => simp [toNumber]
    | some s =>
      rw [toNumber_some]
      split_ifs with h1 h2 h3
      · simp
      · simp
      · apply ne_nan_of_isNaN
        rw [isNaN_neg]; simpa using h2
      · apply ne_nan_of_isNaN
        simpa using h2
  · intro s h
    rw [toNumber_some, h]
    simp [isNaN]

/-- C6 at the blank text `" \t"`: it is empty after trimming and is read as `0`. -/
theorem toNumber_total_lenient_witness :
    trim " \t".toList = [] ∧ toNumber (some " \t".toList) = num 0 :=
  ⟨by decide, toNumber_total_lenient.2.1 _ (by decide)⟩

theorem plainChar_special :
    ∀ x ∈ ['A', 'a', 'E', 'e', 'D', 'd', 'I', 'i', 'N', 'n', 'R', 'r', '₹'], plainChar x = false := by
  decide

theorem plainChar_ne {c x : Char} (hc : plainChar c = true)
    (hx : x ∈ ['A', 'a', 'E', 'e', 'D', 'd', 'I', 'i', 'N', 'n', 'R', 'r', '₹']) : c ≠ x := by
  rintro rfl
  rw [plainChar_special c hx] at hc
  exact Bool.false_ne_true hc

theorem letter_false_of_plain {u l c : Char} (hc : plainChar c = true)
    (hu : u ∈ ['A', 'a', 'E', 'e', 'D', 'd', 'I', 'i', 'N', 'n', 'R', 'r', '₹'])
    (hl : l ∈ ['A', 'a', 'E', 'e', 'D', 'd', 'I', 'i', 'N', 'n', 'R', 'r', '₹']) :
    letter u l c = false := by
  simp [letter, plainChar_ne hc hu, plainChar_ne hc hl]

theorem removeRupee_plain {p : Str} (h : ∀ c ∈ p, plainChar c = true) : removeRupee p = p := by
  simp only [removeRupee, List.filter_eq_self]
  intro c hc
  simpa using plainChar_ne (h c hc) (by decide)

theorem removeAED_plain {p : Str} (h : ∀ c ∈ p, plainChar c = true) : removeAED p = p :=
  removeAll3_of_not p (fun c hc => letter_false_of_plain (h c hc) (by decide) (by decide))

theorem removeINR_plain {p : Str} (h : ∀ c ∈ p, plainChar c = true) : removeINR p = p :=
  removeAll3_of_not p (fun c hc => letter_false_of_plain (h c hc) (by decide) (by decide))

theorem strip_markers (p m q : Str) (hp : ∀ c ∈ p, plainChar c = true)
    (hq : ∀ c ∈ q, plainChar c = true) (hm : m = [] ∨ isMarker m = true) :
    removeRupee (removeINR (removeAED (p ++ m ++ q))) = p ++ q := by
  have hpq : ∀ c ∈ p ++ q, plainChar c = true := by
    intro c hc
    rcases List.mem_append.mp hc with h | h
    · exact hp c h
    · exact hq c h
  have hpA : ∀ c ∈ p, letter 'A' 'a' c = false :=
    fun c hc => letter_false_of_plain (hp c hc) (by decide) (by decide)
  have hpI : ∀ c ∈ p, letter 'I' 'i' c = false :=
    fun c hc => letter_false_of_plain (hp c hc) (by decide) (by decide)
  rcases hm with rfl | hm
  · simp only [List.append_nil]
    rw [removeAED_plain hpq, removeINR_plain hpq, removeRupee_plain hpq]
  · rcases m with _ | ⟨a, _ | ⟨e, _ | ⟨d, _ | ⟨x, m⟩⟩⟩⟩
    · simp [isMarker] at hm
    · simp only [isMarker, beq_iff_eq] at hm
      subst hm
      have h1 : removeAED (p ++ ['₹'] ++ q) = p ++ ['₹'] ++ q := by
        apply removeAll3_of_not
        intro c hc
        simp only [List.mem_append, List.mem_singleton] at hc
        rcases hc with (h | rfl) | h
        · exact hpA c h
        · decide
        · exact letter_false_of_plain (hq c h) (by decide) (by decide)
      have h2 : removeINR (p ++ ['₹'] ++ q) = p ++ ['₹'] ++ q := by
        apply removeAll3_of_not
        intro c hc
        simp only [List.mem_append, List.mem_singleton] at hc
        rcases hc with (h | rfl) | h
        · exact hpI c h
        · decide
        · exact letter_false_of_plain (hq c h) (by decide) (by decide)
      rw [h1, h2]
      have e1 := removeRupee_plain hp
      have e2 := removeRupee_plain hq
      simp only [removeRupee] at e1 e2 ⊢
      simp [List.filter_append, e1, e2]
    · simp [isMarker] at hm
    · simp only [isMarker, Bool.or_eq_true, Bool.and_eq_true] at hm
      rcases hm with ⟨⟨ha, he⟩, hd⟩ | ⟨⟨ha, he⟩, hd⟩
      · have h1 : removeAED (p ++ [a, e, d] ++ q) = p ++ q := by
          unfold removeAED
          rw [List.append_assoc, removeAll3_append_of_not _ _ hpA]
          show p ++ removeAll3 _ _ _ (a :: e :: d :: q) = p ++ q
          have hqA : removeAll3 (letter 'A' 'a') (letter 'E' 'e') (letter 'D' 'd') q = q :=
            removeAED_plain hq
          simp [removeAll3, ha, he, hd, hqA]
        rw [h1, removeINR_plain hpq, removeRupee_plain hpq]
      · have hA : ∀ c ∈ [a, e, d], letter 'A' 'a' c = false := by
          have ha' : letter 'A' 'a' a = false := by
            simp only [letter, Bool.or_eq_true, beq_iff_eq] at ha
            rcases ha with rfl | rfl <;> decide
          have he' : letter 'A' 'a' e = false := by
            simp only [letter, Bool.or_eq_true, beq_iff_eq] at he
            rcases he with rfl | rfl <;> decide
          have hd' : letter 'A' 'a' d = false := by
            simp only [letter, Bool.or_eq_true, beq_iff_eq] at hd
            rcases hd with rfl | rfl <;> decide
          intro c hc
          simp only [List.mem_cons, List.mem_singleton, List.not_mem_nil, or_false] at hc
          rcases hc with rfl | rfl | rfl <;> assumption
        have h1 : removeAED (p ++ [a, e, d] ++ q) = p ++ [a, e, d] ++ q := by
          apply removeAll3_of_not
          intro c hc
          simp only [List.mem_append] at hc
          rcases hc with (h | h) | h
          · exact hpA c h
          · exact hA c h
          · exact letter_false_of_plain (hq c h) (by decide) (by decide)
        have h2 : removeINR (p ++ [a, e, d] ++ q) = p ++ q := by
          unfold removeINR
          rw [List.append_assoc, removeAll3_append_of_not _ _ hpI]
          show p ++ removeAll3 _ _ _ (a :: e :: d :: q) = p ++ q
          have hqI : removeAll3 (letter 'I' 'i') (letter 'N' 'n') (letter 'R' 'r') q = q :=
            removeINR_plain hq
          simp [removeAll3, ha, he, hd, hqI]
        rw [h1, h2, removeRupee_plain hpq]
    · simp [isMarker] at hm

theorem unsignedText_chars {ip fp : Str} (hip : ∀ c ∈ ip, isDigit c = true)
    (hfp : ∀ c ∈ fp, isDigit c = true) :
    ∀ c ∈ unsignedText ip fp, isDigit c = true ∨ c = '.' := by
  intro c hc
  unfold unsignedText at hc
  split_ifs at hc
  · exact Or.inl (hip c hc)
  · simp only [List.mem_append, List.mem_cons] at hc
    rcases hc with h | h | h
    · exact Or.inl (hip c h)
    · exact Or.inr h
    · exact Or.inl (hfp c h)

theorem unsignedText_ne_nil {ip fp : Str} (hne : ip ≠ []) : unsignedText ip fp ≠ [] := by
  unfold unsignedText
  split_ifs <;> simp [hne]

/-- The characters of a body whose comma-free form is a decimal text. -/
theorem body_chars {b ip fp : Str} (hip : ∀ c ∈ ip, isDigit c = true)
    (hfp : ∀ c ∈ fp, isDigit c = true) (hb : removeCommas b = unsignedText ip fp) :
    ∀ c ∈ b, isDigit c = true ∨ c = '.' ∨ c = ',' := by
  intro c hc
  by_cases h : c = ','
  · exact Or.inr (Or.inr h)
  · have : c ∈ removeCommas b := by
      simp only [removeCommas, List.mem_filter]
      exact ⟨hc, by simpa using h⟩
    rw [hb] at this
    rcases unsignedText_chars hip hfp c this with h1 | h1
    · exact Or.inl h1
    · exact Or.inr (Or.inl h1)

theorem body_ne_nil {b ip fp : Str} (hne : ip ≠ [])
    (hb : removeCommas b = unsignedText ip fp) : b ≠ [] := by
  rintro rfl
  exact unsignedText_ne_nil hne hb.symm

theorem bodyChar_props {c : Char} (h : isDigit c = true ∨ c = '.' ∨ c = ',') :
    plainChar c = true ∧ isWhiteSpace c = false ∧ c ≠ '(' ∧ c ≠ ')' ∧ c ≠ '-' := by
  rcases h with h | rfl | rfl
  · refine ⟨by simp [plainChar, h], isDigit_not_ws h, ?_, ?_, ?_⟩ <;>
      exact isDigit_ne h (by decide)
  · decide
  · decide

theorem startsWith_body {b : Str} (hb : ∀ c ∈ b, isDigit c = true ∨ c = '.' ∨ c = ',') :
    startsWithChar b '(' = false := by
  rcases b with _ | ⟨c, b⟩
  · rfl
  · have := (bodyChar_props (hb c (by simp))).2.2.1
    simp [startsWithChar, this]

theorem endsWith_body {b : Str} (hb : ∀ c ∈ b, isDigit c = true ∨ c = '.' ∨ c = ',')
    (x : Char) (hx : x = ')' ∨ x = '-') : endsWithChar b x = false := by
  unfold endsWithChar
  by_contra h
  simp only [Bool.not_eq_false, beq_iff_eq] at h
  have hm : x ∈ b := List.mem_of_mem_getLast? h
  have := bodyChar_props (hb x hm)
  rcases hx with rfl | rfl
  · exact this.2.2.2.1 rfl
  · exact this.2.2.2.2 rfl

theorem signedText_plain {σ : SignStyle} {b : Str}
    (hb : ∀ c ∈ b, isDigit c = true ∨ c = '.' ∨ c = ',') :
    ∀ c ∈ signedText σ b, plainChar c = true ∧ isWhiteSpace c = false := by
  intro c hc
  have key : c ∈ b ∨ c = '-' ∨ c = '(' ∨ c = ')' := by
    cases σ <;> simp [signedText] at hc <;> tauto
  rcases key with h | rfl | rfl | rfl
  · exact ⟨(bodyChar_props (hb c h)).1, (bodyChar_props (hb c h)).2.1⟩
  · decide
  · decide
  · decide

theorem endsWithChar_concat (b : Str) (x y : Char) :
    endsWithChar (b ++ [x]) y = (x == y) := by
  unfold endsWithChar
  rw [List.getLast?_concat]
  by_cases h : x = y <;> simp [h]

theorem endsWithChar_cons (a : Char) {b : Str} (h : b ≠ []) (y : Char) :
    endsWithChar (a :: b) y = endsWithChar b y := by
  obtain ⟨c, b', rfl⟩ := List.exists_cons_of_ne_nil h
  simp [endsWithChar]

theorem parsedText_of_stripped (s : Str) :
    parsedText s =
      removeCommas
        (if endsWithChar (if bracketNegative s then (stripped s).tail.dropLast else stripped s) '-'
          then '-' :: (if bracketNegative s then (stripped s).tail.dropLast
            else stripped s).dropLast
          else (if bracketNegative s then (stripped s).tail.dropLast else stripped s)) := rfl

theorem toNumber_signed (s b ip fp : Str) (σ : SignStyle) (hne : ip ≠ [])
    (hip : ∀ c ∈ ip, isDigit c = true) (hfp : ∀ c ∈ fp, isDigit c = true)
    (hb : removeCommas b = unsignedText ip fp) (hs : stripped s = signedText σ b) :
    toNumber (some s) = num (signedValue σ (decimalValue ip fp)) := by
  have hbc := body_chars hip hfp hb
  have hbne := body_ne_nil hne hb
  have htrim : trim s ≠ [] := by
    intro h
    have : stripped s = [] := by
      unfold stripped; rw [h]; rfl
    rw [this] at hs
    cases σ <;> simp [signedText] at hs
    exact hbne hs
  have hpf := parseFloat_decimal ip fp hne hip hfp
  have hpu := parseUnsigned_decimal ip fp hne hip hfp
  have hsw := startsWith_body hbc
  have hew1 := endsWith_body hbc ')' (Or.inl rfl)
  have hew2 := endsWith_body hbc '-' (Or.inr rfl)
  have hcomma : removeCommas ('-' :: b) = '-' :: unsignedText ip fp := by
    rw [← hb]; rfl
  rw [toNumber_some, if_neg htrim]
  cases σ with
  | unsigned =>
    have hbr : bracketNegative s = false := by
      unfold bracketNegative; rw [hs]; simp [signedText, hsw]
    have hpt : parsedText s = unsignedText ip fp := by
      rw [parsedText_of_stripped, hbr, hs]
      simp only [signedText, Bool.false_eq_true, if_false, hew2]
      exact hb
    rw [hpt, hbr, hpf]
    simp [isNaN, signedValue]
  | leadingMinus =>
    have hbr : bracketNegative s = false := by
      unfold bracketNegative; rw [hs]; simp [signedText, startsWithChar]
    have hew : endsWithChar ('-' :: b) '-' = false := by
      rw [endsWithChar_cons _ hbne]; exact hew2
    have hpt : parsedText s = '-' :: unsignedText ip fp := by
      rw [parsedText_of_stripped, hbr, hs]
      simp only [signedText, Bool.false_eq_true, if_false, hew]
      exact hcomma
    rw [hpt, hbr, parseFloat_minus, hpu]
    simp [isNaN, signedValue, neg]
  | trailingMinus =>
    have hbr : bracketNegative s = false := by
      obtain ⟨c0, b', rfl⟩ := List.exists_cons_of_ne_nil hbne
      have hc0 := bodyChar_props (hbc c0 (by simp))
      unfold bracketNegative; rw [hs]; simp [signedText, startsWithChar, hc0.2.2.1]
    have hew : endsWithChar (b ++ ['-']) '-' = true := by
      rw [endsWithChar_concat]; rfl
    have hpt : parsedText s = '-' :: unsignedText ip fp := by
      rw [parsedText_of_stripped, hbr, hs]
      simp only [signedText, Bool.false_eq_true, if_false, hew, if_true, List.dropLast_concat]
      exact hcomma
    rw [hpt, hbr, parseFloat_minus, hpu]
    simp [isNaN, signedValue, neg]
  | parentheses =>
    have hshape : signedText SignStyle.parentheses b = ('(' :: b) ++ [')'] := rfl
    have hbr : bracketNegative s = true := by
      unfold bracketNegative
      rw [hs, hshape, endsWithChar_concat]
      rfl
    have hpt : parsedText s = unsignedText ip fp := by
      rw [parsedText_of_stripped, hbr, hs, hshape]
      simp only [if_true, List.cons_append, List.tail_cons, List.dropLast_concat, hew2,
        Bool.false_eq_true, if_false]
      exact hb
    rw [hpt, hbr, hpf]
    simp [isNaN, signedValue, neg]

theorem stripped_rendering (b p m q ip fp : Str) (σ : SignStyle)
    (hip : ∀ c ∈ ip, isDigit c = true) (hfp : ∀ c ∈ fp, isDigit c = true)
    (hb : removeCommas b = unsignedText ip fp)
    (hs : removeSpaces (p ++ q) = signedText σ b)
    (hm : m = [] ∨ isMarker m = true) :
    stripped (p ++ m ++ q) = signedText σ b := by
  have hbc := body_chars hip hfp hb
  have hpq : ∀ c ∈ p ++ q, plainChar c = true := by
    intro c hc
    by_cases hw : isWhiteSpace c = true
    · simp [plainChar, hw]
    · have : c ∈ removeSpaces (p ++ q) := by
        simp only [removeSpaces, List.mem_filter]
        exact ⟨hc, by simpa using hw⟩
      rw [hs] at this
      exact (signedText_plain hbc c this).1
  rw [stripped_eq, strip_markers p m q (fun c hc => hpq c (by simp [hc]))
    (fun c hc => hpq c (by simp [hc])) hm, hs]

theorem removeCommas_unsignedText {ip fp : Str} (hip : ∀ c ∈ ip, isDigit c = true)
    (hfp : ∀ c ∈ fp, isDigit c = true) :
    removeCommas (unsignedText ip fp) = unsignedText ip fp := by
  simp only [removeCommas, List.filter_eq_self]
  intro c hc
  rcases unsignedText_chars hip hfp c hc with h | rfl
  · simpa using isDigit_ne h (by decide)
  · decide

theorem stripped_signedText {ip fp : Str} (σ : SignStyle) (hip : ∀ c ∈ ip, isDigit c = true)
    (hfp : ∀ c ∈ fp, isDigit c = true) :
    stripped (signedText σ (unsignedText ip fp)) = signedText σ (unsignedText ip fp) := by
  have hb := removeCommas_unsignedText hip hfp
  have hbc := body_chars hip hfp hb
  have hs : removeSpaces (signedText σ (unsignedText ip fp) ++ []) =
      signedText σ (unsignedText ip fp) := by
    rw [List.append_nil]
    simp only [removeSpaces, List.filter_eq_self]
    intro c hc
    simp [(signedText_plain hbc c hc).2]
  have := stripped_rendering _ _ [] [] ip fp σ hip hfp hb hs (Or.inl rfl)
  simpa using this

/-- C7: accounting negatives.  For an unsigned decimal text `d` (integer digits
`ip`, optional fraction digits `fp`), `toNumber` of `d` in parentheses and of `d`
with a trailing minus are both the negation of `toNumber(d)`, which is the
decimal value of `d`; `toNumber("(150.00)")` and `toNumber("150.00-")` are
`-150`. -/
theorem toNumber_accounting_negative (ip fp : Str) (hne : ip ≠ [])
    (hip : ∀ c ∈ ip, isDigit c = true) (hfp : ∀ c ∈ fp, isDigit c = true) :
    toNumber (some ('(' :: unsignedText ip fp ++ [')'])) = -toNumber (some (unsignedText ip fp)) ∧
    toNumber (some (unsignedText ip fp ++ ['-'])) = -toNumber (some (unsignedText ip fp)) ∧
    toNumber (some (unsignedText ip fp)) = num (decimalValue ip fp) ∧
    toNumber (some "(150.00)".toList) = num (-150) ∧
    toNumber (some "150.00-".toList) = num (-150) := by
  have hb := removeCommas_unsignedText hip hfp
  have h0 := toNumber_signed _ _ ip fp .unsigned hne hip hfp hb
    (stripped_signedText .unsigned hip hfp)
  have h1 := toNumber_signed _ _ ip fp .parentheses hne hip hfp hb
    (stripped_signedText .parentheses hip hfp)
  have h2 := toNumber_signed _ _ ip fp .trailingMinus hne hip hfp hb
    (stripped_signedText .trailingMinus hip hfp)
  simp only [signedText, signedValue] at h0 h1 h2
  refine ⟨?_, ?_, h0, by decide!, by decide!⟩
  · rw [h1, h0]; rfl
  · rw [h2, h0]; rfl

/-- C7 at the decimal text `150.00`. -/
theorem toNumber_accounting_negative_witness :
    toNumber (some "(150.00)".toList) = -toNumber (some "150.00".toList) ∧
    toNumber (some "150.00-".toList) = -toNumber (some "150.00".toList) :=
  ⟨(toNumber_accounting_negative "150".toList "00".toList (by decide) (by decide) (by decide)).1,
   (toNumber_accounting_negative "150".toList "00".toList (by decide) (by decide) (by decide)).2.1⟩

/-- C8: formatting round trip.  For every decimal value (integer digits `ip`,
fraction digits `fp`) and every rendering of it in a sign style, with
thousands-separator commas, white space and a currency marker, `toNumber` of the
rendering is the value with the sign of the style. -/
theorem toNumber_rendering_roundtrip (text ip fp : Str) (σ : SignStyle) (hne : ip ≠ [])
    (hip : ∀ c ∈ ip, isDigit c = true) (hfp : ∀ c ∈ fp, isDigit c = true)
    (h : IsRendering text σ ip fp) :
    toNumber (some text) = num (signedValue σ (decimalValue ip fp)) := by
  obtain ⟨b, p, m, q, hb, hs, hm, rfl⟩ := h
  exact toNumber_signed _ b ip fp σ hne hip hfp hb
    (stripped_rendering b p m q ip fp σ hip hfp hb hs hm)

/-- C8 at the renderings `(aed 1,200.50)` and `₹ 1,200`; the second is read as
`1200`. -/
theorem toNumber_rendering_roundtrip_witness :
    IsRendering "(aed 1,200.50)".toList .parentheses "1200".toList "50".toList ∧
    toNumber (some "(aed 1,200.50)".toList) =
      num (signedValue .parentheses (decimalValue "1200".toList "50".toList)) ∧
    IsRendering "₹ 1,200".toList .unsigned "1200".toList [] ∧
    toNumber (some "₹ 1,200".toList) = num (signedValue .unsigned (decimalValue "1200".toList [])) ∧
    signedValue .unsigned (decimalValue "1200".toList []) = 1200 :=
  have r1 : IsRendering "(aed 1,200.50)".toList .parentheses "1200".toList "50".toList :=
    ⟨"1,200.50".toList, "(".toList, "aed".toList, " 1,200.50)".toList,
      by decide, by decide, Or.inr (by decide), by decide⟩
  have r2 : IsRendering "₹ 1,200".toList .unsigned "1200".toList [] :=
    ⟨"1,200".toList, [], "₹".toList, " 1,200".toList,
      by decide, by decide, Or.inr (by decide), by decide⟩
  ⟨r1, toNumber_rendering_roundtrip _ _ _ _ (by decide) (by decide) (by decide) r1,
   r2, toNumber_rendering_roundtrip _ _ _ _ (by decide) (by decide) (by decide) r2,
   by decide!⟩

/-! ## Objects and the row sanitiser -/

theorem trim_trim (s : Str) : trim (trim s) = trim s := by
  unfold trim
  set t := s.dropWhile isWhiteSpace with ht
  set u := t.rdropWhile isWhiteSpace with hu
  have h1 : u.dropWhile isWhiteSpace = u := by
    rcases hu' : u with _ | ⟨a, u'⟩
    · rfl
    · have hpre : u <+: t := List.rdropWhile_prefix _ _
      rw [hu'] at hpre
      obtain ⟨r, hr⟩ := hpre
      have hne : t ≠ [] := by rw [← hr]; simp
      have hhead := List.head_dropWhile_not isWhiteSpace s (by rw [← ht]; exact hne)
      have : t.head hne = a := by
        simp [← hr]
      simp only [← ht] at hhead
      rw [this] at hhead
      simp [List.dropWhile, hhead]
  rw [h1]
  exact List.rdropWhile_idempotent _ _

variable {α : Type}

theorem Obj.keys_nil : Obj.keys ([] : Obj α) = [] := rfl

theorem Obj.keys_cons (k : Str) (v : α) (t : Obj α) :
    Obj.keys ((k, v) :: t) = k :: Obj.keys t := rfl

theorem Obj.values_cons (k : Str) (v : α) (t : Obj α) :
    Obj.values ((k, v) :: t) = v :: Obj.values t := rfl

theorem Obj.keys_append (p s : Obj α) : Obj.keys (p ++ s) = Obj.keys p ++ Obj.keys s :=
  List.map_append _ _ _

theorem Obj.get_set (o : Obj α) (k m : Str) (v : α) :
    Obj.get (Obj.set o k v) m = if k = m then some v else Obj.get o m := by
  induction o with
  | nil => simp [Obj.set, Obj.get]
  | cons kv t ih =>
    obtain ⟨k', v'⟩ := kv
    by_cases h : k' = k
    · subst h
      by_cases hm : k' = m <;> simp [Obj.set, Obj.get, hm]
    · by_cases hm : k' = m
      · subst hm
        have : ¬ k = k' := fun e => h e.symm
        simp [Obj.set, Obj.get, h, this]
      · simp [Obj.set, Obj.get, h, hm, ih]

theorem Obj.get_eq_none_iff (o : Obj α) (k : Str) : Obj.get o k = none ↔ k ∉ Obj.keys o := by
  induction o with
  | nil => simp [Obj.get, Obj.keys_nil]
  | cons kv t ih =>
    obtain ⟨k', v'⟩ := kv
    by_cases h : k' = k
    · simp [Obj.get, Obj.keys_cons, h]
    · have h' : ¬ k = k' := fun e => h e.symm
      simpa [Obj.get, Obj.keys_cons, h, h'] using ih

theorem Obj.set_of_not_mem (o : Obj α) (k : Str) (v : α) (h : k ∉ Obj.keys o) :
    Obj.set o k v = o ++ [(k, v)] := by
  induction o with
  | nil => rfl
  | cons kv t ih =>
    obtain ⟨k', v'⟩ := kv
    simp only [Obj.keys_cons, List.mem_cons, not_or] at h
    have h1 : ¬ k' = k := fun e => h.1 e.symm
    simp only [Obj.set, h1, if_false, List.cons_append]
    rw [ih h.2]

theorem Obj.keys_set (o : Obj α) (k : Str) (v : α) :
    Obj.keys (Obj.set o k v) = if k ∈ Obj.keys o then Obj.keys o else Obj.keys o ++ [k] := by
  induction o with
  | nil => simp [Obj.set, Obj.keys_nil, Obj.keys_cons]
  | cons kv t ih =>
    obtain ⟨k', v'⟩ := kv
    by_cases h : k' = k
    · subst h
      simp [Obj.set, Obj.keys_cons]
    · have h' : ¬ k = k' := fun e => h e.symm
      simp only [Obj.set, h, if_false, Obj.keys_cons, List.mem_cons, h', false_or] at ih ⊢
      rw [ih]
      split_ifs <;> simp

theorem Obj.mem_keys_set (o : Obj α) (k m : Str) (v : α) :
    m ∈ Obj.keys (Obj.set o k v) ↔ m = k ∨ m ∈ Obj.keys o := by
  rw [Obj.keys_set]
  split_ifs with h
  · constructor
    · exact Or.inr
    · rintro (rfl | h') <;> assumption
  · simp [or_comm]

theorem Obj.nodup_keys_set (o : Obj α) (k : Str) (v : α) (h : (Obj.keys o).Nodup) :
    (Obj.keys (Obj.set o k v)).Nodup := by
  rw [Obj.keys_set]
  split_ifs with hk
  · exact h
  · exact List.Nodup.append h (List.nodup_singleton k) (by simpa using hk)

theorem Obj.mem_set (o : Obj α) (k : Str) (v : α) (e : Str × α) (h : e ∈ Obj.set o k v) :
    e = (k, v) ∨ e ∈ o := by
  induction o with
  | nil => simpa [Obj.set] using h
  | cons kv t ih =>
    obtain ⟨k', v'⟩ := kv
    by_cases hk : k' = k
    · simp only [Obj.set, hk, if_true, List.mem_cons] at h
      rcases h with h | h
      · exact Or.inl h
      · exact Or.inr (List.mem_cons_of_mem _ h)
    · simp only [Obj.set, hk, if_false, List.mem_cons] at h
      rcases h with h | h
      · exact Or.inr (by simp [h])
      · rcases ih h with h' | h'
        · exact Or.inl h'
        · exact Or.inr (List.mem_cons_of_mem _ h')

theorem Obj.get_of_mem (o : Obj α) (k : Str) (v : α) (hn : (Obj.keys o).Nodup) (h : (k, v) ∈ o) :
    Obj.get o k = some v := by
  induction o with
  | nil => simp at h
  | cons kv t ih =>
    obtain ⟨k', v'⟩ := kv
    simp only [Obj.keys_cons, List.nodup_cons] at hn
    simp only [List.mem_cons, Prod.mk.injEq] at h
    rcases h with ⟨rfl, rfl⟩ | h
    · simp [Obj.get]
    · have hk : k ∈ Obj.keys t := List.mem_map.mpr ⟨(k, v), h, rfl⟩
      have : ¬ k' = k := by rintro rfl; exact hn.1 hk
      simp only [Obj.get, this, if_false]
      exact ih hn.2 h

theorem Obj.mem_values_of_get (o : Obj α) (k : Str) (v : α) (h : Obj.get o k = some v) :
    v ∈ Obj.values o := by
  induction o with
  | nil => simp [Obj.get] at h
  | cons kv t ih =>
    obtain ⟨k', v'⟩ := kv
    by_cases hk : k' = k
    · simp only [Obj.get, hk, if_true, Option.some.injEq] at h
      simp [Obj.values_cons, h]
    · simp only [Obj.get, hk, if_false] at h
      have := ih h
      simp only [Obj.values_cons, List.mem_cons] at this ⊢
      exact Or.inr this

/-- Writing the entries of an object with distinct Obj.keys, in order, rebuilds it. -/
theorem Obj.foldl_set_eq (p s : Obj α) (h : (Obj.keys (p ++ s)).Nodup) :
    s.foldl (fun acc kv => Obj.set acc kv.1 kv.2) p = p ++ s := by
  induction s generalizing p with
  | nil => simp
  | cons kv s ih =>
    have hk : kv.1 ∉ Obj.keys p := by
      rw [Obj.keys_append, Obj.keys_cons] at h
      have := (List.nodup_append.mp h).2.2
      intro hm
      exact this hm (List.mem_cons_self _ _)
    simp only [List.foldl_cons]
    rw [Obj.set_of_not_mem p kv.1 kv.2 hk]
    have h' : (Obj.keys (p ++ [(kv.1, kv.2)] ++ s)).Nodup := by
      rw [List.append_assoc]
      exact h
    rw [ih _ h']
    simp

/-- The step of the loop of `cleanRow`. -/
theorem cleanRow_eq (row : Row) :
    cleanRow row = (Obj.keys row).foldl
      (fun cleaned key => Obj.set cleaned (trim key) (some (trim (orEmpty (field row key))))) [] :=
  rfl

theorem cleanRow_fold_inv (row : Row) (Q : Str × Option Str → Prop) (ks : List Str) (acc : Row)
    (hn : (Obj.keys acc).Nodup) (hacc : ∀ kv ∈ acc, Q kv)
    (hQ : ∀ key ∈ ks, Q (trim key, some (trim (orEmpty (field row key))))) :
    (Obj.keys (ks.foldl
      (fun cleaned key => Obj.set cleaned (trim key) (some (trim (orEmpty (field row key)))))
      acc)).Nodup ∧
    ∀ kv ∈ ks.foldl
      (fun cleaned key => Obj.set cleaned (trim key) (some (trim (orEmpty (field row key)))))
      acc, Q kv := by
  induction ks generalizing acc with
  | nil => exact ⟨hn, hacc⟩
  | cons key ks ih =>
    simp only [List.foldl_cons]
    apply ih
    · exact Obj.nodup_keys_set _ _ _ hn
    · intro kv hkv
      rcases Obj.mem_set _ _ _ _ hkv with h | h
      · rw [h]; exact hQ key (List.mem_cons_self _ _)
      · exact hacc kv h
    · intro k hk
      exact hQ k (List.mem_cons_of_mem _ hk)

theorem cleanRow_nodup (row : Row) : (Obj.keys (cleanRow row)).Nodup :=
  (cleanRow_fold_inv row (fun _ => True) (Obj.keys row) [] List.nodup_nil (by simp)
    (by simp)).1

theorem cleanRow_entries (row : Row) :
    ∀ kv ∈ cleanRow row, ∃ key ∈ Obj.keys row,
      kv = (trim key, some (trim (orEmpty (field row key)))) :=
  (cleanRow_fold_inv row
    (fun kv => ∃ key ∈ Obj.keys row, kv = (trim key, some (trim (orEmpty (field row key)))))
    (Obj.keys row) [] List.nodup_nil (by simp) (fun key hk => ⟨key, hk, rfl⟩)).2

theorem cleanRow_trimmed (row : Row) :
    ∀ kv ∈ cleanRow row, trim kv.1 = kv.1 ∧ ∃ t, kv.2 = some t ∧ trim t = t := by
  intro kv hkv
  obtain ⟨key, -, rfl⟩ := cleanRow_entries row kv hkv
  exact ⟨trim_trim _, _, rfl, trim_trim _⟩

theorem field_of_mem (r : Row) (kv : Str × Option Str) (hn : (Obj.keys r).Nodup)
    (h : kv ∈ r) : field r kv.1 = kv.2 := by
  unfold field
  rw [Obj.get_of_mem r kv.1 kv.2 hn h]
  rfl

/-- A row that is already clean is left as it is. -/
theorem cleanRow_of_clean (c : Row) (hn : (Obj.keys c).Nodup)
    (hc : ∀ kv ∈ c, trim kv.1 = kv.1 ∧ ∃ t, kv.2 = some t ∧ trim t = t) :
    cleanRow c = c := by
  rw [cleanRow_eq]
  unfold Obj.keys
  rw [List.foldl_map]
  rw [List.foldl_ext _ (fun acc kv => Obj.set acc kv.1 kv.2) []]
  · have := Obj.foldl_set_eq [] c (by simpa using hn)
    simpa using this
  · intro acc kv hkv
    obtain ⟨h1, t, h2, h3⟩ := hc kv hkv
    rw [h1, field_of_mem c kv hn hkv, h2]
    simp [orEmpty, h3]

theorem cleanRow_idem (r : Row) : cleanRow (cleanRow r) = cleanRow r :=
  cleanRow_of_clean _ (cleanRow_nodup r) (cleanRow_trimmed r)

theorem removeEmptyRows_eq (data : List Row) :
    removeEmptyRows data =
      (data.map cleanRow).filter (fun r => (Obj.values r).any (fun v => v != some [])) := rfl

/-- C9: sanitiser idempotence.  For every sequence of rows,
`removeEmptyRows(removeEmptyRows(rows))` is `removeEmptyRows(rows)`. -/
theorem removeEmptyRows_idempotent (rows : List Row) :
    removeEmptyRows (removeEmptyRows rows) = removeEmptyRows rows := by
  have hfix : ∀ x ∈ removeEmptyRows rows, cleanRow x = x := by
    intro x hx
    rw [removeEmptyRows_eq, List.mem_filter, List.mem_map] at hx
    obtain ⟨⟨r, -, rfl⟩, -⟩ := hx
    exact cleanRow_idem r
  conv_lhs => rw [removeEmptyRows_eq]
  have hmap : (removeEmptyRows rows).map cleanRow = removeEmptyRows rows := by
    conv_rhs => rw [← List.map_id (removeEmptyRows rows)]
    exact List.map_congr_left hfix
  rw [hmap, removeEmptyRows_eq, List.filter_filter]
  simp

/-- When the trimmed field names are distinct, cleaning is entry by entry. -/
theorem cleanRow_eq_map (r : Row) (h : ((Obj.keys r).map trim).Nodup) :
    cleanRow r = r.map cleanEntry := by
  have hn : (Obj.keys r).Nodup := List.Nodup.of_map _ h
  rw [cleanRow_eq]
  unfold Obj.keys
  rw [List.foldl_map]
  rw [List.foldl_ext _ (fun acc kv => Obj.set acc (cleanEntry kv).1 (cleanEntry kv).2) []]
  · rw [← List.foldl_map cleanEntry (fun acc e => Obj.set acc e.1 e.2)]
    have hk : Obj.keys ([] ++ r.map cleanEntry) = (Obj.keys r).map trim := by
      simp [Obj.keys, cleanEntry, Function.comp_def]
    have := Obj.foldl_set_eq [] (r.map cleanEntry) (by rw [hk]; exact h)
    simpa using this
  · intro acc kv hkv
    rw [field_of_mem r kv hn hkv]
    rfl

theorem hasData_cleanEntry (r : Row) : hasData (r.map cleanEntry) = hasData r := by
  induction r with
  | nil => rfl
  | cons kv r ih =>
    simp only [hasData, Obj.values, List.map_cons, List.any_cons] at ih ⊢
    rw [ih]
    simp [cleanEntry, orEmpty, trim_trim]

theorem nonEmpty_eq_hasData (c : Row)
    (hc : ∀ kv ∈ c, trim kv.1 = kv.1 ∧ ∃ t, kv.2 = some t ∧ trim t = t) :
    (Obj.values c).any (fun v => v != some []) = hasData c := by
  induction c with
  | nil => rfl
  | cons kv c ih =>
    have ih' := ih (fun e he => hc e (List.mem_cons_of_mem _ he))
    obtain ⟨-, t, h2, h3⟩ := hc kv (List.mem_cons_self _ _)
    simp only [hasData, Obj.values, List.map_cons, List.any_cons] at ih' ⊢
    rw [ih', h2]
    have : (some t != some ([] : Str)) = (t != []) := by
      rw [Bool.eq_iff_iff]
      simp only [bne_iff_ne, ne_eq, Option.some.injEq]
    simp [orEmpty, h3, this]

/-! ## The balance reconciler -/

theorem JSNumber.sub_def (x y : JSNumber) : x - y = x + -y := rfl

theorem JSNumber.neg_zero : -(0 : JSNumber) = 0 := by
  show neg (num 0) = num 0
  simp [neg]

theorem JSNumber.neg_add (x y : JSNumber) : -(x + y) = -x + -y := by
  show neg (add x y) = add (neg x) (neg y)
  cases x <;> cases y <;> simp [add, neg]
  · split_ifs <;> simp_all [neg]
  · ring

theorem JSNumber.neg_add_cancel_num (q : ℚ) : -(num q) + num q = 0 := by
  show add (neg (num q)) (num q) = num 0
  simp [add, neg]

theorem JSNumber.neg_sum (l : List JSNumber) : -(l.sum) = (l.map (fun x => -x)).sum := by
  induction l with
  | nil => exact JSNumber.neg_zero
  | cons a l ih => simp [List.sum_cons, JSNumber.neg_add, ih]

theorem openingStep_eq (l : Ledger) (r : Row) :
    openingStep l r =
      if modeOf r = [] then l
      else { openingMap := Obj.set l.openingMap (modeOf r) (openingAmount r),
             modeBalances := Obj.set l.modeBalances (modeOf r) (openingAmount r) } := rfl

set_option maxRecDepth 100000

/-! ### Objects with a prototype and the loops of the reconciler -/

theorem Dict.read_write (d : Dict) (k m : Str) (v : Value) (hk : k ≠ "__proto__".toList) :
    Dict.read (Dict.write d k v) m = if k = m then v else Dict.read d m := by
  unfold Dict.read Dict.write
  rw [if_neg (fun h => hk h.1), Obj.get_set]
  by_cases h : k = m
  · simp [h]
  · simp [h]

theorem Dict.read_write_of_ne (d : Dict) (k m : Str) (v : Value) (h : k ≠ m) :
    Dict.read (Dict.write d k v) m = Dict.read d m := by
  unfold Dict.write
  by_cases hp : k = "__proto__".toList ∧ Obj.get d k = none
  · rw [if_pos hp]
  · rw [if_neg hp]
    unfold Dict.read
    rw [Obj.get_set, if_neg h]

theorem Machine.read_ensure_of_ne (mb : Dict) (k m : Str) (h : k ≠ m) :
    Dict.read (Machine.ensure mb k) m = Dict.read mb m := by
  unfold Machine.ensure
  split_ifs
  · exact Dict.read_write_of_ne mb k m _ h
  · rfl

theorem Machine.read_ensure (mb : Dict) (k : Str) (hk : k ≠ "__proto__".toList) :
    Dict.read (Machine.ensure mb k) k =
      if Dict.read mb k = Value.undefined then Value.number 0 else Dict.read mb k := by
  unfold Machine.ensure
  split_ifs with h
  · rw [Dict.read_write mb k k _ hk, if_pos rfl]
  · rfl

theorem Machine.read_applyFlow (mb : Dict) (k m : Str) (c : Bool) (a : JSNumber)
    (hm : m ≠ "__proto__".toList) :
    Dict.read (Machine.applyFlow mb k c a) m =
      if k = m then Machine.stepValue (Dict.read mb m) (c, a) else Dict.read mb m := by
  unfold Machine.applyFlow
  by_cases h : k = m
  · subst h
    rw [Dict.read_write _ k k _ hm, if_pos rfl, if_pos rfl, Machine.read_ensure mb k hm]
    unfold Machine.stepValue
    cases c <;> simp
  · rw [Dict.read_write_of_ne _ k m _ h, Machine.read_ensure_of_ne mb k m h, if_neg h]

theorem Machine.receiptStep_def (mb : Dict) (r : Row) :
    Machine.receiptStep mb r =
      if modeOf r = [] then mb else Machine.applyFlow mb (modeOf r) true (Machine.amountOf r) :=
  rfl

theorem Machine.expenseStep_def (mb : Dict) (r : Row) :
    Machine.expenseStep mb r =
      if modeOf r = [] then mb else Machine.applyFlow mb (modeOf r) false (Machine.amountOf r) :=
  rfl

theorem Machine.contraStep_def (mb : Dict) (r : Row) :
    Machine.contraStep mb r =
      if toOf r = [] then
        (if fromOf r = [] then mb
          else Machine.applyFlow mb (fromOf r) false (Machine.amountOf r))
      else
        Machine.applyFlow
          (if fromOf r = [] then mb
            else Machine.applyFlow mb (fromOf r) false (Machine.amountOf r))
          (toOf r) true (Machine.amountOf r) :=
  rfl

theorem Machine.read_receiptStep (mb : Dict) (r : Row) (m : Str) (hm : m ≠ [])
    (hp : m ≠ "__proto__".toList) :
    Dict.read (Machine.receiptStep mb r) m =
      if modeOf r = m then Machine.stepValue (Dict.read mb m) (true, Machine.amountOf r)
      else Dict.read mb m := by
  rw [Machine.receiptStep_def]
  by_cases h : modeOf r = []
  · rw [if_pos h, if_neg (fun e => hm (e.symm.trans h))]
  · rw [if_neg h, Machine.read_applyFlow _ _ _ _ _ hp]

theorem Machine.read_expenseStep (mb : Dict) (r : Row) (m : Str) (hm : m ≠ [])
    (hp : m ≠ "__proto__".toList) :
    Dict.read (Machine.expenseStep mb r) m =
      if modeOf r = m then Machine.stepValue (Dict.read mb m) (false, Machine.amountOf r)
      else Dict.read mb m := by
  rw [Machine.expenseStep_def]
  by_cases h : modeOf r = []
  · rw [if_pos h, if_neg (fun e => hm (e.symm.trans h))]
  · rw [if_neg h, Machine.read_applyFlow _ _ _ _ _ hp]

theorem Machine.read_flowIf (d : Dict) (k m : Str) (c : Bool) (a : JSNumber) (hm : m ≠ [])
    (hp : m ≠ "__proto__".toList) :
    Dict.read (if k = [] then d else Machine.applyFlow d k c a) m =
      (if k = m then [(c, a)] else []).foldl Machine.stepValue (Dict.read d m) := by
  by_cases h : k = []
  · rw [if_pos h, if_neg (fun e => hm (e.symm.trans h))]; rfl
  · rw [if_neg h, Machine.read_applyFlow _ _ _ _ _ hp]
    by_cases h2 : k = m
    · rw [if_pos h2, if_pos h2]; rfl
    · rw [if_neg h2, if_neg h2]; rfl

theorem Machine.read_contraStep (mb : Dict) (r : Row) (m : Str) (hm : m ≠ [])
    (hp : m ≠ "__proto__".toList) :
    Dict.read (Machine.contraStep mb r) m =
      ((if fromOf r = m then [(false, Machine.amountOf r)] else []) ++
        (if toOf r = m then [(true, Machine.amountOf r)] else [])).foldl
        Machine.stepValue (Dict.read mb m) := by
  rw [Machine.contraStep_def, List.foldl_append,
    ← Machine.read_flowIf mb (fromOf r) m false (Machine.amountOf r) hm hp,
    ← Machine.read_flowIf _ (toOf r) m true (Machine.amountOf r) hm hp]

theorem Machine.read_foldl_receiptStep (rs : List Row) (mb : Dict) (m : Str) (hm : m ≠ [])
    (hp : m ≠ "__proto__".toList) :
    Dict.read (rs.foldl Machine.receiptStep mb) m =
      ((rs.filter (fun r => modeOf r = m)).map (fun r => (true, Machine.amountOf r))).foldl
        Machine.stepValue (Dict.read mb m) := by
  induction rs generalizing mb with
  | nil => rfl
  | cons r rs ih =>
    rw [List.foldl_cons, ih, Machine.read_receiptStep mb r m hm hp]
    by_cases h : modeOf r = m
    · simp [List.filter_cons, h]
    · simp [List.filter_cons, h]

theorem Machine.read_foldl_expenseStep (rs : List Row) (mb : Dict) (m : Str) (hm : m ≠ [])
    (hp : m ≠ "__proto__".toList) :
    Dict.read (rs.foldl Machine.expenseStep mb) m =
      ((rs.filter (fun r => modeOf r = m)).map (fun r => (false, Machine.amountOf r))).foldl
        Machine.stepValue (Dict.read mb m) := by
  induction rs generalizing mb with
  | nil => rfl
  | cons r rs ih =>
    rw [List.foldl_cons, ih, Machine.read_expenseStep mb r m hm hp]
    by_cases h : modeOf r = m
    · simp [List.filter_cons, h]
    · simp [List.filter_cons, h]

theorem Machine.read_foldl_contraStep (rs : List Row) (mb : Dict) (m : Str) (hm : m ≠ [])
    (hp : m ≠ "__proto__".toList) :
    Dict.read (rs.foldl Machine.contraStep mb) m =
      (rs.flatMap (fun r =>
        (if fromOf r = m then [(false, Machine.amountOf r)] else []) ++
          (if toOf r = m then [(true, Machine.amountOf r)] else []))).foldl
        Machine.stepValue (Dict.read mb m) := by
  induction rs generalizing mb with
  | nil => rfl
  | cons r rs ih =>
    rw [List.foldl_cons, ih, Machine.read_contraStep mb r m hm hp, List.flatMap_cons]
    simp only [List.foldl_append]

theorem Machine.openingStep_def (l : Machine.Ledger) (r : Row) :
    Machine.openingStep l r =
      if modeOf r = [] then l
      else { openingMap := Dict.write l.openingMap (modeOf r)
               (Value.number (Machine.openingAmount r)),
             modeBalances := Dict.write l.modeBalances (modeOf r)
               (Value.number (Machine.openingAmount r)) } := rfl

theorem Machine.read_foldl_openingStep (rs : List Row) (l : Machine.Ledger) (m : Str)
    (hm : m ≠ []) (hp : m ≠ "__proto__".toList) :
    Dict.read (rs.foldl Machine.openingStep l).modeBalances m =
        (match (rs.filter (fun r => modeOf r = m)).getLast? with
          | none => Dict.read l.modeBalances m
          | some r => Value.number (Machine.openingAmount r)) ∧
    Dict.read (rs.foldl Machine.openingStep l).openingMap m =
        (match (rs.filter (fun r => modeOf r = m)).getLast? with
          | none => Dict.read l.openingMap m
          | some r => Value.number (Machine.openingAmount r)) := by
  induction rs generalizing l with
  | nil => exact ⟨rfl, rfl⟩
  | cons r rs ih =>
    rw [List.foldl_cons]
    have := ih (Machine.openingStep l r)
    rw [this.1, this.2, Machine.openingStep_def]
    by_cases h : modeOf r = m
    · have hne : ¬ modeOf r = [] := fun e => hm (h.symm.trans e)
      rw [if_neg hne]
      simp only [List.filter_cons, h, decide_True, if_true]
      rcases hl : (rs.filter (fun r => decide (modeOf r = m))).getLast? with _ | r'
      · rw [List.getLast?_eq_none_iff] at hl
        simp only [hl, List.getLast?_singleton]
        rw [← h, Dict.read_write _ _ _ _ (h ▸ hp), Dict.read_write _ _ _ _ (h ▸ hp)]
        simp
      · have : (r :: rs.filter (fun r => decide (modeOf r = m))).getLast? = some r' := by
          rw [List.getLast?_cons, hl]; rfl
        simp only [this, and_self]
    · simp only [List.filter_cons, h, decide_False, Bool.false_eq_true, if_false]
      by_cases hne : modeOf r = []
      · rw [if_pos hne]; simp only [and_self]
      · rw [if_neg hne]
        simp only [Dict.read_write_of_ne _ _ _ _ h, and_self]

/-- The value of an entry of the balance map after the four loops: the credits
and debits of that entry, applied in order to its opening value. -/
theorem Machine.read_modeBalances (s : State) (m : Str) (hm : m ≠ [])
    (hp : m ≠ "__proto__".toList) :
    Dict.read (Machine.ledger s).modeBalances m =
      (Machine.flowsAt s m).foldl Machine.stepValue
        (Machine.openingValue s.openingBalanceData m) := by
  unfold Machine.ledger Machine.flowsAt
  simp only []
  rw [Machine.read_foldl_contraStep _ _ _ hm hp, Machine.read_foldl_expenseStep _ _ _ hm hp,
    Machine.read_foldl_receiptStep _ _ _ hm hp,
    (Machine.read_foldl_openingStep _ _ _ hm hp).1, List.foldl_append, List.foldl_append]
  rfl

theorem Machine.read_openingMap (s : State) (m : Str) (hm : m ≠ [])
    (hp : m ≠ "__proto__".toList) :
    Dict.read (Machine.ledger s).openingMap m = Machine.openingValue s.openingBalanceData m := by
  unfold Machine.ledger
  simp only []
  rw [(Machine.read_foldl_openingStep _ _ _ hm hp).2]
  rfl

theorem Machine.numStep_eq (x : JSNumber) (f : Bool × JSNumber) :
    Machine.numStep x f = (x + Machine.signed f).toDouble := by
  obtain ⟨c, a⟩ := f
  cases c <;> rfl

theorem Machine.stepValue_number (x : JSNumber) (f : Bool × JSNumber) :
    Machine.stepValue (Value.number x) f = Value.number (Machine.numStep x f) := by
  obtain ⟨c, a⟩ := f
  cases c <;> rfl

theorem Machine.stepValue_undefined (f : Bool × JSNumber) :
    Machine.stepValue Value.undefined f = Value.number (Machine.numStep 0 f) := by
  obtain ⟨c, a⟩ := f
  cases c <;> rfl

theorem Machine.foldl_stepValue_number (fs : List (Bool × JSNumber)) (x : JSNumber) :
    fs.foldl Machine.stepValue (Value.number x) = Value.number (fs.foldl Machine.numStep x) := by
  induction fs generalizing x with
  | nil => rfl
  | cons f fs ih => rw [List.foldl_cons, Machine.stepValue_number, ih, List.foldl_cons]

theorem Machine.foldl_stepValue_undefined (f : Bool × JSNumber) (fs : List (Bool × JSNumber)) :
    (f :: fs).foldl Machine.stepValue Value.undefined =
      Value.number ((f :: fs).foldl Machine.numStep 0) := by
  rw [List.foldl_cons, Machine.stepValue_undefined, Machine.foldl_stepValue_number,
    List.foldl_cons]

/-- Without rounding the balance is the exact sum. -/
theorem Machine.foldl_numStep (fs : List (Bool × JSNumber)) (x : JSNumber)
    (h : Machine.NoRounding x fs) :
    fs.foldl Machine.numStep x = x + (fs.map Machine.signed).sum := by
  induction fs generalizing x with
  | nil => simp
  | cons f fs ih =>
    obtain ⟨h1, h2⟩ := h
    rw [List.foldl_cons, Machine.numStep_eq, h1, ih _ h2, List.map_cons, List.sum_cons,
      add_assoc]

theorem Machine.sum_signed_contras (rs : List Row) (m : Str) :
    ((rs.flatMap (fun r =>
        (if fromOf r = m then [(false, Machine.amountOf r)] else []) ++
          (if toOf r = m then [(true, Machine.amountOf r)] else []))).map Machine.signed).sum =
      -((rs.filter (fun r => fromOf r = m)).map Machine.amountOf).sum +
        ((rs.filter (fun r => toOf r = m)).map Machine.amountOf).sum := by
  induction rs with
  | nil => simp [JSNumber.neg_zero]
  | cons r rs ih =>
    rw [List.flatMap_cons, List.map_append, List.sum_append, ih]
    by_cases hf : fromOf r = m <;> by_cases ht : toOf r = m <;>
      simp only [List.filter_cons, hf, ht, decide_True, decide_False, if_true, if_false,
        Bool.false_eq_true, List.map_cons, List.sum_cons, List.append_nil, List.nil_append,
        List.map_nil, List.sum_nil, List.singleton_append, Machine.signed, JSNumber.neg_add,
        zero_add, add_zero] <;>
      ac_rfl

/-- The exact sum of the credits and debits of an entry. -/
theorem Machine.sum_signed_flowsAt (s : State) (m : Str) :
    ((Machine.flowsAt s m).map Machine.signed).sum =
      ((s.receiptData.filter (fun r => modeOf r = m)).map Machine.amountOf).sum
        - ((s.expenseData.filter (fun r => modeOf r = m)).map Machine.amountOf).sum
        - ((s.contraData.filter (fun r => fromOf r = m)).map Machine.amountOf).sum
        + ((s.contraData.filter (fun r => toOf r = m)).map Machine.amountOf).sum := by
  have h1 : (Machine.signed ∘ fun r => (true, Machine.amountOf r)) = Machine.amountOf := rfl
  have h2 : (Machine.signed ∘ fun r => (false, Machine.amountOf r)) =
      ((fun x => -x) ∘ Machine.amountOf) := rfl
  unfold Machine.flowsAt
  rw [List.map_append, List.sum_append, List.map_append, List.sum_append,
    Machine.sum_signed_contras]
  simp only [JSNumber.sub_def, JSNumber.neg_sum, List.map_map, h1, h2]
  generalize ((s.contraData.filter (fun r => toOf r = m)).map Machine.amountOf).sum = a
  generalize ((s.contraData.filter (fun r => fromOf r = m)).map
    ((fun x => -x) ∘ Machine.amountOf)).sum = b
  generalize ((s.receiptData.filter (fun r => modeOf r = m)).map Machine.amountOf).sum = c
  generalize ((s.expenseData.filter (fun r => modeOf r = m)).map
    ((fun x => -x) ∘ Machine.amountOf)).sum = d
  ac_rfl

theorem Machine.openingValue_of_plain (rows : List Row) (m : Str)
    (hm : m ∈ inheritedNames → m ∈ rows.map modeOf) :
    Machine.openingValue rows m =
      match (rows.filter (fun r => modeOf r = m)).getLast? with
      | none => Value.undefined
      | some r => Value.number (Machine.openingAmount r) := by
  unfold Machine.openingValue
  rcases h : (rows.filter (fun r => modeOf r = m)).getLast? with _ | r
  · have hnot : m ∉ rows.map modeOf := by
      rw [List.getLast?_eq_none_iff, List.filter_eq_nil_iff] at h
      intro hmem
      obtain ⟨r, hr, hrm⟩ := List.mem_map.1 hmem
      exact h r hr (by simpa using hrm)
    have hni : m ∉ inheritedNames := fun hin => hnot (hm hin)
    simp [Dict.read, Obj.get, hni]
  · rfl

/-- The balance of an entry that is not `__proto__` and, if it is an inherited
name, has an opening-balance row, when no step rounds: the opening balance plus
the exact sum of its credits and debits. -/
theorem Machine.read_modeBalances_exact (s : State) (m : Str) (hm : m ≠ [])
    (hp : m ≠ "__proto__".toList)
    (hi : m ∈ inheritedNames → m ∈ s.openingBalanceData.map modeOf)
    (hocc : (∃ r ∈ s.openingBalanceData, modeOf r = m) ∨ Machine.flowsAt s m ≠ [])
    (hr : Machine.NoRounding (Machine.openingBalanceOf s.openingBalanceData m)
      (Machine.flowsAt s m)) :
    Dict.read (Machine.ledger s).modeBalances m =
      Value.number (Machine.openingBalanceOf s.openingBalanceData m +
        ((Machine.flowsAt s m).map Machine.signed).sum) := by
  rw [Machine.read_modeBalances s m hm hp, Machine.openingValue_of_plain _ _ hi]
  unfold Machine.openingBalanceOf at hr ⊢
  rcases hl : (s.openingBalanceData.filter (fun r => modeOf r = m)).getLast? with _ | r
  · rw [hl] at hr
    simp only [] at hr ⊢
    have hne : Machine.flowsAt s m ≠ [] := by
      rcases hocc with ⟨r, hr', hrm⟩ | h
      · rw [List.getLast?_eq_none_iff, List.filter_eq_nil_iff] at hl
        exact absurd (by simpa using hrm) (hl r hr')
      · exact h
    obtain ⟨f, fs, hfs⟩ := List.exists_cons_of_ne_nil hne
    rw [hfs] at hr ⊢
    rw [Machine.foldl_stepValue_undefined, Machine.foldl_numStep _ _ hr]
  · rw [hl] at hr
    simp only [] at hr ⊢
    rw [Machine.foldl_stepValue_number, Machine.foldl_numStep _ _ hr]

theorem Dict.clean_nil : Dict.Clean [] := ⟨List.nodup_nil, rfl⟩

theorem Dict.clean_write (d : Dict) (k : Str) (v : Value) (h : Dict.Clean d) :
    Dict.Clean (Dict.write d k v) := by
  unfold Dict.write
  split_ifs with hp
  · exact h
  · refine ⟨Obj.nodup_keys_set d k v h.1, ?_⟩
    rw [Obj.get_set]
    split_ifs with hk
    · exact absurd ⟨hk, hk ▸ h.2⟩ hp
    · exact h.2

theorem Dict.mem_keys_write (d : Dict) (k m : Str) (v : Value) (h : Dict.Clean d) :
    m ∈ Obj.keys (Dict.write d k v) ↔ (m = k ∧ k ≠ "__proto__".toList) ∨ m ∈ Obj.keys d := by
  unfold Dict.write
  split_ifs with hp
  · constructor
    · exact Or.inr
    · rintro (⟨-, hk⟩ | hm)
      · exact absurd hp.1 hk
      · exact hm
  · rw [Obj.mem_keys_set]
    have hk : k ≠ "__proto__".toList := fun e => hp ⟨e, e ▸ h.2⟩
    constructor
    · rintro (rfl | hm)
      · exact Or.inl ⟨rfl, hk⟩
      · exact Or.inr hm
    · rintro (⟨rfl, -⟩ | hm)
      · exact Or.inl rfl
      · exact Or.inr hm

theorem Machine.clean_ensure (d : Dict) (k : Str) (h : Dict.Clean d) :
    Dict.Clean (Machine.ensure d k) := by
  unfold Machine.ensure
  split_ifs
  · exact Dict.clean_write d k _ h
  · exact h

theorem Machine.clean_applyFlow (d : Dict) (k : Str) (c : Bool) (a : JSNumber)
    (h : Dict.Clean d) : Dict.Clean (Machine.applyFlow d k c a) :=
  Dict.clean_write _ _ _ (Machine.clean_ensure d k h)

theorem Machine.mem_keys_applyFlow (d : Dict) (k m : Str) (c : Bool) (a : JSNumber)
    (h : Dict.Clean d) :
    m ∈ Obj.keys (Machine.applyFlow d k c a) ↔
      (m = k ∧ k ≠ "__proto__".toList) ∨ m ∈ Obj.keys d := by
  unfold Machine.applyFlow
  rw [Dict.mem_keys_write _ _ _ _ (Machine.clean_ensure d k h)]
  unfold Machine.ensure
  split_ifs
  · rw [Dict.mem_keys_write _ _ _ _ h]
    tauto
  · rfl

/-- The own names after a loop whose body credits or debits the entries `ks r`
that are not empty. -/
theorem Machine.keys_foldl (step : Dict → Row → Dict) (ks : Row → List Str)
    (hstep : ∀ d r, Dict.Clean d → Dict.Clean (step d r) ∧
      ∀ m, m ∈ Obj.keys (step d r) ↔
        m ∈ Obj.keys d ∨ (m ≠ [] ∧ m ≠ "__proto__".toList ∧ m ∈ ks r))
    (rs : List Row) (d : Dict) (h : Dict.Clean d) :
    Dict.Clean (rs.foldl step d) ∧
      ∀ m, m ∈ Obj.keys (rs.foldl step d) ↔
        m ∈ Obj.keys d ∨ (m ≠ [] ∧ m ≠ "__proto__".toList ∧ ∃ r ∈ rs, m ∈ ks r) := by
  induction rs generalizing d with
  | nil => exact ⟨h, fun m => by simp⟩
  | cons r rs ih =>
    obtain ⟨h1, h2⟩ := hstep d r h
    obtain ⟨h3, h4⟩ := ih (step d r) h1
    refine ⟨h3, fun m => ?_⟩
    rw [List.foldl_cons, h4, h2]
    simp only [List.exists_mem_cons_iff]
    tauto

theorem Machine.keys_flowIf (d : Dict) (k : Str) (c : Bool) (a : JSNumber) (h : Dict.Clean d) :
    Dict.Clean (if k = [] then d else Machine.applyFlow d k c a) ∧
      ∀ m, m ∈ Obj.keys (if k = [] then d else Machine.applyFlow d k c a) ↔
        m ∈ Obj.keys d ∨ (m ≠ [] ∧ m ≠ "__proto__".toList ∧ m = k) := by
  by_cases hk : k = []
  · rw [if_pos hk]
    refine ⟨h, fun m => ?_⟩
    constructor
    · exact Or.inl
    · rintro (hm | ⟨h1, -, h3⟩)
      · exact hm
      · exact absurd (h3.trans hk) h1
  · rw [if_neg hk]
    refine ⟨Machine.clean_applyFlow d k c a h, fun m => ?_⟩
    rw [Machine.mem_keys_applyFlow d k m c a h]
    constructor
    · rintro (⟨rfl, hp⟩ | hm)
      · exact Or.inr ⟨hk, hp, rfl⟩
      · exact Or.inl hm
    · rintro (hm | ⟨-, hp, rfl⟩)
      · exact Or.inr hm
      · exact Or.inl ⟨rfl, hp⟩

theorem Machine.keys_receiptStep (d : Dict) (r : Row) (h : Dict.Clean d) :
    Dict.Clean (Machine.receiptStep d r) ∧
      ∀ m, m ∈ Obj.keys (Machine.receiptStep d r) ↔
        m ∈ Obj.keys d ∨ (m ≠ [] ∧ m ≠ "__proto__".toList ∧ m ∈ [modeOf r]) := by
  simp only [List.mem_singleton]
  exact Machine.keys_flowIf d (modeOf r) true (Machine.amountOf r) h

theorem Machine.keys_expenseStep (d : Dict) (r : Row) (h : Dict.Clean d) :
    Dict.Clean (Machine.expenseStep d r) ∧
      ∀ m, m ∈ Obj.keys (Machine.expenseStep d r) ↔
        m ∈ Obj.keys d ∨ (m ≠ [] ∧ m ≠ "__proto__".toList ∧ m ∈ [modeOf r]) := by
  simp only [List.mem_singleton]
  exact Machine.keys_flowIf d (modeOf r) false (Machine.amountOf r) h

theorem Machine.keys_contraStep (d : Dict) (r : Row) (h : Dict.Clean d) :
    Dict.Clean (Machine.contraStep d r) ∧
      ∀ m, m ∈ Obj.keys (Machine.contraStep d r) ↔
        m ∈ Obj.keys d ∨ (m ≠ [] ∧ m ≠ "__proto__".toList ∧ m ∈ [fromOf r, toOf r]) := by
  have h1 := Machine.keys_flowIf d (fromOf r) false (Machine.amountOf r) h
  have h2 := Machine.keys_flowIf _ (toOf r) true (Machine.amountOf r) h1.1
  rw [Machine.contraStep_def]
  refine ⟨h2.1, fun m => ?_⟩
  rw [h2.2, h1.2]
  simp only [List.mem_cons, List.mem_singleton, List.not_mem_nil, or_false]
  tauto

theorem Machine.keys_foldl_openingStep (rs : List Row) (l : Machine.Ledger)
    (h1 : Dict.Clean l.modeBalances) (h2 : Dict.Clean l.openingMap) :
    (Dict.Clean (rs.foldl Machine.openingStep l).modeBalances ∧
      ∀ m, m ∈ Obj.keys (rs.foldl Machine.openingStep l).modeBalances ↔
        m ∈ Obj.keys l.modeBalances ∨
          (m ≠ [] ∧ m ≠ "__proto__".toList ∧ ∃ r ∈ rs, m = modeOf r)) ∧
    (Dict.Clean (rs.foldl Machine.openingStep l).openingMap ∧
      ∀ m, m ∈ Obj.keys (rs.foldl Machine.openingStep l).openingMap ↔
        m ∈ Obj.keys l.openingMap ∨
          (m ≠ [] ∧ m ≠ "__proto__".toList ∧ ∃ r ∈ rs, m = modeOf r)) := by
  induction rs generalizing l with
  | nil => exact ⟨⟨h1, fun m => by simp⟩, ⟨h2, fun m => by simp⟩⟩
  | cons r rs ih =>
    rw [List.foldl_cons]
    have hs1 : Dict.Clean (Machine.openingStep l r).modeBalances := by
      rw [Machine.openingStep_def]; split_ifs
      · exact h1
      · exact Dict.clean_write _ _ _ h1
    have hs2 : Dict.Clean (Machine.openingStep l r).openingMap := by
      rw [Machine.openingStep_def]; split_ifs
      · exact h2
      · exact Dict.clean_write _ _ _ h2
    have hk1 : ∀ m, m ∈ Obj.keys (Machine.openingStep l r).modeBalances ↔
        m ∈ Obj.keys l.modeBalances ∨ (m ≠ [] ∧ m ≠ "__proto__".toList ∧ m = modeOf r) := by
      intro m
      rw [Machine.openingStep_def]
      split_ifs with hmode
      · constructor
        · exact Or.inl
        · rintro (hm | ⟨hne, -, rfl⟩)
          · exact hm
          · exact absurd hmode hne
      · show m ∈ Obj.keys (Dict.write _ _ _) ↔ _
        rw [Dict.mem_keys_write _ _ _ _ h1]
        constructor
        · rintro (⟨rfl, hp⟩ | hm)
          · exact Or.inr ⟨hmode, hp, rfl⟩
          · exact Or.inl hm
        · rintro (hm | ⟨-, hp, rfl⟩)
          · exact Or.inr hm
          · exact Or.inl ⟨rfl, hp⟩
    have hk2 : ∀ m, m ∈ Obj.keys (Machine.openingStep l r).openingMap ↔
        m ∈ Obj.keys l.openingMap ∨ (m ≠ [] ∧ m ≠ "__proto__".toList ∧ m = modeOf r) := by
      intro m
      rw [Machine.openingStep_def]
      split_ifs with hmode
      · constructor
        · exact Or.inl
        · rintro (hm | ⟨hne, -, rfl⟩)
          · exact hm
          · exact absurd hmode hne
      · show m ∈ Obj.keys (Dict.write _ _ _) ↔ _
        rw [Dict.mem_keys_write _ _ _ _ h2]
        constructor
        · rintro (⟨rfl, hp⟩ | hm)
          · exact Or.inr ⟨hmode, hp, rfl⟩
          · exact Or.inl hm
        · rintro (hm | ⟨-, hp, rfl⟩)
          · exact Or.inr hm
          · exact Or.inl ⟨rfl, hp⟩
    obtain ⟨⟨c1, k1⟩, ⟨c2, k2⟩⟩ := ih (Machine.openingStep l r) hs1 hs2
    refine ⟨⟨c1, fun m => ?_⟩, ⟨c2, fun m => ?_⟩⟩
    · rw [k1, hk1]
      simp only [List.exists_mem_cons_iff]
      tauto
    · rw [k2, hk2]
      simp only [List.exists_mem_cons_iff]
      tauto

/-- The own names of the balance map after the four loops. -/
theorem Machine.keys_modeBalances (s : State) :
    Dict.Clean (Machine.ledger s).modeBalances ∧
      ∀ m, m ∈ Obj.keys (Machine.ledger s).modeBalances ↔
        m ≠ [] ∧ m ≠ "__proto__".toList ∧ Occurs s m := by
  have ho := (Machine.keys_foldl_openingStep s.openingBalanceData
    { modeBalances := [], openingMap := [] } Dict.clean_nil Dict.clean_nil).1
  have hr := Machine.keys_foldl Machine.receiptStep (fun r => [modeOf r])
    Machine.keys_receiptStep s.receiptData _ ho.1
  have he := Machine.keys_foldl Machine.expenseStep (fun r => [modeOf r])
    Machine.keys_expenseStep s.expenseData _ hr.1
  have hc := Machine.keys_foldl Machine.contraStep (fun r => [fromOf r, toOf r])
    Machine.keys_contraStep s.contraData _ he.1
  refine ⟨hc.1, fun m => ?_⟩
  show m ∈ Obj.keys (s.contraData.foldl Machine.contraStep _) ↔ _
  rw [hc.2, he.2, hr.2, ho.2]
  unfold Occurs
  simp only [Obj.keys_nil, List.not_mem_nil, false_or, List.mem_map, List.mem_cons,
    List.mem_singleton, or_false]
  constructor
  · rintro (((⟨h1, h2, r, hr, rfl⟩ | ⟨h1, h2, r, hr, rfl⟩) | ⟨h1, h2, r, hr, rfl⟩) |
      ⟨h1, h2, r, hr, rfl | rfl⟩)
    · exact ⟨h1, h2, Or.inl ⟨r, hr, rfl⟩⟩
    · exact ⟨h1, h2, Or.inr (Or.inl ⟨r, hr, rfl⟩)⟩
    · exact ⟨h1, h2, Or.inr (Or.inr (Or.inl ⟨r, hr, rfl⟩))⟩
    · exact ⟨h1, h2, Or.inr (Or.inr (Or.inr (Or.inl ⟨r, hr, rfl⟩)))⟩
    · exact ⟨h1, h2, Or.inr (Or.inr (Or.inr (Or.inr ⟨r, hr, rfl⟩)))⟩
  · rintro ⟨h1, h2, ⟨r, hr, rfl⟩ | ⟨r, hr, rfl⟩ | ⟨r, hr, rfl⟩ | ⟨r, hr, rfl⟩ | ⟨r, hr, rfl⟩⟩
    · exact Or.inl (Or.inl (Or.inl ⟨h1, h2, r, hr, rfl⟩))
    · exact Or.inl (Or.inl (Or.inr ⟨h1, h2, r, hr, rfl⟩))
    · exact Or.inl (Or.inr ⟨h1, h2, r, hr, rfl⟩)
    · exact Or.inr ⟨h1, h2, r, hr, Or.inl rfl⟩
    · exact Or.inr ⟨h1, h2, r, hr, Or.inr rfl⟩

theorem enumerate_perm {α : Type} (o : Obj α) : (enumerate o).Perm o := by
  unfold enumerate
  refine ((List.perm_insertionSort _ _).append_right _).trans ?_
  have := List.filter_append_perm (fun kv : Str × α => (arrayIndex kv.1).isSome) o
  exact this

theorem Dict.keys_perm (d : Dict) : (Dict.keys d).Perm (Obj.keys d) :=
  (enumerate_perm d).map Prod.fst

theorem Machine.updateModeBalances_def (lc : Str → Str → ℤ) (s : State) :
    Machine.updateModeBalances lc s =
      ((Dict.keys (Machine.ledger s).modeBalances).insertionSort (fun a b => lc a b ≤ 0)).map
        (fun mode =>
          { mode := mode, val := Dict.read (Machine.ledger s).modeBalances mode,
            ob := (Dict.read (Machine.ledger s).openingMap mode).orZero }) := rfl

theorem Machine.mem_cards (lc : Str → Str → ℤ) (s : State) (c : Machine.Card)
    (hc : c ∈ Machine.updateModeBalances lc s) :
    (c.mode ≠ [] ∧ c.mode ≠ "__proto__".toList ∧ Occurs s c.mode) ∧
      c.val = Dict.read (Machine.ledger s).modeBalances c.mode ∧
      c.ob = (Dict.read (Machine.ledger s).openingMap c.mode).orZero := by
  rw [Machine.updateModeBalances_def, List.mem_map] at hc
  obtain ⟨m, hm, rfl⟩ := hc
  have hk : m ∈ Obj.keys (Machine.ledger s).modeBalances :=
    (Dict.keys_perm _).mem_iff.1 ((List.perm_insertionSort _ _).mem_iff.1 hm)
  exact ⟨((Machine.keys_modeBalances s).2 m).1 hk, rfl, rfl⟩

theorem Machine.flowsAt_ne_nil_or (s : State) (m : Str) (ho : Occurs s m) :
    (∃ r ∈ s.openingBalanceData, modeOf r = m) ∨ Machine.flowsAt s m ≠ [] := by
  unfold Occurs at ho
  simp only [List.mem_map] at ho
  rcases ho with ⟨r, hr, he⟩ | ⟨r, hr, he⟩ | ⟨r, hr, he⟩ | ⟨r, hr, he⟩ | ⟨r, hr, he⟩
  · exact Or.inl ⟨r, hr, he⟩
  · refine Or.inr (fun h => ?_)
    have : (true, Machine.amountOf r) ∈ Machine.flowsAt s m := by
      unfold Machine.flowsAt
      refine List.mem_append_left _ (List.mem_map.2 ⟨r, ?_, rfl⟩)
      exact List.mem_filter.2 ⟨hr, by simpa using he⟩
    rw [h] at this
    exact List.not_mem_nil _ this
  · refine Or.inr (fun h => ?_)
    have : (false, Machine.amountOf r) ∈ Machine.flowsAt s m := by
      unfold Machine.flowsAt
      refine List.mem_append_right _ (List.mem_append_left _ (List.mem_map.2 ⟨r, ?_, rfl⟩))
      exact List.mem_filter.2 ⟨hr, by simpa using he⟩
    rw [h] at this
    exact List.not_mem_nil _ this
  · refine Or.inr (fun h => ?_)
    have : (false, Machine.amountOf r) ∈ Machine.flowsAt s m := by
      unfold Machine.flowsAt
      refine List.mem_append_right _ (List.mem_append_right _
        (List.mem_flatMap.2 ⟨r, hr, ?_⟩))
      rw [if_pos he]
      exact List.mem_append_left _ (List.mem_singleton.2 rfl)
    rw [h] at this
    exact List.not_mem_nil _ this
  · refine Or.inr (fun h => ?_)
    have : (true, Machine.amountOf r) ∈ Machine.flowsAt s m := by
      unfold Machine.flowsAt
      refine List.mem_append_right _ (List.mem_append_right _
        (List.mem_flatMap.2 ⟨r, hr, ?_⟩))
      rw [if_pos he]
      exact List.mem_append_right _ (List.mem_singleton.2 rfl)
    rw [h] at this
    exact List.not_mem_nil _ this

theorem sum_map_ite_add (K : List Str) (k : Str) (a : JSNumber) (g : Str → JSNumber)
    (hK : K.Nodup) (hk : k ∈ K) :
    (K.map (fun m => if k = m then a + g m else g m)).sum = a + (K.map g).sum := by
  induction K with
  | nil => simp at hk
  | cons x K ih =>
    rw [List.nodup_cons] at hK
    rw [List.map_cons, List.sum_cons, List.map_cons, List.sum_cons]
    by_cases hx : k = x
    · subst hx
      rw [if_pos rfl]
      have : K.map (fun m => if k = m then a + g m else g m) = K.map g := by
        apply List.map_congr_left
        intro m hm
        rw [if_neg (fun e : k = m => hK.1 (e ▸ hm))]
      rw [this, add_assoc]
    · rw [if_neg hx, ih hK.2 ((List.mem_cons.1 hk).resolve_left hx)]
      ac_rfl

/-- Grouping by key and adding the groups up gives the sum over the rows whose key
is among the groups. -/
theorem sum_groups (K : List Str) (hK : K.Nodup) (key : Row → Str) (amt : Row → JSNumber)
    (rows : List Row) :
    (K.map (fun m => ((rows.filter (fun r => key r = m)).map amt).sum)).sum =
      ((rows.filter (fun r => key r ∈ K)).map amt).sum := by
  induction rows with
  | nil => simp
  | cons r rows ih =>
    by_cases hr : key r ∈ K
    · have : (fun m => (((r :: rows).filter (fun r => key r = m)).map amt).sum) =
          (fun m => if key r = m then amt r + ((rows.filter (fun r => key r = m)).map amt).sum
            else ((rows.filter (fun r => key r = m)).map amt).sum) := by
        funext m
        by_cases h : key r = m <;> simp [List.filter_cons, h]
      rw [this, sum_map_ite_add K (key r) _ _ hK hr, ih]
      simp [List.filter_cons, hr]
    · have : K.map (fun m => (((r :: rows).filter (fun r => key r = m)).map amt).sum) =
          K.map (fun m => ((rows.filter (fun r => key r = m)).map amt).sum) := by
        apply List.map_congr_left
        intro m hm
        have h : ¬ key r = m := fun e : key r = m => hr (e ▸ hm)
        simp [List.filter_cons, h]
      rw [this, ih]
      simp [List.filter_cons, hr]

theorem sum_map_add_fn {α : Type} (l : List α) (f g : α → JSNumber) :
    (l.map (fun a => f a + g a)).sum = (l.map f).sum + (l.map g).sum := by
  induction l with
  | nil => simp
  | cons a l ih =>
    simp only [List.map_cons, List.sum_cons, ih]
    ac_rfl

theorem sum_map_neg_fn {α : Type} (l : List α) (f : α → JSNumber) :
    (l.map (fun a => -f a)).sum = -(l.map f).sum := by
  rw [JSNumber.neg_sum, List.map_map]
  rfl

/-- The opening balance of a mode as the sum over its opening-balance rows, when
no two rows have the same mode. -/
theorem Machine.openingBalanceOf_eq_sum (rows : List Row) (m : Str)
    (hn : (rows.map modeOf).Nodup) :
    Machine.openingBalanceOf rows m =
      ((rows.filter (fun r => modeOf r = m)).map Machine.openingAmount).sum := by
  unfold Machine.openingBalanceOf
  have hlen : (rows.filter (fun r => modeOf r = m)).length ≤ 1 := by
    induction rows with
    | nil => simp
    | cons r rows ih =>
      rw [List.map_cons, List.nodup_cons] at hn
      by_cases h : modeOf r = m
      · have : rows.filter (fun r => modeOf r = m) = [] := by
          rw [List.filter_eq_nil_iff]
          intro r' hr' h'
          exact hn.1 (List.mem_map.2 ⟨r', hr', (by simpa using h' : modeOf r' = m).trans h.symm⟩)
        simp [List.filter_cons, h, this]
      · simpa [List.filter_cons, h] using ih hn.2
  rcases hl : rows.filter (fun r => modeOf r = m) with _ | ⟨a, _ | ⟨b, t⟩⟩
  · rfl
  · simp
  · rw [hl] at hlen
    simp at hlen

theorem sum_finite {α : Type} (l : List α) (f : α → JSNumber)
    (h : ∀ a ∈ l, ∃ q : ℚ, f a = num q) : ∃ q : ℚ, (l.map f).sum = num q := by
  induction l with
  | nil => exact ⟨0, rfl⟩
  | cons a l ih =>
    obtain ⟨q, hq⟩ := ih (fun a ha => h a (List.mem_cons_of_mem _ ha))
    obtain ⟨p, hp⟩ := h a (List.mem_cons_self _ _)
    exact ⟨p + q, by rw [List.map_cons, List.sum_cons, hp, hq]; rfl⟩

theorem Machine.mem_keys_of_occurs (s : State) (m : Str) (hne : m ≠ [])
    (hplain : ∀ m, Occurs s m → m ≠ "__proto__".toList ∧
      (m ∈ inheritedNames → m ∈ s.openingBalanceData.map modeOf)) (ho : Occurs s m) :
    m ∈ Dict.keys (Machine.ledger s).modeBalances := by
  rw [(Dict.keys_perm _).mem_iff, (Machine.keys_modeBalances s).2]
  exact ⟨hne, (hplain m ho).1, ho⟩

/-- The sum of the balances when every entry starts as a number and nothing
rounds. -/
theorem Machine.sum_balances (lc : Str → Str → ℤ) (s : State)
    (hplain : ∀ m, Occurs s m → m ≠ "__proto__".toList ∧
      (m ∈ inheritedNames → m ∈ s.openingBalanceData.map modeOf))
    (hround : ∀ m, Occurs s m →
      Machine.NoRounding (Machine.openingBalanceOf s.openingBalanceData m)
        (Machine.flowsAt s m)) :
    ((Machine.updateModeBalances lc s).map (fun c => c.val.asNumber)).sum =
      ((Dict.keys (Machine.ledger s).modeBalances).map (fun m =>
        Machine.openingBalanceOf s.openingBalanceData m
        + (((s.receiptData.filter (fun r => modeOf r = m)).map Machine.amountOf).sum
        + (-((s.expenseData.filter (fun r => modeOf r = m)).map Machine.amountOf).sum
        + (-((s.contraData.filter (fun r => fromOf r = m)).map Machine.amountOf).sum
        + ((s.contraData.filter (fun r => toOf r = m)).map Machine.amountOf).sum))))).sum := by
  rw [Machine.updateModeBalances_def, List.map_map]
  rw [((List.perm_insertionSort _ _).map _).sum_eq]
  congr 1
  apply List.map_congr_left
  intro m hm
  have hk := ((Machine.keys_modeBalances s).2 m).1 ((Dict.keys_perm _).mem_iff.1 hm)
  show (Dict.read (Machine.ledger s).modeBalances m).asNumber = _
  rw [Machine.read_modeBalances_exact s m hk.1 hk.2.1 (hplain m hk.2.2).2
    (Machine.flowsAt_ne_nil_or s m hk.2.2) (hround m hk.2.2), Machine.sum_signed_flowsAt]
  show _ + _ = _
  simp only [JSNumber.sub_def, add_assoc]

theorem filter_mem_keys (s : State) (rows : List Row) (key : Row → Str)
    (hplain : ∀ m, Occurs s m → m ≠ "__proto__".toList ∧
      (m ∈ inheritedNames → m ∈ s.openingBalanceData.map modeOf))
    (hocc : ∀ r ∈ rows, Occurs s (key r)) :
    rows.filter (fun r => key r ∈ Dict.keys (Machine.ledger s).modeBalances) =
      rows.filter (fun r => key r ≠ []) := by
  apply List.filter_congr
  intro r hr
  by_cases h : key r = []
  · have : key r ∉ Dict.keys (Machine.ledger s).modeBalances := by
      rw [(Dict.keys_perm _).mem_iff, (Machine.keys_modeBalances s).2]
      exact fun hh => hh.1 h
    rw [h] at this
    simp [h, this]
  · have := Machine.mem_keys_of_occurs s (key r) h hplain (hocc r hr)
    simp [h, this]

/-! ### Conservation -/

theorem transferState_occurs (m : Str) (h : Occurs transferState m) :
    m = "Cash".toList ∨ m = "Bank".toList := by
  have h1 : transferState.openingBalanceData.map modeOf = ["Cash".toList] := by decide
  have h2 : transferState.receiptData.map modeOf = ["Bank".toList] := by decide
  have h3 : transferState.expenseData.map modeOf = ["Cash".toList] := by decide
  have h4 : transferState.contraData.map fromOf = ["Cash".toList] := by decide
  have h5 : transferState.contraData.map toOf = ["Bank".toList] := by decide
  unfold Occurs at h
  rw [h1, h2, h3, h4, h5] at h
  simp only [List.mem_singleton] at h
  tauto

/-- C1, amended: reconciler conservation.  When every opening-balance, receipt
and expense row has a non-empty trimmed `Mode`, the opening-balance modes are
distinct, every contra has a finite amount and `From` and `To` both empty or both
non-empty, no mode name is `__proto__`, a mode name that is inherited from
`Object.prototype` has an opening-balance row, and no credit or debit of a mode
rounds (each new balance, as an exact sum, is a double), the exact sum of the
balances is the exact sum of the opening balances plus the receipts minus the
expenses, the amounts being the doubles that `toNumber` returns. -/
theorem balances_conservation (lc : Str → Str → ℤ) (s : State)
    (hob : ∀ r ∈ s.openingBalanceData, modeOf r ≠ [])
    (hobn : (s.openingBalanceData.map modeOf).Nodup)
    (hrec : ∀ r ∈ s.receiptData, modeOf r ≠ [])
    (hexp : ∀ r ∈ s.expenseData, modeOf r ≠ [])
    (hcon : ∀ r ∈ s.contraData,
      (fromOf r = [] ↔ toOf r = []) ∧ ∃ q, Machine.amountOf r = num q)
    (hplain : ∀ m, Occurs s m → m ≠ "__proto__".toList ∧
      (m ∈ inheritedNames → m ∈ s.openingBalanceData.map modeOf))
    (hround : ∀ m, Occurs s m →
      Machine.NoRounding (Machine.openingBalanceOf s.openingBalanceData m)
        (Machine.flowsAt s m)) :
    ((Machine.updateModeBalances lc s).map (fun c => c.val.asNumber)).sum =
      (s.openingBalanceData.map Machine.openingAmount).sum
        + (s.receiptData.map Machine.amountOf).sum
        - (s.expenseData.map Machine.amountOf).sum := by
  have hK : (Dict.keys (Machine.ledger s).modeBalances).Nodup :=
    (Dict.keys_perm _).nodup_iff.2 (Machine.keys_modeBalances s).1.1
  rw [Machine.sum_balances lc s hplain hround]
  rw [sum_map_add_fn, sum_map_add_fn, sum_map_add_fn, sum_map_add_fn, sum_map_neg_fn,
    sum_map_neg_fn]
  have h1 : ((Dict.keys (Machine.ledger s).modeBalances).map
      (fun m => Machine.openingBalanceOf s.openingBalanceData m)).sum =
      (s.openingBalanceData.map Machine.openingAmount).sum := by
    rw [List.map_congr_left (fun m _ => Machine.openingBalanceOf_eq_sum _ m hobn),
      sum_groups _ hK, filter_mem_keys s _ modeOf hplain
        (fun r hr => Or.inl (List.mem_map_of_mem _ hr))]
    rw [List.filter_eq_self.2 (fun r hr => by simpa using hob r hr)]
  have h2 : ((Dict.keys (Machine.ledger s).modeBalances).map (fun m =>
      ((s.receiptData.filter (fun r => modeOf r = m)).map Machine.amountOf).sum)).sum =
      (s.receiptData.map Machine.amountOf).sum := by
    rw [sum_groups _ hK, filter_mem_keys s _ modeOf hplain
        (fun r hr => Or.inr (Or.inl (List.mem_map_of_mem _ hr)))]
    rw [List.filter_eq_self.2 (fun r hr => by simpa using hrec r hr)]
  have h3 : ((Dict.keys (Machine.ledger s).modeBalances).map (fun m =>
      ((s.expenseData.filter (fun r => modeOf r = m)).map Machine.amountOf).sum)).sum =
      (s.expenseData.map Machine.amountOf).sum := by
    rw [sum_groups _ hK, filter_mem_keys s _ modeOf hplain
        (fun r hr => Or.inr (Or.inr (Or.inl (List.mem_map_of_mem _ hr))))]
    rw [List.filter_eq_self.2 (fun r hr => by simpa using hexp r hr)]
  have h4 : ((Dict.keys (Machine.ledger s).modeBalances).map (fun m =>
      ((s.contraData.filter (fun r => fromOf r = m)).map Machine.amountOf).sum)).sum =
      ((s.contraData.filter (fun r => fromOf r ≠ [])).map Machine.amountOf).sum := by
    rw [sum_groups _ hK, filter_mem_keys s _ fromOf hplain
        (fun r hr => Or.inr (Or.inr (Or.inr (Or.inl (List.mem_map_of_mem _ hr)))))]
  have h5 : ((Dict.keys (Machine.ledger s).modeBalances).map (fun m =>
      ((s.contraData.filter (fun r => toOf r = m)).map Machine.amountOf).sum)).sum =
      ((s.contraData.filter (fun r => fromOf r ≠ [])).map Machine.amountOf).sum := by
    rw [sum_groups _ hK, filter_mem_keys s _ toOf hplain
        (fun r hr => Or.inr (Or.inr (Or.inr (Or.inr (List.mem_map_of_mem _ hr)))))]
    have hf : s.contraData.filter (fun r => toOf r ≠ []) =
        s.contraData.filter (fun r => fromOf r ≠ []) := by
      apply List.filter_congr
      intro r hr
      have := (hcon r hr).1
      by_cases h : fromOf r = []
      · simp [h, this.1 h]
      · have ht : ¬ toOf r = [] := fun e => h (this.2 e)
        simp [h, ht]
    rw [hf]
  rw [h1, h2, h3, h4, h5]
  obtain ⟨q, hq⟩ := sum_finite (s.contraData.filter (fun r => fromOf r ≠ [])) Machine.amountOf
    (fun r hr => (hcon r (List.mem_of_mem_filter hr)).2)
  rw [hq, JSNumber.neg_add_cancel_num, add_zero, JSNumber.sub_def, add_assoc]

/-- C1, as stated, fails: a contra with an empty `To` or an empty `From` changes
the total by its amount; a contra of `Infinity` between two modes makes the
total `NaN`; a receipt, an expense or an opening balance with an empty `Mode` is
not counted; of two opening-balance rows for one mode only the last is counted;
an opening balance on the mode `__proto__` is stored nowhere; a receipt on a name
that `{}` inherits gives a balance that is not the amount; and with opening
balance 0.1 and receipts 0.2 and 0.3 the balance is `0.6000000000000001`, not the
sum of the three doubles. -/
theorem conservation_fails :
    (((Machine.updateModeBalances (fun _ _ => 0) oneSidedContra).map
          (fun c => c.val.asNumber)).sum = num (-300) ∧
      (oneSidedContra.openingBalanceData.map Machine.openingAmount).sum
        + (oneSidedContra.receiptData.map Machine.amountOf).sum
        - (oneSidedContra.expenseData.map Machine.amountOf).sum = num 0) ∧
    (((Machine.updateModeBalances (fun _ _ => 0) contraWithoutFrom).map
          (fun c => c.val.asNumber)).sum = num 300 ∧
      (contraWithoutFrom.openingBalanceData.map Machine.openingAmount).sum
        + (contraWithoutFrom.receiptData.map Machine.amountOf).sum
        - (contraWithoutFrom.expenseData.map Machine.amountOf).sum = num 0) ∧
    (((Machine.updateModeBalances (fun _ _ => 0) infiniteContra).map
          (fun c => c.val.asNumber)).sum = nan ∧
      (infiniteContra.openingBalanceData.map Machine.openingAmount).sum
        + (infiniteContra.receiptData.map Machine.amountOf).sum
        - (infiniteContra.expenseData.map Machine.amountOf).sum = num 0) ∧
    (((Machine.updateModeBalances (fun _ _ => 0) receiptWithoutMode).map
          (fun c => c.val.asNumber)).sum = num 0 ∧
      (receiptWithoutMode.openingBalanceData.map Machine.openingAmount).sum
        + (receiptWithoutMode.receiptData.map Machine.amountOf).sum
        - (receiptWithoutMode.expenseData.map Machine.amountOf).sum = num 500) ∧
    (((Machine.updateModeBalances (fun _ _ => 0) expenseWithoutMode).map
          (fun c => c.val.asNumber)).sum = num 0 ∧
      (expenseWithoutMode.openingBalanceData.map Machine.openingAmount).sum
        + (expenseWithoutMode.receiptData.map Machine.amountOf).sum
        - (expenseWithoutMode.expenseData.map Machine.amountOf).sum = num (-500)) ∧
    (((Machine.updateModeBalances (fun _ _ => 0) openingWithoutMode).map
          (fun c => c.val.asNumber)).sum = num 0 ∧
      (openingWithoutMode.openingBalanceData.map Machine.openingAmount).sum
        + (openingWithoutMode.receiptData.map Machine.amountOf).sum
        - (openingWithoutMode.expenseData.map Machine.amountOf).sum = num 100) ∧
    (((Machine.updateModeBalances (fun _ _ => 0) repeatedOpening).map
          (fun c => c.val.asNumber)).sum = num 250 ∧
      (repeatedOpening.openingBalanceData.map Machine.openingAmount).sum
        + (repeatedOpening.receiptData.map Machine.amountOf).sum
        - (repeatedOpening.expenseData.map Machine.amountOf).sum = num 350) ∧
    (((Machine.updateModeBalances (fun _ _ => 0) protoOpening).map
          (fun c => c.val.asNumber)).sum = num 0 ∧
      (protoOpening.openingBalanceData.map Machine.openingAmount).sum
        + (protoOpening.receiptData.map Machine.amountOf).sum
        - (protoOpening.expenseData.map Machine.amountOf).sum = num 100) ∧
    (∀ m ∈ inheritedNames,
      ((Machine.updateModeBalances (fun _ _ => 0) (receiptOn m)).map
          (fun c => c.val.asNumber)).sum ≠ num 500 ∧
      ((receiptOn m).openingBalanceData.map Machine.openingAmount).sum
        + ((receiptOn m).receiptData.map Machine.amountOf).sum
        - ((receiptOn m).expenseData.map Machine.amountOf).sum = num 500) ∧
    (((Machine.updateModeBalances (fun _ _ => 0) tenthsState).map
          (fun c => c.val.asNumber)).sum = num (5404319552844596 / 9007199254740992) ∧
      (tenthsState.openingBalanceData.map Machine.openingAmount).sum
        + (tenthsState.receiptData.map Machine.amountOf).sum
        - (tenthsState.expenseData.map Machine.amountOf).sum =
        num (21617278211378381 / 36028797018963968)) := by
  refine ⟨by decide!, by decide!, by decide!, by decide!, by decide!, by decide!, by decide!,
    by decide!, by decide!, by decide!⟩

/-- C1, amended, at an input with an opening balance, an expense, a receipt and a
two-sided contra: the balances add up to `1700`. -/
theorem balances_conservation_witness :
    ((Machine.updateModeBalances (fun _ _ => 0) transferState).map
        (fun c => c.val.asNumber)).sum =
      (transferState.openingBalanceData.map Machine.openingAmount).sum
        + (transferState.receiptData.map Machine.amountOf).sum
        - (transferState.expenseData.map Machine.amountOf).sum ∧
    ((Machine.updateModeBalances (fun _ _ => 0) transferState).map
        (fun c => c.val.asNumber)).sum = num 1700 :=
  ⟨balances_conservation (fun _ _ => 0) transferState (by decide) (by decide) (by decide)
      (by decide)
      (by
        intro r hr
        have : r = cashToBank := by simpa [transferState, cashToBank] using hr
        subst this
        exact ⟨by decide, 300, by decide!⟩)
      (by
        intro m h
        rcases transferState_occurs m h with rfl | rfl <;> decide)
      (by
        intro m h
        rcases transferState_occurs m h with rfl | rfl <;> decide!),
   by decide!⟩

/-! ### The balance of a mode -/

/-- C2, as stated, fails when a sum rounds and at the names that `{}` inherits.
The amounts are the doubles that `toNumber` returns.
With opening balance 0.1 and receipts 0.2 and 0.3 on `Cash` the balance is
`(0.1 + 0.2) + 0.3` in doubles, which is `0.6000000000000001`, and differs from
the sum of the three amounts, whether these are the decimals or the doubles
nearest to them.  With a receipt on the mode `constructor` the balance is the
inherited member with the amount appended, not a number. -/
theorem balance_rounds :
    (Machine.updateModeBalances (fun _ _ => 0) tenthsState =
        [{ mode := "Cash".toList,
           val := Value.number (num (5404319552844596 / 9007199254740992)),
           ob := Value.number (num (3602879701896397 / 36028797018963968)) }] ∧
      openingAmount [("OB".toList, some "0.1".toList)] +
          ((tenthsState.receiptData.filter (fun r => modeOf r = "Cash".toList)).map
            amountOf).sum = num (3 / 5) ∧
      num (5404319552844596 / 9007199254740992) ≠ num (3 / 5) ∧
      num (5404319552844596 / 9007199254740992) ≠
        Machine.openingBalanceOf tenthsState.openingBalanceData "Cash".toList
          + ((tenthsState.receiptData.filter (fun r => modeOf r = "Cash".toList)).map
              Machine.amountOf).sum
          - ((tenthsState.expenseData.filter (fun r => modeOf r = "Cash".toList)).map
              Machine.amountOf).sum
          - ((tenthsState.contraData.filter (fun r => fromOf r = "Cash".toList)).map
              Machine.amountOf).sum
          + ((tenthsState.contraData.filter (fun r => toOf r = "Cash".toList)).map
              Machine.amountOf).sum) ∧
    ("constructor".toList ∉ constructorReceipt.openingBalanceData.map modeOf ∧
      Machine.updateModeBalances (fun _ _ => 0) constructorReceipt =
        [{ mode := "constructor".toList, val := Value.other, ob := Value.other }] ∧
      Value.other ≠ Value.number
        (Machine.openingBalanceOf constructorReceipt.openingBalanceData "constructor".toList
          + ((constructorReceipt.receiptData.filter
              (fun r => modeOf r = "constructor".toList)).map Machine.amountOf).sum
          - ((constructorReceipt.expenseData.filter
              (fun r => modeOf r = "constructor".toList)).map Machine.amountOf).sum
          - ((constructorReceipt.contraData.filter
              (fun r => fromOf r = "constructor".toList)).map Machine.amountOf).sum
          + ((constructorReceipt.contraData.filter
              (fun r => toOf r = "constructor".toList)).map Machine.amountOf).sum)) := by
  refine ⟨⟨by decide!, by decide!, by decide!, by decide!⟩, by decide, by decide!, by decide⟩

/-- C2, amended: for every input and every mode `m` in the result of
`updateModeBalances` that has an opening-balance row or is not a name inherited
from `Object.prototype`, if no credit or debit of `m` rounds (each new balance,
as an exact sum, is a double), the balance of `m` is its opening balance, plus the
receipts on it, minus the expenses on it, minus the contras from it, plus the
contras to it, each a sum of `toNumber(Amount)` over the rows whose trimmed field
is `m`; the opening balance is the normalised balance of the opening-balance row
for `m` and `0` when there is none. -/
theorem balance_formula (lc : Str → Str → ℤ) (s : State) (c : Machine.Card)
    (hc : c ∈ Machine.updateModeBalances lc s)
    (hi : c.mode ∈ inheritedNames → c.mode ∈ s.openingBalanceData.map modeOf)
    (hr : Machine.NoRounding (Machine.openingBalanceOf s.openingBalanceData c.mode)
      (Machine.flowsAt s c.mode)) :
    c.val = Value.number
      (Machine.openingBalanceOf s.openingBalanceData c.mode
        + ((s.receiptData.filter (fun r => modeOf r = c.mode)).map Machine.amountOf).sum
        - ((s.expenseData.filter (fun r => modeOf r = c.mode)).map Machine.amountOf).sum
        - ((s.contraData.filter (fun r => fromOf r = c.mode)).map Machine.amountOf).sum
        + ((s.contraData.filter (fun r => toOf r = c.mode)).map Machine.amountOf).sum) := by
  obtain ⟨⟨hne, hp, hocc⟩, hval, -⟩ := Machine.mem_cards lc s c hc
  rw [hval, Machine.read_modeBalances_exact s c.mode hne hp hi
      (Machine.flowsAt_ne_nil_or s c.mode hocc) hr,
    Machine.sum_signed_flowsAt]
  simp only [JSNumber.sub_def, add_assoc]

/-- C2, amended, at the scenario of the specification: the card of `Cash` shows
`1700`. -/
theorem balance_formula_witness :
    Machine.updateModeBalances (fun _ _ => 0) scenarioState =
      [{ mode := "Cash".toList, val := Value.number (num 1700),
         ob := Value.number (num 1000) }] ∧
    Value.number (num 1700) = Value.number
      (Machine.openingBalanceOf scenarioState.openingBalanceData "Cash".toList
        + ((scenarioState.receiptData.filter (fun r => modeOf r = "Cash".toList)).map
            Machine.amountOf).sum
        - ((scenarioState.expenseData.filter (fun r => modeOf r = "Cash".toList)).map
            Machine.amountOf).sum
        - ((scenarioState.contraData.filter (fun r => fromOf r = "Cash".toList)).map
            Machine.amountOf).sum
        + ((scenarioState.contraData.filter (fun r => toOf r = "Cash".toList)).map
            Machine.amountOf).sum) :=
  ⟨by decide!,
   balance_formula (fun _ _ => 0) scenarioState
     { mode := "Cash".toList, val := Value.number (num 1700), ob := Value.number (num 1000) }
     (by decide!) (by decide) (by decide!)⟩

/-! ### One contra row -/

theorem Dict.read_set (d : Dict) (k m : Str) (v : Value) :
    Dict.read (Obj.set d k v) m = if k = m then v else Dict.read d m := by
  unfold Dict.read
  rw [Obj.get_set]
  by_cases h : k = m
  · simp [h]
  · simp [h]

theorem Dict.total_eq (d : Dict) : Dict.total d = ((Obj.values d).map Value.asNumber).sum := by
  unfold Dict.total Dict.values
  exact (((enumerate_perm d).map Prod.snd).map Value.asNumber).sum_eq

theorem Dict.sum_set_some (d : Dict) (k : Str) (v w : Value) (δ : JSNumber)
    (h : Obj.get d k = some v) (hw : w.asNumber = v.asNumber + δ) :
    ((Obj.values (Obj.set d k w)).map Value.asNumber).sum =
      ((Obj.values d).map Value.asNumber).sum + δ := by
  induction d with
  | nil => simp [Obj.get] at h
  | cons kv t ih =>
    obtain ⟨k', v'⟩ := kv
    by_cases hk : k' = k
    · simp only [Obj.get, if_pos hk, Option.some.injEq] at h
      subst h
      simp only [Obj.set, if_pos hk, Obj.values_cons, List.map_cons, List.sum_cons, hw]
      ac_rfl
    · simp only [Obj.get, if_neg hk] at h
      simp only [Obj.set, if_neg hk, Obj.values_cons, List.map_cons, List.sum_cons, ih h]
      ac_rfl

theorem Dict.sum_set_none (d : Dict) (k : Str) (w : Value) (h : Obj.get d k = none) :
    ((Obj.values (Obj.set d k w)).map Value.asNumber).sum =
      ((Obj.values d).map Value.asNumber).sum + w.asNumber := by
  rw [Obj.set_of_not_mem d k w ((Obj.get_eq_none_iff d k).1 h)]
  simp [Obj.values]

/-- A credit or debit of an entry that holds a number. -/
theorem Machine.applyFlow_of_balance (d : Dict) (k : Str) (c : Bool) (a x : JSNumber)
    (h : Dict.HasBalance d k x) :
    ∃ d', Machine.applyFlow d k c a =
        Obj.set d' k (Value.number (if c then Machine.add x a else Machine.sub x a)) ∧
      (∀ m, k ≠ m → Obj.get d' m = Obj.get d m) ∧
      ((Obj.values d').map Value.asNumber).sum = ((Obj.values d).map Value.asNumber).sum ∧
      Obj.get d' k = some (Value.number x) := by
  rcases h with h | ⟨h, hi, rfl⟩
  · refine ⟨d, ?_, fun _ _ => rfl, rfl, h⟩
    have hr : Dict.read d k = Value.number x := by unfold Dict.read; rw [h]
    have he : Machine.ensure d k = d := by
      unfold Machine.ensure
      rw [hr, if_neg (by simp)]
    unfold Machine.applyFlow
    rw [he, hr]
    unfold Dict.write
    rw [if_neg (fun hh => by rw [h] at hh; exact absurd hh.2 (by simp))]
    cases c <;> rfl
  · have hp : k ≠ "__proto__".toList := fun e => hi (by rw [e]; decide)
    refine ⟨Obj.set d k (Value.number 0), ?_, ?_, ?_, ?_⟩
    · have hr : Dict.read d k = Value.undefined := by
        unfold Dict.read; rw [h]; simp [hi]
      have he : Machine.ensure d k = Obj.set d k (Value.number 0) := by
        unfold Machine.ensure
        rw [hr, if_pos rfl]
        unfold Dict.write
        rw [if_neg (fun hh => hp hh.1)]
      unfold Machine.applyFlow
      rw [he, Dict.read_set, if_pos rfl]
      unfold Dict.write
      rw [if_neg (fun hh => hp hh.1)]
      cases c <;> rfl
    · intro m hm
      rw [Obj.get_set, if_neg hm]
    · rw [Dict.sum_set_none d k _ h]
      show _ + (0 : JSNumber) = _
      rw [add_zero]
    · rw [Obj.get_set, if_pos rfl]

theorem Machine.read_applyFlow_of_ne (d : Dict) (k m : Str) (c : Bool) (a : JSNumber)
    (h : k ≠ m) : Dict.read (Machine.applyFlow d k c a) m = Dict.read d m := by
  unfold Machine.applyFlow
  rw [Dict.read_write_of_ne _ _ _ _ h, Machine.read_ensure_of_ne _ _ _ h]

theorem Machine.get_applyFlow_of_ne (d : Dict) (k m : Str) (c : Bool) (a : JSNumber)
    (h : k ≠ m) : Obj.get (Machine.applyFlow d k c a) m = Obj.get d m := by
  have hw : ∀ (e : Dict) (v : Value), Obj.get (Dict.write e k v) m = Obj.get e m := by
    intro e v
    unfold Dict.write
    split_ifs
    · rfl
    · rw [Obj.get_set, if_neg h]
  have he : Obj.get (Machine.ensure d k) m = Obj.get d m := by
    unfold Machine.ensure
    split_ifs
    · exact hw _ _
    · rfl
  unfold Machine.applyFlow
  rw [hw, he]

theorem Dict.hasBalance_applyFlow (d : Dict) (k m : Str) (c : Bool) (a y : JSNumber)
    (h : k ≠ m) (hb : Dict.HasBalance d m y) :
    Dict.HasBalance (Machine.applyFlow d k c a) m y := by
  unfold Dict.HasBalance at hb ⊢
  rw [Machine.get_applyFlow_of_ne d k m c a h]
  exact hb

theorem Machine.read_applyFlow_of_balance (d : Dict) (k : Str) (c : Bool) (a x : JSNumber)
    (h : Dict.HasBalance d k x) :
    Dict.read (Machine.applyFlow d k c a) k =
      Value.number (if c then Machine.add x a else Machine.sub x a) := by
  obtain ⟨d', he, -, -, -⟩ := Machine.applyFlow_of_balance d k c a x h
  rw [he, Dict.read_set, if_pos rfl]

theorem Machine.total_applyFlow (d : Dict) (k : Str) (c : Bool) (a x : JSNumber)
    (h : Dict.HasBalance d k x)
    (hx : (if c then x + a else x - a).isDouble) :
    Dict.total (Machine.applyFlow d k c a) = Dict.total d + (if c then a else -a) := by
  obtain ⟨d', he, -, hs, hg⟩ := Machine.applyFlow_of_balance d k c a x h
  rw [Dict.total_eq, Dict.total_eq, he, ← hs]
  apply Dict.sum_set_some d' k (Value.number x) _ _ hg
  cases c
  · exact hx
  · exact hx

theorem Machine.sub_of_isDouble (x a : JSNumber) (h : (x - a).isDouble) :
    Machine.sub x a = x - a := h

theorem Machine.add_of_isDouble (x a : JSNumber) (h : (x + a).isDouble) :
    Machine.add x a = x + a := h

/-- C3, amended: effect and frame of one contra row on any balance map.  Entries
other than `From` and `To` are unchanged.  With both non-empty and distinct, and
each entry holding a number (an own numeric property, or no property under a name
that is not inherited, counting as `0`), `From` becomes the rounded difference
and `To` the rounded sum of its number and the amount; when neither result
rounds, `From` decreases and `To` increases by exactly the amount, and with a
finite amount the total of the balances is unchanged.  With one side empty only
the other entry changes, in the same way; with both empty nothing changes. -/
theorem contraStep_effect (mb : Dict) (r : Row) :
    (∀ m, m ≠ fromOf r → m ≠ toOf r →
      Dict.read (Machine.contraStep mb r) m = Dict.read mb m) ∧
    (∀ x y, fromOf r ≠ [] → toOf r ≠ [] → fromOf r ≠ toOf r →
      Dict.HasBalance mb (fromOf r) x → Dict.HasBalance mb (toOf r) y →
      Dict.read (Machine.contraStep mb r) (fromOf r) =
          Value.number (Machine.sub x (Machine.amountOf r)) ∧
        Dict.read (Machine.contraStep mb r) (toOf r) =
          Value.number (Machine.add y (Machine.amountOf r)) ∧
        ((x - Machine.amountOf r).isDouble → (y + Machine.amountOf r).isDouble →
          Dict.read (Machine.contraStep mb r) (fromOf r) =
              Value.number (x - Machine.amountOf r) ∧
            Dict.read (Machine.contraStep mb r) (toOf r) =
              Value.number (y + Machine.amountOf r) ∧
            ((∃ q : ℚ, Machine.amountOf r = num q) →
              Dict.total (Machine.contraStep mb r) = Dict.total mb))) ∧
    (∀ y, fromOf r = [] → toOf r ≠ [] → Dict.HasBalance mb (toOf r) y →
      Dict.read (Machine.contraStep mb r) (toOf r) =
          Value.number (Machine.add y (Machine.amountOf r)) ∧
        ((y + Machine.amountOf r).isDouble →
          Dict.read (Machine.contraStep mb r) (toOf r) =
            Value.number (y + Machine.amountOf r)) ∧
        ∀ m, m ≠ toOf r → Dict.read (Machine.contraStep mb r) m = Dict.read mb m) ∧
    (∀ x, toOf r = [] → fromOf r ≠ [] → Dict.HasBalance mb (fromOf r) x →
      Dict.read (Machine.contraStep mb r) (fromOf r) =
          Value.number (Machine.sub x (Machine.amountOf r)) ∧
        ((x - Machine.amountOf r).isDouble →
          Dict.read (Machine.contraStep mb r) (fromOf r) =
            Value.number (x - Machine.amountOf r)) ∧
        ∀ m, m ≠ fromOf r → Dict.read (Machine.contraStep mb r) m = Dict.read mb m) ∧
    (fromOf r = [] → toOf r = [] → Machine.contraStep mb r = mb) := by
  have hframe : ∀ (d : Dict) (k m : Str) (c : Bool), m ≠ k →
      Dict.read (if k = [] then d else Machine.applyFlow d k c (Machine.amountOf r)) m =
        Dict.read d m := by
    intro d k m c h
    split_ifs
    · rfl
    · exact Machine.read_applyFlow_of_ne d k m c _ (fun e => h e.symm)
  have hstep : Machine.contraStep mb r =
      (if toOf r = [] then (if fromOf r = [] then mb
          else Machine.applyFlow mb (fromOf r) false (Machine.amountOf r))
        else Machine.applyFlow (if fromOf r = [] then mb
          else Machine.applyFlow mb (fromOf r) false (Machine.amountOf r)) (toOf r) true
            (Machine.amountOf r)) := by
    rw [Machine.contraStep_def]
  refine ⟨?_, ?_, ?_, ?_, ?_⟩
  · intro m h1 h2
    rw [hstep, hframe _ (toOf r) m true h2, hframe _ (fromOf r) m false h1]
  · intro x y hf ht hne hx hy
    have hy' := Dict.hasBalance_applyFlow mb (fromOf r) (toOf r) false (Machine.amountOf r) y
      hne hy
    have e1 : Dict.read (Machine.contraStep mb r) (fromOf r) =
        Value.number (Machine.sub x (Machine.amountOf r)) := by
      rw [hstep, if_neg ht, if_neg hf, Machine.read_applyFlow_of_ne _ _ _ _ _ (Ne.symm hne),
        Machine.read_applyFlow_of_balance _ _ _ _ x hx]
      rfl
    have e2 : Dict.read (Machine.contraStep mb r) (toOf r) =
        Value.number (Machine.add y (Machine.amountOf r)) := by
      rw [hstep, if_neg ht, if_neg hf, Machine.read_applyFlow_of_balance _ _ _ _ y hy']
      rfl
    refine ⟨e1, e2, fun h1 h2 => ⟨?_, ?_, ?_⟩⟩
    · rw [e1, Machine.sub_of_isDouble _ _ h1]
    · rw [e2, Machine.add_of_isDouble _ _ h2]
    · rintro ⟨q, hq⟩
      rw [hstep, if_neg ht, if_neg hf, Machine.total_applyFlow _ _ true _ y hy' h2,
        Machine.total_applyFlow _ _ false _ x hx h1]
      simp only [if_true, Bool.false_eq_true, if_false]
      rw [add_assoc, hq, JSNumber.neg_add_cancel_num, add_zero]
  · intro y hf ht hy
    have e2 : Dict.read (Machine.contraStep mb r) (toOf r) =
        Value.number (Machine.add y (Machine.amountOf r)) := by
      rw [hstep, if_neg ht, if_pos hf, Machine.read_applyFlow_of_balance _ _ _ _ y hy]
      rfl
    refine ⟨e2, fun h2 => by rw [e2, Machine.add_of_isDouble _ _ h2], fun m hm => ?_⟩
    rw [hstep, if_neg ht, if_pos hf]
    exact Machine.read_applyFlow_of_ne _ _ _ _ _ (Ne.symm hm)
  · intro x ht hf hx
    have e1 : Dict.read (Machine.contraStep mb r) (fromOf r) =
        Value.number (Machine.sub x (Machine.amountOf r)) := by
      rw [hstep, if_pos ht, if_neg hf, Machine.read_applyFlow_of_balance _ _ _ _ x hx]
      rfl
    refine ⟨e1, fun h1 => by rw [e1, Machine.sub_of_isDouble _ _ h1], fun m hm => ?_⟩
    rw [hstep, if_pos ht, if_neg hf]
    exact Machine.read_applyFlow_of_ne _ _ _ _ _ (Ne.symm hm)
  · intro hf ht
    rw [hstep, if_pos ht, if_pos hf]

/-- C3, as stated, fails.  With the amount `Infinity` on the empty map the entries
are `-Infinity` and `Infinity` and the total is `NaN`, not `0`; the text `1e400`
is such an amount.  With a `From` or a `To` that `{}` inherits, on the empty map,
the entry is not `-300`, respectively `300`.  With `Cash` at ten thousand million
million and the amount `1`, the difference rounds: `Cash` stays, `Bank` is `1`,
and the total grows by `1`. -/
theorem contra_effect_fails :
    (Dict.read (Machine.contraStep [] (contraRow "Cash".toList "Bank".toList "Infinity".toList))
          "Cash".toList = Value.number (inf true) ∧
      Dict.read (Machine.contraStep [] (contraRow "Cash".toList "Bank".toList "Infinity".toList))
          "Bank".toList = Value.number (inf false) ∧
      Dict.total (Machine.contraStep []
          (contraRow "Cash".toList "Bank".toList "Infinity".toList)) = nan ∧
      Dict.total [] = num 0 ∧
      Machine.amountOf (contraRow "Cash".toList "Bank".toList "1e400".toList) = inf false) ∧
    (∀ m ∈ inheritedNames,
      Dict.read (Machine.contraStep [] (contraRow m "Bank".toList "300".toList)) m ≠
        Value.number (num (-300)) ∧
      Dict.read (Machine.contraStep [] (contraRow "Cash".toList m "300".toList)) m ≠
        Value.number (num 300)) ∧
    (Dict.read (Machine.contraStep largeCash (contraRow "Cash".toList "Bank".toList "1".toList))
          "Cash".toList = Value.number (num 10000000000000000) ∧
      Dict.read (Machine.contraStep largeCash (contraRow "Cash".toList "Bank".toList "1".toList))
          "Bank".toList = Value.number (num 1) ∧
      Dict.total (Machine.contraStep largeCash
          (contraRow "Cash".toList "Bank".toList "1".toList)) = num 10000000000000001 ∧
      Dict.total largeCash = num 10000000000000000) := by
  refine ⟨by decide!, by decide!, by decide!⟩

/-- C3, amended, at the contra `Cash` to `Bank` of 300 on the empty balance map:
`Cash` is `-300`, `Bank` is `300` and the total is unchanged. -/
theorem contraStep_effect_witness :
    (Dict.read (Machine.contraStep [] cashToBank) "Cash".toList = Value.number (num (-300)) ∧
      Dict.read (Machine.contraStep [] cashToBank) "Bank".toList = Value.number (num 300)) ∧
    (Dict.read (Machine.contraStep [] cashToBank) (fromOf cashToBank) =
        Value.number (0 - Machine.amountOf cashToBank) ∧
      Dict.read (Machine.contraStep [] cashToBank) (toOf cashToBank) =
        Value.number (0 + Machine.amountOf cashToBank) ∧
      ((∃ q : ℚ, Machine.amountOf cashToBank = num q) →
        Dict.total (Machine.contraStep [] cashToBank) = Dict.total [])) :=
  ⟨by decide!,
   ((contraStep_effect [] cashToBank).2.1 0 0 (by decide) (by decide) (by decide)
      (Or.inr ⟨by decide, by decide, rfl⟩) (Or.inr ⟨by decide, by decide, rfl⟩)).2.2
      (by decide!) (by decide!)⟩

/-! ### The keys of the balance map -/

/-- C4, as stated, fails at the names that `{}` inherits.  A receipt on the mode
`__proto__` creates no key and no card, because the write to `__proto__` stores
nothing; and a receipt on the mode `constructor`, which has no opening-balance
row, is reported with the inherited member as its opening balance, not with `0`. -/
theorem inherited_modes :
    (Occurs protoReceipt "__proto__".toList ∧
      Dict.keys (Machine.ledger protoReceipt).modeBalances = [] ∧
      Machine.updateModeBalances (fun _ _ => 0) protoReceipt = []) ∧
    ("constructor".toList ∉ constructorReceipt.openingBalanceData.map modeOf ∧
      Machine.updateModeBalances (fun _ _ => 0) constructorReceipt =
        [{ mode := "constructor".toList, val := Value.other, ob := Value.other }] ∧
      Value.other ≠ Value.number 0) := by
  refine ⟨⟨Or.inr (Or.inl (by decide)), by decide!, by decide!⟩, by decide, by decide!,
    by decide⟩

/-- C4, amended: the keys of the reconciled balance map are exactly the non-empty
trimmed mode names, other than `__proto__`, of the four inputs (opening-balance
`Mode`, receipt `Mode`, expense `Mode`, contra `From`, contra `To`), each once;
the presented cards list each key exactly once; and a mode that is not a name
inherited from `Object.prototype` and has no opening-balance row is reported with
opening balance `0`. -/
theorem balance_keys (lc : Str → Str → ℤ) (s : State) :
    (∀ m, m ∈ Dict.keys (Machine.ledger s).modeBalances ↔
      m ≠ [] ∧ m ≠ "__proto__".toList ∧
        (m ∈ s.openingBalanceData.map modeOf ∨ m ∈ s.receiptData.map modeOf ∨
          m ∈ s.expenseData.map modeOf ∨ m ∈ s.contraData.map fromOf ∨
          m ∈ s.contraData.map toOf)) ∧
    (Dict.keys (Machine.ledger s).modeBalances).Nodup ∧
    ((Machine.updateModeBalances lc s).map Machine.Card.mode).Perm
      (Dict.keys (Machine.ledger s).modeBalances) ∧
    (∀ c ∈ Machine.updateModeBalances lc s, c.mode ∉ inheritedNames →
      c.mode ∉ s.openingBalanceData.map modeOf → c.ob = Value.number 0) := by
  refine ⟨?_, ?_, ?_, ?_⟩
  · intro m
    rw [(Dict.keys_perm _).mem_iff]
    exact (Machine.keys_modeBalances s).2 m
  · exact (Dict.keys_perm _).nodup_iff.2 (Machine.keys_modeBalances s).1.1
  · rw [Machine.updateModeBalances_def, List.map_map]
    have : (Machine.Card.mode ∘ fun mode =>
        ({ mode := mode, val := Dict.read (Machine.ledger s).modeBalances mode,
           ob := (Dict.read (Machine.ledger s).openingMap mode).orZero } : Machine.Card)) = id :=
      rfl
    rw [this, List.map_id]
    exact List.perm_insertionSort _ _
  · intro c hc hi hno
    obtain ⟨⟨hne, hp, -⟩, -, hob⟩ := Machine.mem_cards lc s c hc
    rw [hob, Machine.read_openingMap s c.mode hne hp, Machine.openingValue_of_plain _ _
      (fun h => absurd h hi)]
    have : (s.openingBalanceData.filter (fun r => modeOf r = c.mode)).getLast? = none := by
      rw [List.getLast?_eq_none_iff, List.filter_eq_nil_iff]
      intro r hr hrm
      exact hno (List.mem_map.2 ⟨r, hr, by simpa using hrm⟩)
    rw [this]
    rfl

/-- C4, amended, at the transfer scenario: the keys are `Cash` and `Bank`, and
`Bank`, which has no opening-balance row, is reported with opening balance `0`. -/
theorem balance_keys_witness :
    Machine.updateModeBalances (fun _ _ => 0) transferState =
      [{ mode := "Cash".toList, val := Value.number (num 900), ob := Value.number (num 1000) },
       { mode := "Bank".toList, val := Value.number (num 800), ob := Value.number (num 0) }] ∧
    (({ mode := "Bank".toList, val := Value.number (num 800), ob := Value.number (num 0) } :
        Machine.Card).ob = Value.number 0) :=
  ⟨by decide!,
   (balance_keys (fun _ _ => 0) transferState).2.2.2
     { mode := "Bank".toList, val := Value.number (num 800), ob := Value.number (num 0) }
     (by decide!) (by decide) (by decide)⟩

/-! ### The row sanitiser with `for ... in` and a prototype -/

theorem Machine.assign_fold_inv (row : Row) (Q : Str × Option Str → Prop) (ks : List Str)
    (acc : Row) (hn : (Obj.keys acc).Nodup) (hacc : ∀ kv ∈ acc, Q kv)
    (hQ : ∀ key ∈ ks, Q (trim key, some (trim (orEmpty (field row key))))) :
    (Obj.keys (ks.foldl
      (fun cleaned key =>
        Machine.assign cleaned (trim key) (some (trim (orEmpty (field row key)))))
      acc)).Nodup ∧
    ∀ kv ∈ ks.foldl
      (fun cleaned key =>
        Machine.assign cleaned (trim key) (some (trim (orEmpty (field row key)))))
      acc, Q kv := by
  induction ks generalizing acc with
  | nil => exact ⟨hn, hacc⟩
  | cons key ks ih =>
    simp only [List.foldl_cons]
    apply ih
    · unfold Machine.assign
      split_ifs
      · exact hn
      · exact Obj.nodup_keys_set _ _ _ hn
    · intro kv hkv
      unfold Machine.assign at hkv
      split_ifs at hkv
      · exact hacc kv hkv
      · rcases Obj.mem_set _ _ _ _ hkv with h | h
        · rw [h]; exact hQ key (List.mem_cons_self _ _)
        · exact hacc kv h
    · intro k hk
      exact hQ k (List.mem_cons_of_mem _ hk)

theorem Machine.assign_entries (row : Row) :
    ∀ kv ∈ Machine.cleanRow row, ∃ key ∈ Obj.keys row,
      kv = (trim key, some (trim (orEmpty (field row key)))) :=
  (Machine.assign_fold_inv row
    (fun kv => ∃ key ∈ Obj.keys row, kv = (trim key, some (trim (orEmpty (field row key)))))
    (Obj.keys (enumerate row)) [] List.nodup_nil (by simp)
    (fun key hk => ⟨key, ((enumerate_perm row).map Prod.fst).mem_iff.1 hk, rfl⟩)).2

theorem Machine.assign_trimmed (row : Row) :
    ∀ kv ∈ Machine.cleanRow row, trim kv.1 = kv.1 ∧ ∃ t, kv.2 = some t ∧ trim t = t := by
  intro kv hkv
  obtain ⟨key, -, rfl⟩ := Machine.assign_entries row kv hkv
  exact ⟨trim_trim _, _, rfl, trim_trim _⟩

theorem hasData_perm (a b : Row) (h : a.Perm b) : hasData a = hasData b := by
  unfold hasData Obj.values
  rw [Bool.eq_iff_iff, List.any_eq_true, List.any_eq_true]
  constructor
  · rintro ⟨x, hx, hp⟩
    exact ⟨x, (h.map Prod.snd).mem_iff.1 hx, hp⟩
  · rintro ⟨x, hx, hp⟩
    exact ⟨x, (h.map Prod.snd).mem_iff.2 hx, hp⟩

theorem Machine.some_nonEmpty_eq (c : Row)
    (hc : ∀ kv ∈ c, trim kv.1 = kv.1 ∧ ∃ t, kv.2 = some t ∧ trim t = t) :
    (Obj.values (enumerate c)).any (fun v => v != some []) = hasData c := by
  rw [Expenseinr.nonEmpty_eq_hasData (enumerate c)
    (fun kv hkv => hc kv ((enumerate_perm c).mem_iff.1 hkv))]
  exact hasData_perm _ _ (enumerate_perm c)

theorem Machine.hasData_of_assign (r : Row) (h : hasData (Machine.cleanRow r) = true) :
    hasData r = true := by
  simp only [hasData, List.any_eq_true, Obj.values, List.mem_map] at h ⊢
  obtain ⟨v, ⟨kv, hkv, rfl⟩, hv⟩ := h
  obtain ⟨key, -, rfl⟩ := Machine.assign_entries r kv hkv
  simp only [orEmpty, Option.getD_some, trim_trim] at hv
  rcases hg : Obj.get r key with _ | v0
  · simp [field, hg, orEmpty] at hv
    exact absurd (by decide) hv
  · have hm := Obj.mem_values_of_get r key v0 hg
    simp only [Obj.values, List.mem_map] at hm
    obtain ⟨kv0, hkv0, rfl⟩ := hm
    refine ⟨kv0.2, ⟨kv0, hkv0, rfl⟩, ?_⟩
    simpa [field, hg, orEmpty] using hv

theorem Machine.filter_cleaned_eq (rows : List Row) :
    Machine.removeEmptyRows rows =
      (rows.filter (fun r => hasData (Machine.cleanRow r))).map Machine.cleanRow := by
  unfold Machine.removeEmptyRows
  rw [List.filter_map]
  congr 1
  apply List.filter_congr
  intro r _
  exact Machine.some_nonEmpty_eq _ (Machine.assign_trimmed r)

/-- When the trimmed field names are distinct and none is `__proto__`, cleaning is
entry by entry, in the order of enumeration. -/
theorem Machine.assign_eq_map (r : Row) (h : ((Obj.keys r).map trim).Nodup)
    (hp : "__proto__".toList ∉ (Obj.keys r).map trim) :
    Machine.cleanRow r = (enumerate r).map cleanEntry := by
  have hperm := enumerate_perm r
  have hk : (Obj.keys (enumerate r)).Perm (Obj.keys r) := hperm.map Prod.fst
  have hn : (Obj.keys r).Nodup := List.Nodup.of_map _ h
  have hne : (Obj.keys (enumerate r)).Nodup := hk.nodup_iff.2 hn
  have hte : ((Obj.keys (enumerate r)).map trim).Nodup := (hk.map trim).nodup_iff.2 h
  rw [← Expenseinr.cleanRow_eq_map (enumerate r) hte, Expenseinr.cleanRow_eq]
  unfold Machine.cleanRow
  apply List.foldl_ext
  intro acc key hkey
  have hkr : key ∈ Obj.keys r := hk.mem_iff.1 hkey
  have hnp : trim key ≠ "__proto__".toList :=
    fun e => hp (e ▸ List.mem_map_of_mem trim hkr)
  unfold Machine.assign
  rw [if_neg (fun hh => hnp hh.1)]
  obtain ⟨kv, hkv, rfl⟩ := List.mem_map.1 hkey
  rw [field_of_mem (enumerate r) kv hne hkv, field_of_mem r kv hn (hperm.mem_iff.1 hkv)]

/-- C10, as stated, fails.  When two field names coincide after trimming, the
row `{" a": "x", "a": ""}` has a non-empty value, its cleaned version is
`{a: ""}`, and `removeEmptyRows` drops it.  When a field name is `__proto__`
after trimming, the row `{" __proto__": "x"}` has distinct trimmed names and a
non-empty value, the write of its value stores nothing, its cleaned version is
`{}`, and `removeEmptyRows` drops it. -/
theorem removeEmptyRows_drops_data :
    (hasData [(" a".toList, some "x".toList), ("a".toList, some [])] = true ∧
      Machine.removeEmptyRows [[(" a".toList, some "x".toList), ("a".toList, some [])]] = []) ∧
    (hasData [(" __proto__".toList, some "x".toList)] = true ∧
      ((Obj.keys [(" __proto__".toList, some "x".toList)]).map trim).Nodup ∧
      Machine.cleanRow [(" __proto__".toList, some "x".toList)] = [] ∧
      Machine.removeEmptyRows [[(" __proto__".toList, some "x".toList)]] = []) := by
  decide

/-- C10, amended: when the trimmed field names of every row are distinct and none
is `__proto__`, `removeEmptyRows` returns, in the original order, the cleaned
versions of the rows that have a value that is non-empty after trimming, cleaning
being entry by entry in the order of enumeration.  For every input, every
returned row has trimmed names and trimmed string values, and the cleaned
version of a row without such a value is never returned. -/
theorem removeEmptyRows_spec (rows : List Row) :
    ((∀ r ∈ rows, ((Obj.keys r).map trim).Nodup ∧
        "__proto__".toList ∉ (Obj.keys r).map trim) →
      Machine.removeEmptyRows rows = (rows.filter hasData).map Machine.cleanRow ∧
      ∀ r ∈ rows, Machine.cleanRow r = (enumerate r).map cleanEntry) ∧
    (∀ c ∈ Machine.removeEmptyRows rows, ∀ kv ∈ c,
      trim kv.1 = kv.1 ∧ ∃ t, kv.2 = some t ∧ trim t = t) ∧
    (∀ r, hasData r = false → Machine.cleanRow r ∉ Machine.removeEmptyRows rows) := by
  refine ⟨fun h => ⟨?_, fun r hr => Machine.assign_eq_map r (h r hr).1 (h r hr).2⟩, ?_, ?_⟩
  · rw [Machine.filter_cleaned_eq]
    congr 1
    apply List.filter_congr
    intro r hr
    rw [Machine.assign_eq_map r (h r hr).1 (h r hr).2, hasData_cleanEntry]
    exact hasData_perm _ _ (enumerate_perm r)
  · intro c hc
    unfold Machine.removeEmptyRows at hc
    rw [List.mem_filter, List.mem_map] at hc
    obtain ⟨⟨r, -, rfl⟩, -⟩ := hc
    exact Machine.assign_trimmed r
  · intro r hr hmem
    rw [Machine.filter_cleaned_eq, List.mem_map] at hmem
    obtain ⟨r', hr', heq⟩ := hmem
    have h1 : hasData (Machine.cleanRow r') = true := by
      simpa using (List.mem_filter.mp hr').2
    rw [heq] at h1
    have := Machine.hasData_of_assign r h1
    rw [hr] at this
    exact Bool.false_ne_true this

/-- C10, amended, at three rows with distinct trimmed names: the second is blank
and is dropped, the other two are returned cleaned, in order. -/
theorem removeEmptyRows_spec_witness :
    Machine.removeEmptyRows
        [[(" Date ".toList, some " 01/Jan/2024".toList), ("Amount".toList, none)],
         [("Date".toList, some "  ".toList), ("Amount".toList, some [])],
         [("Date".toList, none), (" Amount".toList, some "5 ".toList)]] =
      [[("Date".toList, some "01/Jan/2024".toList), ("Amount".toList, some [])],
       [("Date".toList, some []), ("Amount".toList, some "5".toList)]] ∧
    Machine.removeEmptyRows
        [[(" Date ".toList, some " 01/Jan/2024".toList), ("Amount".toList, none)],
         [("Date".toList, some "  ".toList), ("Amount".toList, some [])],
         [("Date".toList, none), (" Amount".toList, some "5 ".toList)]] =
      ([[(" Date ".toList, some " 01/Jan/2024".toList), ("Amount".toList, none)],
         [("Date".toList, some "  ".toList), ("Amount".toList, some [])],
         [("Date".toList, none), (" Amount".toList, some "5 ".toList)]].filter hasData).map
        Machine.cleanRow :=
  ⟨by decide, ((removeEmptyRows_spec _).1 (by decide)).1⟩

/-! ## Reload -/

/-- C5, as stated, fails: when the expense download succeeds and the receipt
download is rejected, `expenseData` has already been replaced. -/
theorem reload_overwrites_before_failure :
    expenseOnly datasetIndia.receiptsCSV = none ∧
    (loadAllData expenseOnly datasetIndia loadedState).expenseData =
      [[("Mode".toList, some "Bank".toList), ("Amount".toList, some "99".toList)]] ∧
    (loadAllData expenseOnly datasetIndia loadedState).expenseData ≠ loadedState.expenseData := by
  refine ⟨by decide, by decide, by decide⟩

/-- C5, amended: the outcome of a reload.  The collections of the downloads that
precede the first rejected one are replaced by the sanitised rows, and the
others are as before; nothing is replaced when the expense download is rejected
and all four are replaced when all four succeed. -/
theorem loadAllData_outcomes (parseCSV : Str → Option (List Row)) (selected : Dataset)
    (s : State) :
    (parseCSV selected.expenseCSV = none →
      (loadAllData parseCSV selected s).expenseData = s.expenseData ∧
      (loadAllData parseCSV selected s).receiptData = s.receiptData ∧
      (loadAllData parseCSV selected s).contraData = s.contraData ∧
      (loadAllData parseCSV selected s).openingBalanceData = s.openingBalanceData) ∧
    (∀ e, parseCSV selected.expenseCSV = some e → parseCSV selected.receiptsCSV = none →
      (loadAllData parseCSV selected s).expenseData = removeEmptyRows e ∧
      (loadAllData parseCSV selected s).receiptData = s.receiptData ∧
      (loadAllData parseCSV selected s).contraData = s.contraData ∧
      (loadAllData parseCSV selected s).openingBalanceData = s.openingBalanceData) ∧
    (∀ e r, parseCSV selected.expenseCSV = some e → parseCSV selected.receiptsCSV = some r →
      parseCSV selected.contraCSV = none →
      (loadAllData parseCSV selected s).expenseData = removeEmptyRows e ∧
      (loadAllData parseCSV selected s).receiptData = removeEmptyRows r ∧
      (loadAllData parseCSV selected s).contraData = s.contraData ∧
      (loadAllData parseCSV selected s).openingBalanceData = s.openingBalanceData) ∧
    (∀ e r c, parseCSV selected.expenseCSV = some e → parseCSV selected.receiptsCSV = some r →
      parseCSV selected.contraCSV = some c → parseCSV selected.obCSV = none →
      (loadAllData parseCSV selected s).expenseData = removeEmptyRows e ∧
      (loadAllData parseCSV selected s).receiptData = removeEmptyRows r ∧
      (loadAllData parseCSV selected s).contraData = removeEmptyRows c ∧
      (loadAllData parseCSV selected s).openingBalanceData = s.openingBalanceData) ∧
    (∀ e r c o, parseCSV selected.expenseCSV = some e → parseCSV selected.receiptsCSV = some r →
      parseCSV selected.contraCSV = some c → parseCSV selected.obCSV = some o →
      (loadAllData parseCSV selected s).expenseData = removeEmptyRows e ∧
      (loadAllData parseCSV selected s).receiptData = removeEmptyRows r ∧
      (loadAllData parseCSV selected s).contraData = removeEmptyRows c ∧
      (loadAllData parseCSV selected s).openingBalanceData = removeEmptyRows o) := by
  refine ⟨?_, ?_, ?_, ?_, ?_⟩
  · intro h1
    simp [loadAllData, h1]
  · intro e h1 h2
    simp [loadAllData, h1, h2]
  · intro e r h1 h2 h3
    simp [loadAllData, h1, h2, h3]
  · intro e r c h1 h2 h3 h4
    simp [loadAllData, h1, h2, h3, h4]
  · intro e r c o h1 h2 h3 h4
    simp [loadAllData, h1, h2, h3, h4, resetPagesAndUpdate]

/-- C5, amended, at a reload whose expense download succeeds and whose receipt
download is rejected. -/
theorem loadAllData_outcomes_witness :
    (loadAllData expenseOnly datasetIndia loadedState).expenseData =
        removeEmptyRows
          [[("Mode".toList, some "Bank".toList), ("Amount".toList, some "99".toList)]] ∧
      (loadAllData expenseOnly datasetIndia loadedState).receiptData = loadedState.receiptData ∧
      (loadAllData expenseOnly datasetIndia loadedState).contraData = loadedState.contraData ∧
      (loadAllData expenseOnly datasetIndia loadedState).openingBalanceData =
        loadedState.openingBalanceData :=
  (loadAllData_outcomes expenseOnly datasetIndia loadedState).2.1 _ (by decide) (by decide)

/-! ## The unified view, pagination, filters and sorting -/

theorem foldl_push {α β : Type} (f : α → β) (l : List α) (init : List β) :
    l.foldl (fun acc r => acc ++ [f r]) init = init ++ l.map f := by
  induction l generalizing init with
  | nil => simp
  | cons a l ih => simp [List.foldl_cons, ih]

theorem foldl_push_two {α β : Type} (f g : α → β) (l : List α) (init : List β) :
    l.foldl (fun acc r => (acc ++ [f r]) ++ [g r]) init =
      init ++ l.flatMap (fun r => [f r, g r]) := by
  induction l generalizing init with
  | nil => simp
  | cons a l ih =>
    rw [List.foldl_cons, ih, List.flatMap_cons]
    simp

/-- The unified rows in closed form. -/
theorem buildUnifiedTransactions_eq (s : State) :
    buildUnifiedTransactions s =
      s.expenseData.map expenseTxn ++ s.receiptData.map receiptTxn ++
        s.contraData.flatMap (fun r => [contraOutTxn r, contraInTxn r]) := by
  unfold buildUnifiedTransactions
  simp only [foldl_push, foldl_push_two, List.nil_append]

theorem length_contraLegs (l : List Row) :
    (l.flatMap (fun r => [contraOutTxn r, contraInTxn r])).length = 2 * l.length := by
  induction l with
  | nil => rfl
  | cons a l ih =>
    simp only [List.flatMap_cons, List.length_append, ih, List.length_cons, List.length_nil]
    omega

/-- C11: unified builder count.  The result of `buildUnifiedTransactions` has
`len(expenses) + len(receipts) + 2 * len(contras)` rows. -/
theorem buildUnifiedTransactions_length (s : State) :
    (buildUnifiedTransactions s).length =
      s.expenseData.length + s.receiptData.length + 2 * s.contraData.length := by
  rw [buildUnifiedTransactions_eq]
  simp only [List.length_append, List.length_map, length_contraLegs]

/-- C12: unified builder order and mapping.  The result is the expenses in input
order (type `EXPENSE`), then the receipts in input order (type `RECEIPT`), then
for each contra in input order a `CONTRA_OUT` row followed by a `CONTRA_IN` row.
Every amount is `toNumber` of the source `Amount`; the two legs of a contra have
the same `Date`, `From`, `To` and amount, the first with `Mode = From` and the
second with `Mode = To`. -/
theorem buildUnifiedTransactions_order (s : State) :
    buildUnifiedTransactions s =
      s.expenseData.map expenseTxn ++ s.receiptData.map receiptTxn ++
        s.contraData.flatMap (fun r => [contraOutTxn r, contraInTxn r]) ∧
    (∀ r : Row, (expenseTxn r).Type_ = "EXPENSE".toList ∧
      (expenseTxn r).Amount = toNumber (field r "Amount".toList)) ∧
    (∀ r : Row, (receiptTxn r).Type_ = "RECEIPT".toList ∧
      (receiptTxn r).Amount = toNumber (field r "Amount".toList)) ∧
    (∀ r : Row, (contraOutTxn r).Type_ = "CONTRA_OUT".toList ∧
      (contraInTxn r).Type_ = "CONTRA_IN".toList ∧
      (contraOutTxn r).Amount = toNumber (field r "Amount".toList) ∧
      (contraInTxn r).Amount = (contraOutTxn r).Amount ∧
      (contraInTxn r).Date = (contraOutTxn r).Date ∧
      (contraInTxn r).From = (contraOutTxn r).From ∧
      (contraInTxn r).To = (contraOutTxn r).To ∧
      (contraOutTxn r).Mode = (contraOutTxn r).From ∧
      (contraInTxn r).Mode = (contraInTxn r).To) :=
  ⟨buildUnifiedTransactions_eq s, fun _ => ⟨rfl, rfl⟩, fun _ => ⟨rfl, rfl⟩,
    fun _ => ⟨rfl, rfl, rfl, rfl, rfl, rfl, rfl, rfl, rfl⟩⟩

theorem sliceIndex_of_nonneg (len : ℕ) (i : ℤ) (h : 0 ≤ i) :
    sliceIndex len i = min i.toNat len := by
  unfold sliceIndex
  rw [if_neg (by omega)]

theorem take_drop_window {α : Type} (data : List α) (a n : ℕ) :
    (data.drop (min a data.length)).take (min (a + n) data.length - min a data.length) =
      (data.drop a).take n := by
  by_cases h : data.length ≤ a
  · have h1 : min a data.length = data.length := by omega
    rw [h1, List.drop_of_length_le h, List.drop_of_length_le (le_refl _)]
    simp
  · have h1 : min a data.length = a := by omega
    rw [h1]
    by_cases h2 : a + n ≤ data.length
    · have h3 : min (a + n) data.length - a = n := by omega
      rw [h3]
    · have h3 : min (a + n) data.length - a = data.length - a := by omega
      rw [h3, List.take_of_length_le (by simp), List.take_of_length_le (by simp; omega)]

/-- The page as a window of the collection. -/
theorem paginate_eq {α : Type} (data : List α) (p : ℤ) (hp : 1 ≤ p) :
    paginate data p = (data.drop (((p - 1) * 25).toNat)).take 25 := by
  have h0 : 0 ≤ (p - 1) * 25 := by nlinarith
  unfold paginate slice pageSize
  simp only [Nat.cast_ofNat]
  rw [sliceIndex_of_nonneg _ _ h0, sliceIndex_of_nonneg _ _ (by omega)]
  have : ((p - 1) * 25 + 25).toNat = ((p - 1) * 25).toNat + 25 := by omega
  rw [this]
  exact take_drop_window data _ 25

theorem length_paginate {α : Type} (data : List α) (p : ℤ) (hp : 1 ≤ p) :
    ((paginate data p).length : ℤ) = min 25 (max 0 ((data.length : ℤ) - (p - 1) * 25)) := by
  rw [paginate_eq data p hp, List.length_take, List.length_drop]
  have h0 : 0 ≤ (p - 1) * 25 := by nlinarith
  omega

/-- C13: pagination length.  For a page number `p >= 1`, `paginate(data, p)` is the
window of `data` that starts at index `(p - 1) * 25` and has at most 25 records;
its length is `min(25, max(0, len(data) - (p - 1) * 25))`. -/
theorem paginate_length {α : Type} (data : List α) (p : ℤ) (hp : 1 ≤ p) :
    paginate data p = (data.drop (((p - 1) * 25).toNat)).take 25 ∧
    ((paginate data p).length : ℤ) = min 25 (max 0 ((data.length : ℤ) - (p - 1) * 25)) :=
  ⟨paginate_eq data p hp, length_paginate data p hp⟩

/-- C13 at sixty records and page 3: the page is the records 50 to 59. -/
theorem paginate_length_witness :
    paginate (List.range 60) 3 = [50, 51, 52, 53, 54, 55, 56, 57, 58, 59] ∧
    paginate (List.range 60) 3 = ((List.range 60).drop (((3 - 1) * 25 : ℤ).toNat)).take 25 ∧
    (((paginate (List.range 60) 3).length : ℕ) : ℤ) =
      min 25 (max 0 ((((List.range 60).length : ℕ) : ℤ) - (3 - 1) * 25)) :=
  ⟨by decide, paginate_length (List.range 60) 3 (by decide)⟩

theorem ceil_div_pos (n : ℕ) (hn : 0 < n) : 1 ≤ ⌈((n : ℚ) / 25)⌉ := by
  rw [Int.one_le_ceil_iff]
  positivity

theorem totalPages_eq {α : Type} (data : List α) :
    totalPages data = max 1 ⌈((data.length : ℚ) / 25)⌉ := by
  unfold totalPages pageSize
  norm_num

theorem one_le_totalPages {α : Type} (data : List α) : 1 ≤ totalPages data := by
  rw [totalPages_eq]; exact le_max_left _ _

theorem totalPages_window {α : Type} (data : List α) (hne : data ≠ []) :
    (totalPages data - 1) * 25 < (data.length : ℤ) ∧
    (data.length : ℤ) ≤ totalPages data * 25 := by
  have hlen : 0 < data.length := List.length_pos.mpr hne
  have h1 := ceil_div_pos data.length hlen
  have htp : totalPages data = ⌈((data.length : ℚ) / 25)⌉ := by
    rw [totalPages_eq]; exact max_eq_right h1
  rw [htp]
  constructor
  · have := Int.ceil_lt_add_one ((data.length : ℚ) / 25)
    have h2 : ((⌈((data.length : ℚ) / 25)⌉ : ℤ) : ℚ) - 1 < (data.length : ℚ) / 25 := by linarith
    have h3 : (((⌈((data.length : ℚ) / 25)⌉ - 1) * 25 : ℤ) : ℚ) < ((data.length : ℤ) : ℚ) := by
      push_cast
      linarith
    exact_mod_cast h3
  · have := Int.le_ceil ((data.length : ℚ) / 25)
    have h3 : ((data.length : ℤ) : ℚ) ≤ ((⌈((data.length : ℚ) / 25)⌉ * 25 : ℤ) : ℚ) := by
      push_cast
      linarith
    exact_mod_cast h3

/-- C14: `totalPages(data)` is `max(1, ceil(len(data) / 25))`; it is at least `1`, it
is `1` for the empty collection, and for a non-empty collection
`(totalPages - 1) * 25 < len(data) <= totalPages * 25`. -/
theorem totalPages_bounds {α : Type} (data : List α) :
    totalPages data = max 1 ⌈((data.length : ℚ) / 25)⌉ ∧
    1 ≤ totalPages data ∧
    (data = [] → totalPages data = 1) ∧
    (data ≠ [] →
      (totalPages data - 1) * 25 < (data.length : ℤ) ∧
      (data.length : ℤ) ≤ totalPages data * 25) := by
  refine ⟨totalPages_eq data, one_le_totalPages data, ?_, totalPages_window data⟩
  rintro rfl
  rw [totalPages_eq]
  simp

/-- C14 at sixty records: three pages, and `50 < 60 <= 75`. -/
theorem totalPages_bounds_witness :
    totalPages (List.range 60) = 3 ∧
    (totalPages (List.range 60) - 1) * 25 < ((List.range 60).length : ℤ) ∧
    ((List.range 60).length : ℤ) ≤ totalPages (List.range 60) * 25 :=
  ⟨by decide!, (totalPages_bounds (List.range 60)).2.2.2 (by decide)⟩

theorem filter_sublist_of_imp {α : Type} (l : List α) (p q : α → Bool)
    (h : ∀ x ∈ l, p x = true → q x = true) : (l.filter p).Sublist (l.filter q) := by
  induction l with
  | nil => simp
  | cons a l ih =>
    have ih' := ih (fun x hx => h x (List.mem_cons_of_mem _ hx))
    by_cases hp : p a = true
    · have hq := h a (List.mem_cons_self _ _) hp
      simp only [List.filter_cons, hp, hq, if_true]
      exact ih'.cons₂ a
    · by_cases hq : q a = true
      · simp only [List.filter_cons, hp, hq, if_true, if_false, Bool.false_eq_true]
        exact ih'.cons a
      · simp only [List.filter_cons, hp, hq, if_false, Bool.false_eq_true]
        exact ih'

/-- The function `applyFilters` keeps the records that pass every step. -/
theorem applyFilters_eq_filter (host : Host) (ctl : Controls) (data : List Row) (type : Str) :
    applyFilters host ctl data type = data.filter (keepRow host ctl type) := by
  unfold applyFilters
  simp only []
  have hmode : ∀ l : List Row,
      (if ctl.modeFilter ≠ "ALL".toList then
        if type = "expense".toList ∨ type = "receipt".toList then
          l.filter (fun r => trim (orEmpty (field r "Mode".toList)) = ctl.modeFilter)
        else if type = "contra".toList then
          l.filter (fun r =>
            trim (orEmpty (field r "From".toList)) = ctl.modeFilter ∨
            trim (orEmpty (field r "To".toList)) = ctl.modeFilter)
        else l
      else l) = l.filter (modeOk ctl type) := by
    intro l
    by_cases h1 : ctl.modeFilter = "ALL".toList
    · have hp : modeOk ctl type = fun _ => true := by
        funext r; simp only [modeOk, if_pos h1]
      rw [if_neg (not_not.mpr h1), hp, List.filter_true]
    · rw [if_pos h1]
      by_cases h2 : type = "expense".toList ∨ type = "receipt".toList
      · have hp : modeOk ctl type = fun r => decide (modeOf r = ctl.modeFilter) := by
          funext r; simp only [modeOk, if_neg h1, if_pos h2]
        rw [if_pos h2, hp]
        rfl
      · rw [if_neg h2]
        by_cases h3 : type = "contra".toList
        · have hp : modeOk ctl type =
              fun r => decide (fromOf r = ctl.modeFilter ∨ toOf r = ctl.modeFilter) := by
            funext r; simp only [modeOk, if_neg h1, if_neg h2, if_pos h3]
          rw [if_pos h3, hp]
          rfl
        · have hp : modeOk ctl type = fun _ => true := by
            funext r; simp only [modeOk, if_neg h1, if_neg h2, if_neg h3]
          rw [if_neg h3, hp, List.filter_true]
  have hgroup : ∀ l : List Row,
      (if ctl.groupFilter ≠ "ALL".toList then
        if type = "expense".toList then
          l.filter (fun r => trim (orEmpty (field r "Group".toList)) = ctl.groupFilter)
        else l
      else l) = l.filter (groupOk ctl type) := by
    intro l
    by_cases h1 : ctl.groupFilter = "ALL".toList
    · have hp : groupOk ctl type = fun _ => true := by
        funext r; simp only [groupOk, if_pos h1]
      rw [if_neg (not_not.mpr h1), hp, List.filter_true]
    · rw [if_pos h1]
      by_cases h2 : type = "expense".toList
      · have hp : groupOk ctl type =
            fun r => decide (trim (orEmpty (field r "Group".toList)) = ctl.groupFilter) := by
          funext r; simp only [groupOk, if_neg h1, if_pos h2]
        rw [if_pos h2, hp]
      · have hp : groupOk ctl type = fun _ => true := by
          funext r; simp only [groupOk, if_neg h1, if_neg h2]
        rw [if_neg h2, hp, List.filter_true]
  have hmonth : ∀ l : List Row,
      (if ctl.monthFilter ≠ "ALL".toList then
        l.filter (fun r => trim (orEmpty (field r "Month".toList)) = ctl.monthFilter)
      else l) = l.filter (monthOk ctl) := by
    intro l
    by_cases h1 : ctl.monthFilter = "ALL".toList
    · have hp : monthOk ctl = fun _ => true := by
        funext r; simp only [monthOk, h1, decide_True, Bool.true_or]
      rw [if_neg (not_not.mpr h1), hp, List.filter_true]
    · have hp : monthOk ctl =
          fun r => decide (trim (orEmpty (field r "Month".toList)) = ctl.monthFilter) := by
        funext r; simp only [monthOk, h1, decide_False, Bool.false_or]
      rw [if_pos h1, hp]
  have hquery : ∀ l : List Row,
      (if host.toLowerCase (trim ctl.searchBox) ≠ [] then
        l.filter (fun row => includes (host.toLowerCase (rowText row))
          (host.toLowerCase (trim ctl.searchBox)))
      else l) = l.filter (queryOk host ctl) := by
    intro l
    by_cases h1 : host.toLowerCase (trim ctl.searchBox) = []
    · have hp : queryOk host ctl = fun _ => true := by
        funext r; simp only [queryOk, queryOf, h1, decide_True, Bool.true_or]
      rw [if_neg (not_not.mpr h1), hp, List.filter_true]
    · have hp : queryOk host ctl = fun r => includes (host.toLowerCase (rowText r))
          (host.toLowerCase (trim ctl.searchBox)) := by
        funext r; simp only [queryOk, queryOf, h1, decide_False, Bool.false_or]
      rw [if_pos h1, hp]
  rw [hmonth, hmode, hgroup, hquery]
  simp only [List.filter_filter]
  apply List.filter_congr
  intro r _
  unfold keepRow hasDate
  cases truthy (field r "Date".toList) <;> cases monthOk ctl r <;> cases modeOk ctl type r <;>
    cases groupOk ctl type r <;> cases queryOk host ctl r <;> rfl

/-- The function `applyModalFilters` keeps the unified rows that pass every step. -/
theorem applyModalFilters_eq_filter (host : Host) (ctl : Controls) (data : List Txn) :
    applyModalFilters host ctl data = data.filter (keepTxn host ctl) := by
  unfold applyModalFilters
  simp only []
  have htype : ∀ l : List Txn,
      (if ctl.txnTypeFilter ≠ "ALL".toList then
        l.filter (fun r => r.Type_ = ctl.txnTypeFilter)
      else l) =
        l.filter (fun r =>
          decide (ctl.txnTypeFilter = "ALL".toList) || decide (r.Type_ = ctl.txnTypeFilter)) := by
    intro l
    by_cases h1 : ctl.txnTypeFilter = "ALL".toList
    · rw [if_neg (not_not.mpr h1)]
      simp only [h1, decide_True, Bool.true_or, List.filter_true]
    · rw [if_pos h1]
      simp only [h1, decide_False, Bool.false_or]
  have hquery : ∀ l : List Txn,
      (if host.toLowerCase (trim ctl.txnSearchBox) ≠ [] then
        l.filter (fun r => includes (host.toLowerCase (txnText host r))
          (host.toLowerCase (trim ctl.txnSearchBox)))
      else l) =
        l.filter (fun r => decide (txnQueryOf host ctl = []) ||
          includes (host.toLowerCase (txnText host r)) (txnQueryOf host ctl)) := by
    intro l
    unfold txnQueryOf
    by_cases h1 : host.toLowerCase (trim ctl.txnSearchBox) = []
    · rw [if_neg (not_not.mpr h1)]
      simp only [h1, decide_True, Bool.true_or, List.filter_true]
    · rw [if_pos h1]
      simp only [h1, decide_False, Bool.false_or]
  rw [htype, hquery, List.filter_filter]
  apply List.filter_congr
  intro r _
  unfold keepTxn
  exact Bool.and_comm _ _

theorem keepRow_iff (host : Host) (ctl : Controls) (type : Str) (r : Row) :
    keepRow host ctl type r = true ↔
      hasDate r = true ∧ monthOk ctl r = true ∧ modeOk ctl type r = true ∧
        groupOk ctl type r = true ∧ queryOk host ctl r = true := by
  unfold keepRow
  simp only [Bool.and_eq_true]
  tauto

theorem monthOk_of_all {ctl : Controls} (h : ctl.monthFilter = "ALL".toList) (r : Row) :
    monthOk ctl r = true := by
  simp only [monthOk, h, decide_True, Bool.true_or]

theorem modeOk_of_all {ctl : Controls} (h : ctl.modeFilter = "ALL".toList) (type : Str)
    (r : Row) : modeOk ctl type r = true := by
  simp only [modeOk, if_pos h]

theorem groupOk_of_all {ctl : Controls} (h : ctl.groupFilter = "ALL".toList) (type : Str)
    (r : Row) : groupOk ctl type r = true := by
  simp only [groupOk, if_pos h]

theorem queryOk_of_empty {host : Host} {ctl : Controls} (h : queryOf host ctl = []) (r : Row) :
    queryOk host ctl r = true := by
  simp only [queryOk, h, decide_True, Bool.true_or]

/-- C16: filter monotonicity.  When the filter state `s'` is `s` with one
unrestricted clause replaced by a value, `applyFilters` under `s'` returns a
sub-collection of its result under `s`, for every collection and kind, so it is
not larger; the same holds for `applyModalFilters` with its type and query
clauses. -/
theorem filters_monotone (host : Host) (s s' : Controls) :
    (addsClause host s s' → ∀ (data : List Row) (type : Str),
      (applyFilters host s' data type).Sublist (applyFilters host s data type) ∧
      (applyFilters host s' data type).length ≤ (applyFilters host s data type).length) ∧
    (addsModalClause host s s' → ∀ data : List Txn,
      (applyModalFilters host s' data).Sublist (applyModalFilters host s data) ∧
      (applyModalFilters host s' data).length ≤ (applyModalFilters host s data).length) := by
  constructor
  · intro h data type
    have key : (applyFilters host s' data type).Sublist (applyFilters host s data type) := by
      rw [applyFilters_eq_filter, applyFilters_eq_filter]
      apply filter_sublist_of_imp
      intro r _ hk
      rw [keepRow_iff] at hk ⊢
      obtain ⟨h1, h2, h3, h4, h5⟩ := hk
      rcases h with ⟨ha, v, rfl⟩ | ⟨ha, v, rfl⟩ | ⟨ha, v, rfl⟩ | ⟨ha, v, rfl⟩
      · exact ⟨h1, monthOk_of_all ha r, h3, h4, h5⟩
      · exact ⟨h1, h2, modeOk_of_all ha type r, h4, h5⟩
      · exact ⟨h1, h2, h3, groupOk_of_all ha type r, h5⟩
      · exact ⟨h1, h2, h3, h4, queryOk_of_empty ha r⟩
    exact ⟨key, key.length_le⟩
  · intro h data
    have key : (applyModalFilters host s' data).Sublist (applyModalFilters host s data) := by
      rw [applyModalFilters_eq_filter, applyModalFilters_eq_filter]
      apply filter_sublist_of_imp
      intro r _ hk
      unfold keepTxn at hk ⊢
      rw [Bool.and_eq_true] at hk ⊢
      rcases h with ⟨ha, v, rfl⟩ | ⟨ha, v, rfl⟩
      · exact ⟨by simp only [ha, decide_True, Bool.true_or], hk.2⟩
      · exact ⟨hk.1, by simp only [ha, decide_True, Bool.true_or]⟩
    exact ⟨key, key.length_le⟩

theorem truthy_iff (x : Option Str) : truthy x = true ↔ ∃ d, x = some d ∧ d ≠ [] := by
  rcases x with _ | d
  · simp [truthy]
  · by_cases h : d = []
    · subst h; simp [truthy]
    · simp [truthy, h]

/-- C17: `applyFilters` returns an order-preserving sub-sequence of its input (the
input itself is a value and is not changed); every returned record has a
non-empty `Date`; and with all four filters unrestricted the result is exactly
the input records with a non-empty `Date`. -/
theorem applyFilters_subsequence (host : Host) (ctl : Controls) (data : List Row) (type : Str) :
    (applyFilters host ctl data type).Sublist data ∧
    (∀ r ∈ applyFilters host ctl data type, ∃ d, field r "Date".toList = some d ∧ d ≠ []) ∧
    (ctl.monthFilter = "ALL".toList → ctl.modeFilter = "ALL".toList →
      ctl.groupFilter = "ALL".toList → queryOf host ctl = [] →
      applyFilters host ctl data type =
        data.filter (fun r => truthy (field r "Date".toList))) := by
  refine ⟨?_, ?_, ?_⟩
  · rw [applyFilters_eq_filter]
    exact List.filter_sublist _
  · intro r hr
    rw [applyFilters_eq_filter, List.mem_filter, keepRow_iff] at hr
    exact (truthy_iff _).mp hr.2.1
  · intro h1 h2 h3 h4
    rw [applyFilters_eq_filter]
    apply List.filter_congr
    intro r _
    unfold keepRow hasDate
    rw [monthOk_of_all h1, modeOk_of_all h2, groupOk_of_all h3, queryOk_of_empty h4]
    simp

/-- C18: the mode filter by kind.  With a selected mode other than `ALL` and the
other filters unrestricted, `applyFilters` keeps, among the records with a
non-empty `Date`, exactly those whose trimmed `Mode` is the selected mode for
the expense and receipt kinds, and exactly those whose trimmed `From` or trimmed
`To` is the selected mode for the contra kind. -/
theorem applyFilters_mode (host : Host) (ctl : Controls) (data : List Row) (type : Str)
    (hmode : ctl.modeFilter ≠ "ALL".toList) (hmonth : ctl.monthFilter = "ALL".toList)
    (hgroup : ctl.groupFilter = "ALL".toList) (hq : queryOf host ctl = []) :
    ((type = "expense".toList ∨ type = "receipt".toList) →
      applyFilters host ctl data type =
        (data.filter (fun r => truthy (field r "Date".toList))).filter
          (fun r => modeOf r = ctl.modeFilter)) ∧
    (type = "contra".toList →
      applyFilters host ctl data type =
        (data.filter (fun r => truthy (field r "Date".toList))).filter
          (fun r => fromOf r = ctl.modeFilter ∨ toOf r = ctl.modeFilter)) := by
  constructor
  · intro ht
    rw [applyFilters_eq_filter, List.filter_filter]
    apply List.filter_congr
    intro r _
    unfold keepRow hasDate
    rw [monthOk_of_all hmonth, groupOk_of_all hgroup, queryOk_of_empty hq]
    simp only [modeOk, if_neg hmode, if_pos ht, Bool.and_true]
    exact Bool.and_comm _ _
  · intro ht
    have hne : ¬ (type = "expense".toList ∨ type = "receipt".toList) := by
      subst ht; decide
    rw [applyFilters_eq_filter, List.filter_filter]
    apply List.filter_congr
    intro r _
    unfold keepRow hasDate
    rw [monthOk_of_all hmonth, groupOk_of_all hgroup, queryOk_of_empty hq]
    simp only [modeOk, if_neg hmode, if_neg hne, if_pos ht, Bool.and_true]
    exact Bool.and_comm _ _

/-- C19: the category filter applies to the expense kind only.  For the receipt
and contra kinds the result of `applyFilters` does not depend on the selected
category; for the expense kind with a selected category `g` other than `ALL`
every returned record has trimmed `Group` equal to `g`. -/
theorem groupFilter_expense_only (host : Host) (ctl : Controls) (data : List Row) (g : Str) :
    applyFilters host { ctl with groupFilter := g } data "receipt".toList =
      applyFilters host ctl data "receipt".toList ∧
    applyFilters host { ctl with groupFilter := g } data "contra".toList =
      applyFilters host ctl data "contra".toList ∧
    (g ≠ "ALL".toList →
      ∀ r ∈ applyFilters host { ctl with groupFilter := g } data "expense".toList,
        trim (orEmpty (field r "Group".toList)) = g) := by
  have hother : ∀ type : Str, type ≠ "expense".toList →
      applyFilters host { ctl with groupFilter := g } data type =
        applyFilters host ctl data type := by
    intro type ht
    rw [applyFilters_eq_filter, applyFilters_eq_filter]
    apply List.filter_congr
    intro r _
    have h1 : ∀ c : Controls, groupOk c type r = true := by
      intro c
      unfold groupOk
      split_ifs <;> rfl
    unfold keepRow
    rw [h1, h1]
    rfl
  refine ⟨hother _ (by decide), hother _ (by decide), ?_⟩
  intro hg r hr
  rw [applyFilters_eq_filter, List.mem_filter, keepRow_iff] at hr
  have h4 := hr.2.2.2.2.1
  simp only [groupOk, if_neg hg, if_true, decide_eq_true_eq] at h4
  exact h4

theorem arraySort_perm {α : Type} (cmp : α → α → JSNumber) (l : List α) :
    (arraySort cmp l).Perm l :=
  List.perm_insertionSort _ _

theorem ite_arraySort_perm {α : Type} (c : Prop) [Decidable c] (cmp : α → α → JSNumber)
    (l l0 : List α) (h : l.Perm l0) : (if c then arraySort cmp l else l).Perm l0 := by
  split_ifs
  · exact (arraySort_perm cmp l).trans h
  · exact h

/-- The sort keys that `applySorting` recognises. -/
theorem applySorting_of_unrecognised (host : Host) (data : List Row) (sortValue : Str)
    (h1 : sortValue ≠ "date_desc".toList) (h2 : sortValue ≠ "date_asc".toList)
    (h3 : sortValue ≠ "amount_desc".toList) (h4 : sortValue ≠ "amount_asc".toList) :
    applySorting host data sortValue = data := by
  unfold applySorting
  simp only [if_neg h1, if_neg h2, if_neg h3, if_neg h4]

theorem applyModalSorting_of_unrecognised (host : Host) (ctl : Controls) (data : List Txn)
    (h1 : ctl.txnSort ≠ "date_desc".toList) (h2 : ctl.txnSort ≠ "date_asc".toList)
    (h3 : ctl.txnSort ≠ "amount_desc".toList) (h4 : ctl.txnSort ≠ "amount_asc".toList) :
    applyModalSorting host ctl data = data := by
  unfold applyModalSorting
  simp only [if_neg h1, if_neg h2, if_neg h3, if_neg h4]

/-- C20: `applySorting` returns a permutation of its input (the input itself is a
value and is not changed), and the input in its own order when the key is none
of `date_desc`, `date_asc`, `amount_desc`, `amount_asc`; the same holds for
`applyModalSorting`. -/
theorem applySorting_perm (host : Host) (data : List Row) (sortValue : Str) :
    (applySorting host data sortValue).Perm data ∧
    (sortValue ≠ "date_desc".toList → sortValue ≠ "date_asc".toList →
      sortValue ≠ "amount_desc".toList → sortValue ≠ "amount_asc".toList →
      applySorting host data sortValue = data) ∧
    (∀ (ctl : Controls) (txns : List Txn),
      (applyModalSorting host ctl txns).Perm txns ∧
      (ctl.txnSort ≠ "date_desc".toList → ctl.txnSort ≠ "date_asc".toList →
        ctl.txnSort ≠ "amount_desc".toList → ctl.txnSort ≠ "amount_asc".toList →
        applyModalSorting host ctl txns = txns)) := by
  refine ⟨?_, applySorting_of_unrecognised host data sortValue, ?_⟩
  · unfold applySorting
    exact ite_arraySort_perm _ _ _ _ (ite_arraySort_perm _ _ _ _
      (ite_arraySort_perm _ _ _ _ (ite_arraySort_perm _ _ _ _ (List.Perm.refl _))))
  · intro ctl txns
    refine ⟨?_, applyModalSorting_of_unrecognised host ctl txns⟩
    unfold applyModalSorting
    exact ite_arraySort_perm _ _ _ _ (ite_arraySort_perm _ _ _ _
      (ite_arraySort_perm _ _ _ _ (ite_arraySort_perm _ _ _ _ (List.Perm.refl _))))

theorem clampPage_spec (page maxPages : ℤ) (hmax : 1 ≤ maxPages) :
    1 ≤ clampPage page maxPages ∧ clampPage page maxPages ≤ maxPages ∧
    (1 ≤ page → page ≤ maxPages → clampPage page maxPages = page) ∧
    (maxPages < page → clampPage page maxPages = maxPages) ∧
    (page < 1 → clampPage page maxPages = 1) := by
  unfold clampPage
  refine ⟨?_, ?_, ?_, ?_, ?_⟩ <;> intros <;> simp only [] <;> split_ifs <;> omega

theorem paginate_ne_nil {α : Type} (rows : List α) (c : ℤ) (h1 : 1 ≤ c)
    (h2 : c ≤ totalPages rows) (hne : rows ≠ []) : paginate rows c ≠ [] := by
  have hw := (totalPages_window rows hne).1
  have hl := length_paginate rows c h1
  intro h
  rw [h] at hl
  simp only [List.length_nil, Nat.cast_zero] at hl
  have : (c - 1) * 25 ≤ (totalPages rows - 1) * 25 := by nlinarith
  omega

theorem showsClampedPage_of {α : Type} (requested : ℤ) (rows : List α) (v : TableView α)
    (hmax : v.maxPages = totalPages rows) (hcount : v.rowCount = rows.length)
    (hpage : v.page = clampPage requested v.maxPages)
    (hdata : v.pageData = paginate rows v.page) : ShowsClampedPage requested rows v := by
  have h1 : 1 ≤ v.maxPages := by rw [hmax]; exact one_le_totalPages rows
  obtain ⟨c1, c2, c3, c4, c5⟩ := clampPage_spec requested v.maxPages h1
  rw [← hpage] at c1 c2 c3 c4 c5
  refine ⟨hmax, hcount, c1, c2, c3, c4, c5, hdata, ?_⟩
  intro hne
  rw [hdata]
  exact paginate_ne_nil rows v.page c1 (by rw [← hmax]; exact c2) hne

theorem updateExpenseTable_view (host : Host) (ctl : Controls) (s : State) :
    (updateExpenseTable host ctl s).2.maxPages = totalPages (expenseRows host ctl s) ∧
    (updateExpenseTable host ctl s).2.rowCount = (expenseRows host ctl s).length ∧
    (updateExpenseTable host ctl s).2.page =
      clampPage s.expensePage (updateExpenseTable host ctl s).2.maxPages ∧
    (updateExpenseTable host ctl s).2.pageData =
      paginate (expenseRows host ctl s) (updateExpenseTable host ctl s).2.page ∧
    (updateExpenseTable host ctl s).1.expensePage = (updateExpenseTable host ctl s).2.page := by
  refine ⟨rfl, rfl, ?_, rfl, rfl⟩
  unfold updateExpenseTable clampPage
  simp only []
  split_ifs <;> rfl

theorem updateReceiptTable_view (host : Host) (ctl : Controls) (s : State) :
    (updateReceiptTable host ctl s).2.maxPages = totalPages (receiptRows host ctl s) ∧
    (updateReceiptTable host ctl s).2.rowCount = (receiptRows host ctl s).length ∧
    (updateReceiptTable host ctl s).2.page =
      clampPage s.receiptPage (updateReceiptTable host ctl s).2.maxPages ∧
    (updateReceiptTable host ctl s).2.pageData =
      paginate (receiptRows host ctl s) (updateReceiptTable host ctl s).2.page ∧
    (updateReceiptTable host ctl s).1.receiptPage = (updateReceiptTable host ctl s).2.page := by
  refine ⟨rfl, rfl, ?_, rfl, rfl⟩
  unfold updateReceiptTable clampPage
  simp only []
  split_ifs <;> rfl

theorem updateContraTable_view (host : Host) (ctl : Controls) (s : State) :
    (updateContraTable host ctl s).2.maxPages = totalPages (contraRows host ctl s) ∧
    (updateContraTable host ctl s).2.rowCount = (contraRows host ctl s).length ∧
    (updateContraTable host ctl s).2.page =
      clampPage s.contraPage (updateContraTable host ctl s).2.maxPages ∧
    (updateContraTable host ctl s).2.pageData =
      paginate (contraRows host ctl s) (updateContraTable host ctl s).2.page ∧
    (updateContraTable host ctl s).1.contraPage = (updateContraTable host ctl s).2.page := by
  refine ⟨rfl, rfl, ?_, rfl, rfl⟩
  unfold updateContraTable clampPage
  simp only []
  split_ifs <;> rfl

theorem renderModalTable_view (host : Host) (ctl : Controls) (m : Modal) :
    (renderModalTable host ctl m).2.maxPages = totalPages (modalRows host ctl m) ∧
    (renderModalTable host ctl m).2.rowCount = (modalRows host ctl m).length ∧
    (renderModalTable host ctl m).2.page =
      clampPage m.modalPage (renderModalTable host ctl m).2.maxPages ∧
    (renderModalTable host ctl m).2.pageData =
      paginate (modalRows host ctl m) (renderModalTable host ctl m).2.page ∧
    (renderModalTable host ctl m).1.modalPage = (renderModalTable host ctl m).2.page := by
  refine ⟨rfl, rfl, ?_, rfl, rfl⟩
  unfold renderModalTable clampPage
  simp only []
  split_ifs <;> rfl

/-- C15: page clamping in the table views.  In the expense, receipt and contra
tables and in the modal table, whatever page is requested, the page shown lies
between `1` and the number of pages, is the requested page when that is in range
and the last page when the request is larger, and is not empty when the
collection is not empty; the page variable is left at the page shown. -/
theorem page_clamping (host : Host) (ctl : Controls) (s : State) (m : Modal) :
    ShowsClampedPage s.expensePage (expenseRows host ctl s) (updateExpenseTable host ctl s).2 ∧
    ShowsClampedPage s.receiptPage (receiptRows host ctl s) (updateReceiptTable host ctl s).2 ∧
    ShowsClampedPage s.contraPage (contraRows host ctl s) (updateContraTable host ctl s).2 ∧
    ShowsClampedPage m.modalPage (modalRows host ctl m) (renderModalTable host ctl m).2 ∧
    (updateExpenseTable host ctl s).1.expensePage = (updateExpenseTable host ctl s).2.page ∧
    (renderModalTable host ctl m).1.modalPage = (renderModalTable host ctl m).2.page := by
  obtain ⟨e1, e2, e3, e4, e5⟩ := updateExpenseTable_view host ctl s
  obtain ⟨r1, r2, r3, r4, -⟩ := updateReceiptTable_view host ctl s
  obtain ⟨c1, c2, c3, c4, -⟩ := updateContraTable_view host ctl s
  obtain ⟨m1, m2, m3, m4, m5⟩ := renderModalTable_view host ctl m
  exact ⟨showsClampedPage_of _ _ _ e1 e2 e3 e4, showsClampedPage_of _ _ _ r1 r2 r3 r4,
    showsClampedPage_of _ _ _ c1 c2 c3 c4, showsClampedPage_of _ _ _ m1 m2 m3 m4, e5, m5⟩

/-- C15 at the scenario of the specification: sixty rows and requested page 10
give page 3 of 3 with the ten rows 51 to 60. -/
theorem page_clamping_witness :
    (updateExpenseTable plainHost noFilters sixtyExpenses).2.page = 3 ∧
    (updateExpenseTable plainHost noFilters sixtyExpenses).2.maxPages = 3 ∧
    (updateExpenseTable plainHost noFilters sixtyExpenses).2.rowCount = 60 ∧
    (updateExpenseTable plainHost noFilters sixtyExpenses).2.pageData =
      [numberedRow 50, numberedRow 51, numberedRow 52, numberedRow 53, numberedRow 54,
        numberedRow 55, numberedRow 56, numberedRow 57, numberedRow 58, numberedRow 59] ∧
    ShowsClampedPage sixtyExpenses.expensePage (expenseRows plainHost noFilters sixtyExpenses)
      (updateExpenseTable plainHost noFilters sixtyExpenses).2 :=
  ⟨by decide!, by decide!, by decide!, by decide!,
    (page_clamping plainHost noFilters sixtyExpenses { modalData := [], modalPage := 1 }).1⟩

/-- C16 at the sample expenses: selecting the period `Feb` keeps two of the three
records that the unrestricted filters keep. -/
theorem filters_monotone_witness :
    applyFilters plainHost noFilters sampleExpenses "expense".toList =
      [sampleExpenses.get ⟨0, by decide⟩, sampleExpenses.get ⟨2, by decide⟩,
        sampleExpenses.get ⟨3, by decide⟩] ∧
    applyFilters plainHost { noFilters with monthFilter := "Feb".toList } sampleExpenses
        "expense".toList =
      [sampleExpenses.get ⟨2, by decide⟩, sampleExpenses.get ⟨3, by decide⟩] ∧
    ((applyFilters plainHost { noFilters with monthFilter := "Feb".toList } sampleExpenses
        "expense".toList).Sublist
        (applyFilters plainHost noFilters sampleExpenses "expense".toList) ∧
      (applyFilters plainHost { noFilters with monthFilter := "Feb".toList } sampleExpenses
        "expense".toList).length ≤
        (applyFilters plainHost noFilters sampleExpenses "expense".toList).length) :=
  ⟨by decide, by decide,
    (filters_monotone plainHost noFilters { noFilters with monthFilter := "Feb".toList }).1
      (Or.inl ⟨by decide, "Feb".toList, rfl⟩) sampleExpenses "expense".toList⟩

/-- C17 at the sample expenses with every filter unrestricted: the three records
with a `Date` are kept. -/
theorem applyFilters_subsequence_witness :
    applyFilters plainHost noFilters sampleExpenses "expense".toList =
      sampleExpenses.filter (fun r => truthy (field r "Date".toList)) ∧
    (applyFilters plainHost noFilters sampleExpenses "expense".toList).length = 3 :=
  ⟨(applyFilters_subsequence plainHost noFilters sampleExpenses "expense".toList).2.2
      (by decide) (by decide) (by decide) (by decide),
    by decide⟩

/-- C18 at the selected mode `Cash`, on the sample expenses and the sample
contras. -/
theorem applyFilters_mode_witness :
    (applyFilters plainHost { noFilters with modeFilter := "Cash".toList } sampleExpenses
        "expense".toList =
      (sampleExpenses.filter (fun r => truthy (field r "Date".toList))).filter
        (fun r => modeOf r = "Cash".toList)) ∧
    (applyFilters plainHost { noFilters with modeFilter := "Cash".toList } sampleContras
        "contra".toList =
      (sampleContras.filter (fun r => truthy (field r "Date".toList))).filter
        (fun r => fromOf r = "Cash".toList ∨ toOf r = "Cash".toList)) ∧
    (applyFilters plainHost { noFilters with modeFilter := "Cash".toList } sampleContras
        "contra".toList).map (fun r => (fromOf r, toOf r)) =
      [("Cash".toList, "Bank".toList), ("Card".toList, "Cash".toList)] :=
  ⟨(applyFilters_mode plainHost { noFilters with modeFilter := "Cash".toList } sampleExpenses
      "expense".toList (by decide) (by decide) (by decide) (by decide)).1 (Or.inl rfl),
   (applyFilters_mode plainHost { noFilters with modeFilter := "Cash".toList } sampleContras
      "contra".toList (by decide) (by decide) (by decide) (by decide)).2 rfl,
   by decide⟩

/-- C19 at the selected category `Food`: two expenses are kept, and all three
contras. -/
theorem groupFilter_expense_only_witness :
    (∀ r ∈ applyFilters plainHost { noFilters with groupFilter := "Food".toList } sampleExpenses
        "expense".toList, trim (orEmpty (field r "Group".toList)) = "Food".toList) ∧
    (applyFilters plainHost { noFilters with groupFilter := "Food".toList } sampleExpenses
        "expense".toList).length = 2 ∧
    (applyFilters plainHost { noFilters with groupFilter := "Food".toList } sampleContras
        "contra".toList).length = 3 :=
  ⟨(groupFilter_expense_only plainHost noFilters sampleExpenses "Food".toList).2.2 (by decide),
    by decide, by decide⟩

/-- C20 at the unrecognised key `newest`, and the sample expenses in ascending
order of amount. -/
theorem applySorting_perm_witness :
    applySorting plainHost sampleExpenses "newest".toList = sampleExpenses ∧
    (applySorting plainHost sampleExpenses "amount_asc".toList).map
        (fun r => orEmpty (field r "Item".toList)) =
      ["Refund".toList, "Bus".toList, "Fruit".toList, "Tea".toList] :=
  ⟨(applySorting_perm plainHost sampleExpenses "newest".toList).2.1
      (by decide) (by decide) (by decide) (by decide),
    by decide!⟩

/-! ## Amount order -/

theorem isPositive_sub_iff {x y : JSNumber} (hx : x ≠ nan) (hy : y ≠ nan) :
    (x - y).isPositive = false ↔ JSNumber.le x y = true := by
  show (add x (neg y)).isPositive = false ↔ _
  cases x with
  | nan => exact absurd rfl hx
  | inf a =>
    cases y with
    | nan => exact absurd rfl hy
    | inf b => cases a <;> cases b <;> simp [add, neg, JSNumber.isPositive, JSNumber.le]
    | num q => cases a <;> simp [add, neg, JSNumber.isPositive, JSNumber.le]
  | num p =>
    cases y with
    | nan => exact absurd rfl hy
    | inf b => cases b <;> simp [add, neg, JSNumber.isPositive, JSNumber.le]
    | num q => simp [add, neg, JSNumber.isPositive, JSNumber.le]

theorem JSNumber.le_connected {x y : JSNumber} (hx : x ≠ nan) (hy : y ≠ nan) :
    JSNumber.le x y = true ∨ JSNumber.le y x = true := by
  cases x with
  | nan => exact absurd rfl hx
  | inf a =>
    cases y with
    | nan => exact absurd rfl hy
    | inf b => cases a <;> cases b <;> simp [JSNumber.le]
    | num q => cases a <;> simp [JSNumber.le]
  | num p =>
    cases y with
    | nan => exact absurd rfl hy
    | inf b => cases b <;> simp [JSNumber.le]
    | num q => simpa [JSNumber.le] using le_total p q

theorem JSNumber.le_transitive {x y z : JSNumber} (hxy : JSNumber.le x y = true)
    (hyz : JSNumber.le y z = true) : JSNumber.le x z = true := by
  cases x with
  | nan => simp [JSNumber.le] at hxy
  | inf a =>
    cases y with
    | nan => cases a <;> simp [JSNumber.le] at hxy
    | inf b =>
      cases z with
      | nan => cases b <;> simp [JSNumber.le] at hyz
      | inf c => cases a <;> cases b <;> cases c <;> simp_all [JSNumber.le]
      | num r => cases a <;> cases b <;> simp_all [JSNumber.le]
    | num q =>
      cases z with
      | nan => simp [JSNumber.le] at hyz
      | inf c => cases a <;> cases c <;> simp_all [JSNumber.le]
      | num r => cases a <;> simp_all [JSNumber.le]
  | num p =>
    cases y with
    | nan => simp [JSNumber.le] at hxy
    | inf b =>
      cases z with
      | nan => cases b <;> simp [JSNumber.le] at hyz
      | inf c => cases b <;> cases c <;> simp_all [JSNumber.le]
      | num r => cases b <;> simp_all [JSNumber.le]
    | num q =>
      cases z with
      | nan => simp [JSNumber.le] at hyz
      | inf c => cases c <;> simp_all [JSNumber.le]
      | num r =>
        simp only [JSNumber.le, decide_eq_true_eq] at *
        exact hxy.trans hyz

theorem toNumber_ne_nan (v : Option Str) : toNumber v ≠ nan := by
  cases v with
  | none => simp [toNumber]
  | some s =>
    rw [toNumber_some]
    split_ifs with h1 h2 h3
    · simp
    · simp
    · apply ne_nan_of_isNaN
      rw [isNaN_neg]; simpa using h2
    · apply ne_nan_of_isNaN
      simpa using h2

theorem mem_orderedInsert_iff {α : Type} (r : α → α → Prop) [DecidableRel r] (a x : α)
    (l : List α) : x ∈ l.orderedInsert r a ↔ x = a ∨ x ∈ l := by
  rw [(List.perm_orderedInsert r a l).mem_iff, List.mem_cons]

/-- Inserting into a sorted list keeps it sorted, for a relation that is total
and transitive on the elements that satisfy `P`. -/
theorem pairwise_orderedInsert {α : Type} (r : α → α → Prop) [DecidableRel r] (P : α → Prop)
    (htot : ∀ a b, P a → P b → r a b ∨ r b a)
    (htr : ∀ a b c, P a → P b → P c → r a b → r b c → r a c)
    (a : α) (ha : P a) :
    ∀ l : List α, (∀ x ∈ l, P x) → l.Pairwise r → (l.orderedInsert r a).Pairwise r
  | [], _, _ => by simp
  | b :: l, hP, hs => by
    have hb : P b := hP b (List.mem_cons_self _ _)
    have hl : ∀ x ∈ l, P x := fun x hx => hP x (List.mem_cons_of_mem _ hx)
    rw [List.pairwise_cons] at hs
    by_cases h : r a b
    · rw [List.orderedInsert, if_pos h, List.pairwise_cons]
      refine ⟨?_, List.pairwise_cons.2 hs⟩
      intro c hc
      rcases List.mem_cons.1 hc with rfl | hc
      · exact h
      · exact htr a b c ha hb (hl c hc) h (hs.1 c hc)
    · rw [List.orderedInsert, if_neg h, List.pairwise_cons]
      refine ⟨?_, pairwise_orderedInsert r P htot htr a ha l hl hs.2⟩
      intro c hc
      rcases (mem_orderedInsert_iff r a c l).1 hc with rfl | hc
      · exact (htot c b ha hb).resolve_left h
      · exact hs.1 c hc

/-- The method `Array.prototype.sort` gives a sorted list when the comparator is a
total and transitive ordering of the elements. -/
theorem arraySort_pairwise {α : Type} (cmp : α → α → JSNumber) (P : α → Prop)
    (htot : ∀ a b, P a → P b → (cmp a b).isPositive = false ∨ (cmp b a).isPositive = false)
    (htr : ∀ a b c, P a → P b → P c → (cmp a b).isPositive = false →
      (cmp b c).isPositive = false → (cmp a c).isPositive = false) :
    ∀ l : List α, (∀ x ∈ l, P x) →
      (arraySort cmp l).Pairwise (fun a b => (cmp a b).isPositive = false)
  | [], _ => by simp [arraySort]
  | a :: l, hP => by
    have ih := arraySort_pairwise cmp P htot htr l (fun x hx => hP x (List.mem_cons_of_mem _ hx))
    unfold arraySort at ih ⊢
    rw [List.insertionSort]
    refine pairwise_orderedInsert _ P htot htr a (hP a (List.mem_cons_self _ _)) _ ?_ ih
    intro x hx
    exact hP x (List.mem_cons_of_mem _ ((List.perm_insertionSort _ l).mem_iff.1 hx))

/-- Sorting by `key a - key b` puts the keys in non-decreasing order, when no key
is `NaN`. -/
theorem arraySort_ascending {α : Type} (key : α → JSNumber) (l : List α)
    (h : ∀ x ∈ l, key x ≠ nan) :
    (arraySort (fun a b => key a - key b) l).Pairwise
      (fun a b => JSNumber.le (key a) (key b) = true) := by
  have := arraySort_pairwise (fun a b => key a - key b) (fun x => key x ≠ nan)
    (fun a b ha hb => by
      rw [isPositive_sub_iff ha hb, isPositive_sub_iff hb ha]
      exact JSNumber.le_connected ha hb)
    (fun a b c ha hb hc h1 h2 => by
      rw [isPositive_sub_iff ha hc]
      rw [isPositive_sub_iff ha hb] at h1
      rw [isPositive_sub_iff hb hc] at h2
      exact JSNumber.le_transitive h1 h2) l h
  have hmem : ∀ x ∈ arraySort (fun a b => key a - key b) l, key x ≠ nan :=
    fun x hx => h x ((arraySort_perm _ l).mem_iff.1 hx)
  refine (List.Pairwise.and_mem.1 this).imp ?_
  rintro a b ⟨ha, hb, hab⟩
  exact (isPositive_sub_iff (hmem a ha) (hmem b hb)).1 hab

/-- Sorting by `key b - key a` puts the keys in non-increasing order, when no key
is `NaN`. -/
theorem arraySort_descending {α : Type} (key : α → JSNumber) (l : List α)
    (h : ∀ x ∈ l, key x ≠ nan) :
    (arraySort (fun a b => key b - key a) l).Pairwise
      (fun a b => JSNumber.le (key b) (key a) = true) := by
  have := arraySort_pairwise (fun a b => key b - key a) (fun x => key x ≠ nan)
    (fun a b ha hb => by
      rw [isPositive_sub_iff hb ha, isPositive_sub_iff ha hb]
      exact JSNumber.le_connected hb ha)
    (fun a b c ha hb hc h1 h2 => by
      rw [isPositive_sub_iff hc ha]
      rw [isPositive_sub_iff hb ha] at h1
      rw [isPositive_sub_iff hc hb] at h2
      exact JSNumber.le_transitive h2 h1) l h
  have hmem : ∀ x ∈ arraySort (fun a b => key b - key a) l, key x ≠ nan :=
    fun x hx => h x ((arraySort_perm _ l).mem_iff.1 hx)
  refine (List.Pairwise.and_mem.1 this).imp ?_
  rintro a b ⟨ha, hb, hab⟩
  exact (isPositive_sub_iff (hmem b hb) (hmem a ha)).1 hab

theorem applySorting_amount_asc (host : Host) (data : List Row) :
    applySorting host data "amount_asc".toList =
      arraySort (fun a b => amountOf a - amountOf b) data := by
  have h1 : ¬ "amount_asc".toList = "date_desc".toList := by decide
  have h2 : ¬ "amount_asc".toList = "date_asc".toList := by decide
  have h3 : ¬ "amount_asc".toList = "amount_desc".toList := by decide
  unfold applySorting
  simp only [if_neg h1, if_neg h2, if_neg h3, eq_self_iff_true, if_true]
  rfl

theorem applySorting_amount_desc (host : Host) (data : List Row) :
    applySorting host data "amount_desc".toList =
      arraySort (fun a b => amountOf b - amountOf a) data := by
  have h1 : ¬ "amount_desc".toList = "date_desc".toList := by decide
  have h2 : ¬ "amount_desc".toList = "date_asc".toList := by decide
  have h3 : ¬ "amount_desc".toList = "amount_asc".toList := by decide
  unfold applySorting
  simp only [if_neg h1, if_neg h2, if_neg h3, eq_self_iff_true, if_true]
  rfl

theorem applyModalSorting_amount_asc (host : Host) (ctl : Controls) (data : List Txn)
    (h : ctl.txnSort = "amount_asc".toList) :
    applyModalSorting host ctl data = arraySort (fun a b => a.Amount - b.Amount) data := by
  have h1 : ¬ "amount_asc".toList = "date_desc".toList := by decide
  have h2 : ¬ "amount_asc".toList = "date_asc".toList := by decide
  have h3 : ¬ "amount_asc".toList = "amount_desc".toList := by decide
  unfold applyModalSorting
  simp only [h, if_neg h1, if_neg h2, if_neg h3, eq_self_iff_true, if_true]

theorem applyModalSorting_amount_desc (host : Host) (ctl : Controls) (data : List Txn)
    (h : ctl.txnSort = "amount_desc".toList) :
    applyModalSorting host ctl data = arraySort (fun a b => b.Amount - a.Amount) data := by
  have h1 : ¬ "amount_desc".toList = "date_desc".toList := by decide
  have h2 : ¬ "amount_desc".toList = "date_asc".toList := by decide
  have h3 : ¬ "amount_desc".toList = "amount_asc".toList := by decide
  unfold applyModalSorting
  simp only [h, if_neg h1, if_neg h2, if_neg h3, eq_self_iff_true, if_true]

theorem amount_ne_nan_of_unified (s : State) (t : Txn) (h : t ∈ buildUnifiedTransactions s) :
    t.Amount ≠ nan := by
  rw [buildUnifiedTransactions_eq] at h
  simp only [List.mem_append, List.mem_map, List.mem_flatMap, List.mem_cons,
    List.mem_singleton, List.not_mem_nil, or_false] at h
  rcases h with (⟨r, _, rfl⟩ | ⟨r, _, rfl⟩) | ⟨r, _, rfl | rfl⟩ <;>
    exact toNumber_ne_nan _

/-- C21: amount ordering.  With the key `amount_asc` the function `applySorting`
returns the records of any collection rearranged so that `toNumber(Amount)` never
decreases from a record to a later one, and with `amount_desc` so that it never
increases; the order is that of the parsed numbers, so an unparseable amount
counts as `0` and a bracketed amount as a negative number.  The function
`applyModalSorting` does the same with the numeric `Amount` of unified rows. -/
theorem amount_ordering (host : Host) :
    (∀ data : List Row,
      (applySorting host data "amount_asc".toList).Perm data ∧
      (applySorting host data "amount_asc".toList).Pairwise (fun a b =>
        JSNumber.le (toNumber (field a "Amount".toList)) (toNumber (field b "Amount".toList))
          = true)) ∧
    (∀ data : List Row,
      (applySorting host data "amount_desc".toList).Perm data ∧
      (applySorting host data "amount_desc".toList).Pairwise (fun a b =>
        JSNumber.le (toNumber (field b "Amount".toList)) (toNumber (field a "Amount".toList))
          = true)) ∧
    (∀ (ctl : Controls) (data : List Txn),
      (∀ t ∈ data, ∃ s : State, t ∈ buildUnifiedTransactions s) →
      (ctl.txnSort = "amount_asc".toList →
        (applyModalSorting host ctl data).Perm data ∧
        (applyModalSorting host ctl data).Pairwise
          (fun a b => JSNumber.le a.Amount b.Amount = true)) ∧
      (ctl.txnSort = "amount_desc".toList →
        (applyModalSorting host ctl data).Perm data ∧
        (applyModalSorting host ctl data).Pairwise
          (fun a b => JSNumber.le b.Amount a.Amount = true))) := by
  refine ⟨?_, ?_, ?_⟩
  · intro data
    rw [applySorting_amount_asc]
    exact ⟨arraySort_perm _ _, arraySort_ascending amountOf data (fun x _ => toNumber_ne_nan _)⟩
  · intro data
    rw [applySorting_amount_desc]
    exact ⟨arraySort_perm _ _, arraySort_descending amountOf data (fun x _ => toNumber_ne_nan _)⟩
  · intro ctl data hu
    have hn : ∀ t ∈ data, t.Amount ≠ nan := fun t ht => by
      obtain ⟨s, hs⟩ := hu t ht
      exact amount_ne_nan_of_unified s t hs
    constructor
    · intro h
      rw [applyModalSorting_amount_asc host ctl data h]
      exact ⟨arraySort_perm _ _, arraySort_ascending Txn.Amount data hn⟩
    · intro h
      rw [applyModalSorting_amount_desc host ctl data h]
      exact ⟨arraySort_perm _ _, arraySort_descending Txn.Amount data hn⟩

/-- C21 at four records with the amounts `100`, `garbage`, `(20)` and `5`: by
rising amount they come in the order `(20)`, `garbage`, `5`, `100`, and by
falling amount in the reverse order; and at the unified rows of the transfer
scenario, sorted by rising amount. -/
theorem amount_ordering_witness :
    ((applySorting plainHost mixedAmounts "amount_asc".toList).map
        (fun r => orEmpty (field r "Amount".toList)) =
      ["(20)".toList, "garbage".toList, "5".toList, "100".toList] ∧
     (applySorting plainHost mixedAmounts "amount_desc".toList).map
        (fun r => orEmpty (field r "Amount".toList)) =
      ["100".toList, "5".toList, "garbage".toList, "(20)".toList]) ∧
    ((applyModalSorting plainHost modalByAmount (buildUnifiedTransactions transferState)).map
        Txn.Amount = [num (-200), num 300, num 300, num 500] ∧
     (applyModalSorting plainHost modalByAmount (buildUnifiedTransactions transferState)).Perm
        (buildUnifiedTransactions transferState) ∧
     (applyModalSorting plainHost modalByAmount
        (buildUnifiedTransactions transferState)).Pairwise
          (fun a b => JSNumber.le a.Amount b.Amount = true)) :=
  ⟨by decide!, by decide!,
    ((amount_ordering plainHost).2.2 modalByAmount (buildUnifiedTransactions transferState)
      (fun t ht => ⟨transferState, ht⟩)).1 rfl⟩

/-! ## Opening-balance fields -/

theorem openingAmount_eq (r : Row) : openingAmount r = firstNonEmptyAmount r := by
  unfold openingAmount openingField firstNonEmptyAmount openingFieldNames
  simp only [List.map_cons, List.map_nil, List.find?_cons, List.find?_nil]
  cases h1 : truthy (field r "OpeningBalance".toList)
  · cases h2 : truthy (field r "OB".toList)
    · cases h3 : truthy (field r "Balance".toList)
      · simp only [Bool.false_eq_true, if_false]
        decide!
      · simp
    · simp
  · simp

theorem firstNonEmpty_eq_firstPresent (r : Row)
    (h : ∀ k ∈ openingFieldNames, field r k ≠ some []) :
    firstNonEmptyAmount r = firstPresentAmount r := by
  have hp : ∀ k ∈ openingFieldNames, truthy (field r k) = (field r k).isSome := by
    intro k hk
    have := h k hk
    cases hf : field r k with
    | none => rfl
    | some t =>
      rw [hf] at this
      have ht : t ≠ [] := fun e => this (by rw [e])
      simp [truthy, ht]
  unfold firstNonEmptyAmount firstPresentAmount
  have h1 := hp "OpeningBalance".toList (by simp [openingFieldNames])
  have h2 := hp "OB".toList (by simp [openingFieldNames])
  have h3 := hp "Balance".toList (by simp [openingFieldNames])
  simp only [openingFieldNames, List.map_cons, List.map_nil, List.find?_cons, List.find?_nil,
    h1, h2, h3]

/-- C22, as stated, fails when a field that comes earlier in the order is present
with an empty text: in the row `{Mode: "Cash", OpeningBalance: "", OB: "1000"}` the
first present field is `OpeningBalance`, whose amount is `0`, and the value seeded
for `Cash` is `1000`. -/
theorem opening_fallback_passes_empty :
    field blankThenOB "OpeningBalance".toList = some [] ∧
    firstPresentAmount blankThenOB = num 0 ∧
    Obj.get (openingStep emptyLedger blankThenOB).openingMap "Cash".toList = some (num 1000) ∧
    Obj.get (openingStep emptyLedger blankThenOB).modeBalances "Cash".toList = some (num 1000) ∧
    Obj.get (openingStep emptyLedger blankThenOB).openingMap (modeOf blankThenOB) ≠
      some (firstPresentAmount blankThenOB) := by
  decide!

/-- C22, amended: opening-balance field fallback.  For every opening-balance row,
whatever the maps hold before, the value seeded for its mode, in the opening map
and in the balance map, is `toNumber` of the first of the fields `OpeningBalance`,
`OB`, `Balance` whose text is not empty, and `0` when none of the three has a
non-empty text; a row whose trimmed `Mode` is empty seeds nothing.  When none of
the three fields holds the empty text this is the first field that is present. -/
theorem opening_fallback (l : Ledger) (r : Row) :
    (modeOf r ≠ [] →
      Obj.get (openingStep l r).openingMap (modeOf r) = some (firstNonEmptyAmount r) ∧
      Obj.get (openingStep l r).modeBalances (modeOf r) = some (firstNonEmptyAmount r)) ∧
    (modeOf r = [] → openingStep l r = l) ∧
    ((∀ k ∈ openingFieldNames, field r k ≠ some []) →
      firstNonEmptyAmount r = firstPresentAmount r) := by
  refine ⟨?_, ?_, firstNonEmpty_eq_firstPresent r⟩
  · intro hm
    rw [openingStep_eq, if_neg hm]
    constructor
    · simp only [Obj.get_set, if_true, openingAmount_eq]
    · simp only [Obj.get_set, if_true, openingAmount_eq]
  · intro hm
    rw [openingStep_eq, if_pos hm]

/-- C22, amended, at the row `{Mode: "Cash", OB: "1000"}`: it seeds `1000`. -/
theorem opening_fallback_witness :
    modeOf cashOpening = "Cash".toList ∧ firstNonEmptyAmount cashOpening = num 1000 ∧
    (Obj.get (openingStep emptyLedger cashOpening).openingMap (modeOf cashOpening) =
        some (firstNonEmptyAmount cashOpening) ∧
      Obj.get (openingStep emptyLedger cashOpening).modeBalances (modeOf cashOpening) =
        some (firstNonEmptyAmount cashOpening)) ∧
    firstNonEmptyAmount cashOpening = firstPresentAmount cashOpening :=
  ⟨by decide, by decide!, (opening_fallback emptyLedger cashOpening).1 (by decide),
    (opening_fallback emptyLedger cashOpening).2.2 (by decide)⟩

/-! ## The two negative notations -/

theorem parsedText_eq (s : Str) :
    parsedText s =
      removeCommas (moveTrailingMinus
        (if bracketNegative s then interior (stripped s) else stripped s)) := rfl

theorem toNumberAlternatives_some (s : Str) :
    toNumberAlternatives (some s) =
      if trim s = [] then num 0
      else if isNaN (parseFloat (removeCommas
          (if bracketNegative s then interior (stripped s)
            else moveTrailingMinus (stripped s)))) then num 0
      else if bracketNegative s then
        neg (parseFloat (removeCommas
          (if bracketNegative s then interior (stripped s)
            else moveTrailingMinus (stripped s))))
      else parseFloat (removeCommas
          (if bracketNegative s then interior (stripped s)
            else moveTrailingMinus (stripped s))) := rfl

theorem toNumber_eq_alternatives (s : Str)
    (h : ¬ (bracketNegative s = true ∧ endsWithChar (interior (stripped s)) '-' = true)) :
    toNumber (some s) = toNumberAlternatives (some s) := by
  rw [toNumber_some, toNumberAlternatives_some, parsedText_eq]
  cases hb : bracketNegative s
  · simp
  · have he : endsWithChar (interior (stripped s)) '-' = false := by
      cases hc : endsWithChar (interior (stripped s)) '-'
      · rfl
      · exact absurd ⟨hb, hc⟩ h
    simp [moveTrailingMinus, he]

theorem toNumber_double_negative (s b ip fp : Str) (hne : ip ≠ [])
    (hip : ∀ c ∈ ip, isDigit c = true) (hfp : ∀ c ∈ fp, isDigit c = true)
    (hb : removeCommas b = unsignedText ip fp) (hs : stripped s = '(' :: b ++ ['-', ')']) :
    toNumber (some s) = num (decimalValue ip fp) := by
  have htrim : trim s ≠ [] := by
    intro h
    have : stripped s = [] := by
      unfold stripped; rw [h]; rfl
    rw [this] at hs
    simp at hs
  have hpu := parseUnsigned_decimal ip fp hne hip hfp
  have hshape : '(' :: b ++ ['-', ')'] = ('(' :: (b ++ ['-'])) ++ [')'] := by simp
  have hbr : bracketNegative s = true := by
    unfold bracketNegative
    rw [hs, hshape, endsWithChar_concat]
    rfl
  have hint : interior (stripped s) = b ++ ['-'] := by
    rw [hs, hshape]
    simp [interior, List.dropLast_concat]
  have hpt : parsedText s = '-' :: unsignedText ip fp := by
    rw [parsedText_eq, hbr, if_pos rfl, hint, moveTrailingMinus, endsWithChar_concat]
    simp only [beq_self_eq_true, if_true, List.dropLast_concat]
    rw [← hb]; rfl
  rw [toNumber_some, if_neg htrim, hpt, hbr, parseFloat_minus, hpu]
  simp [isNaN, neg]

/-- C23, as stated, fails for a text in parentheses whose interior ends with a
minus sign: for `(150-)` the trailing-minus rewrite is applied to the interior
`150-`, the text parsed is `-150`, and the result is `150`; the negation of the
parse of the interior, which the alternatives give, is `-150`. -/
theorem trailing_minus_inside_parentheses :
    bracketNegative "(150-)".toList = true ∧
    interior (stripped "(150-)".toList) = "150-".toList ∧
    parsedText "(150-)".toList = "-150".toList ∧
    toNumber (some "(150-)".toList) = num 150 ∧
    neg (parseFloat (removeCommas (interior (stripped "(150-)".toList)))) = num (-150) ∧
    toNumberAlternatives (some "(150-)".toList) = num (-150) ∧
    toNumber (some "(150-)".toList) ≠ toNumberAlternatives (some "(150-)".toList) := by
  decide!

/-- C23, amended: in `toNumber` the two negative notations combine.  For a text
that is not empty after trimming, with `v` the text that remains after the
currency markers and the white space are removed: when `v` is wrapped in
parentheses the parentheses are removed, the trailing-minus rewrite is applied to
the interior, and the result is the negation of the parse of the rewritten
interior (`0` when it does not parse), which is the negation of the parse of the
interior when the interior does not end with a minus sign; when `v` is not
wrapped the result is the parse of the rewritten `v`.  A wrapped decimal followed
by a minus sign is negated twice and gives the decimal.  Outside the texts that
are wrapped and have an interior ending with a minus sign, `toNumber` agrees with
the alternatives. -/
theorem toNumber_notations_combine (s : Str) (h : trim s ≠ []) :
    (bracketNegative s = true →
      parsedText s = removeCommas (moveTrailingMinus (interior (stripped s))) ∧
      toNumber (some s) =
        if isNaN (parseFloat (removeCommas (moveTrailingMinus (interior (stripped s)))))
        then num 0
        else neg (parseFloat (removeCommas (moveTrailingMinus (interior (stripped s)))))) ∧
    (bracketNegative s = true → endsWithChar (interior (stripped s)) '-' = false →
      toNumber (some s) =
        if isNaN (parseFloat (removeCommas (interior (stripped s)))) then num 0
        else neg (parseFloat (removeCommas (interior (stripped s))))) ∧
    (bracketNegative s = false →
      parsedText s = removeCommas (moveTrailingMinus (stripped s)) ∧
      toNumber (some s) =
        if isNaN (parseFloat (removeCommas (moveTrailingMinus (stripped s)))) then num 0
        else parseFloat (removeCommas (moveTrailingMinus (stripped s)))) ∧
    (∀ b ip fp : Str, ip ≠ [] → (∀ c ∈ ip, isDigit c = true) → (∀ c ∈ fp, isDigit c = true) →
      removeCommas b = unsignedText ip fp → stripped s = '(' :: b ++ ['-', ')'] →
      toNumber (some s) = num (decimalValue ip fp)) ∧
    (¬ (bracketNegative s = true ∧ endsWithChar (interior (stripped s)) '-' = true) →
      toNumber (some s) = toNumberAlternatives (some s)) := by
  refine ⟨?_, ?_, ?_, ?_, toNumber_eq_alternatives s⟩
  · intro hb
    refine ⟨by rw [parsedText_eq, hb, if_pos rfl], ?_⟩
    rw [toNumber_some, if_neg h, parsedText_eq, hb]
    simp only [if_true]
  · intro hb he
    rw [toNumber_some, if_neg h, parsedText_eq, hb]
    simp only [if_true, moveTrailingMinus, he, Bool.false_eq_true, if_false]
  · intro hb
    refine ⟨by rw [parsedText_eq, hb]; rfl, ?_⟩
    rw [toNumber_some, if_neg h, parsedText_eq, hb]
    simp only [Bool.false_eq_true, if_false]
  · intro b ip fp hne hip hfp hb hs
    exact toNumber_double_negative s b ip fp hne hip hfp hb hs

/-- C23, amended, at the text `₹ (1,250.50-)`: it is wrapped once the marker and
the white space are removed, the text parsed is `-1250.50`, and the result is
`1250.5`; and at `(150.00)`, where the alternatives agree, the result is `-150`. -/
theorem toNumber_notations_combine_witness :
    (parsedText "₹ (1,250.50-)".toList = "-1250.50".toList ∧
      toNumber (some "₹ (1,250.50-)".toList) = num (decimalValue "1250".toList "50".toList) ∧
      toNumber (some "₹ (1,250.50-)".toList) = num (2501 / 2)) ∧
    (toNumber (some "(150.00)".toList) = toNumberAlternatives (some "(150.00)".toList) ∧
      toNumber (some "(150.00)".toList) = num (-150)) :=
  ⟨⟨by decide,
    (toNumber_notations_combine "₹ (1,250.50-)".toList (by decide)).2.2.2.1
      "1,250.50".toList "1250".toList "50".toList (by decide) (by decide) (by decide)
      (by decide) (by decide),
    by decide!⟩,
   (toNumber_notations_combine "(150.00)".toList (by decide)).2.2.2.2 (by decide),
   by decide!⟩

/-! ## The pages of a collection -/

theorem windows_flatten {α : Type} (data : List α) (n : ℕ) :
    ((List.range n).map (fun i => (data.drop (i * 25)).take 25)).flatten = data.take (n * 25) := by
  induction n with
  | zero => simp
  | succ n ih =>
    rw [List.range_succ, List.map_append, List.flatten_append, ih]
    simp only [List.map_cons, List.map_nil, List.flatten_cons, List.flatten_nil, List.append_nil]
    rw [Nat.succ_mul, List.take_add]

theorem allPages_eq {α : Type} (data : List α) :
    allPages data =
      (List.range (totalPages data).toNat).map (fun i => (data.drop (i * 25)).take 25) := by
  unfold allPages
  apply List.map_congr_left
  intro i _
  rw [paginate_eq data _ (by omega)]
  congr 2
  omega

theorem length_le_pages {α : Type} (data : List α) :
    data.length ≤ (totalPages data).toNat * 25 := by
  by_cases h : data = []
  · subst h; simp
  · have := (totalPages_window data h).2
    have h1 := one_le_totalPages data
    omega

theorem flatten_allPages {α : Type} (data : List α) : (allPages data).flatten = data := by
  rw [allPages_eq, windows_flatten, List.take_of_length_le (length_le_pages data)]

theorem paginate_beyond {α : Type} (data : List α) (p : ℤ) (hp : totalPages data < p) :
    paginate data p = [] := by
  have h1 := one_le_totalPages data
  rw [paginate_eq data p (by omega)]
  have := length_le_pages data
  rw [List.drop_of_length_le (by omega)]
  rfl

theorem getElem?_paginate {α : Type} (data : List α) (p : ℤ) (hp : 1 ≤ p) (j : ℕ) :
    (paginate data p)[j]? = if j < 25 then data[((p - 1) * 25).toNat + j]? else none := by
  rw [paginate_eq data p hp, List.getElem?_take]
  split_ifs with h
  · rw [List.getElem?_drop]
  · rfl

/-- C25: pages partition the collection.  Concatenating `paginate(data, p)` for
`p = 1, ..., totalPages(data)` gives exactly `data`; `paginate(data, p)` is empty
for every `p > totalPages(data)`; the record at offset `j` of page `p >= 1` is the
record of `data` at index `(p - 1) * 25 + j`, so the record at index `i` is on
page `i / 25 + 1`, one of the pages `1 .. totalPages(data)`, at offset `i % 25`,
and on no other. -/
theorem pages_partition {α : Type} (data : List α) :
    (allPages data).flatten = data ∧
    (allPages data).length = (totalPages data).toNat ∧
    (∀ p : ℤ, totalPages data < p → paginate data p = []) ∧
    (∀ (p : ℤ) (j : ℕ), 1 ≤ p →
      (paginate data p)[j]? = if j < 25 then data[((p - 1) * 25).toNat + j]? else none) ∧
    (∀ i : ℕ, i < data.length →
      ((i / 25 : ℕ) : ℤ) + 1 ≤ totalPages data ∧
      (paginate data (((i / 25 : ℕ) : ℤ) + 1))[i % 25]? = data[i]? ∧
      ∀ (p : ℤ) (j : ℕ), 1 ≤ p → j < 25 → ((p - 1) * 25).toNat + j = i →
        p = ((i / 25 : ℕ) : ℤ) + 1 ∧ j = i % 25) := by
  refine ⟨flatten_allPages data, by simp [allPages], paginate_beyond data,
    fun p j hp => getElem?_paginate data p hp j, ?_⟩
  intro i hi
  have hle := length_le_pages data
  have h1 := one_le_totalPages data
  refine ⟨by omega, ?_, ?_⟩
  · rw [getElem?_paginate data _ (by omega), if_pos (Nat.mod_lt _ (by decide))]
    congr 1
    omega
  · intro p j hp hj h
    omega

/-- C25 at sixty records: the three pages are the records 0 to 24, 25 to 49 and
50 to 59, their concatenation is the collection, and page 4 is empty. -/
theorem pages_partition_witness :
    allPages (List.range 60) =
      [(List.range 25), (List.range 25).map (fun i => i + 25),
        (List.range 10).map (fun i => i + 50)] ∧
    (allPages (List.range 60)).flatten = List.range 60 ∧
    paginate (List.range 60) 4 = [] :=
  ⟨by decide!, (pages_partition (List.range 60)).1,
    (pages_partition (List.range 60)).2.2.1 4 (by decide!)⟩

/-! ## Chart totals -/

/-- C24, at three January expenses `Infinity`, `-Infinity`, `5` on `Cash` and
`Food`, with no filter: the signed sum of the amounts of the period, of the mode
and of the category is `NaN`, and the total of the same rows that the function
computes with `reduce` is `NaN`; but the period entry, the mode entry and the
category entry that it computes with `(totals[k] || 0) + amount` are `5`, because
`|| 0` replaces the running total `NaN` by `0`. -/
theorem totals_after_nan :
    (Machine.updateCharts (fun _ _ => 0) plainHost noFilters infiniteJanuary).expenseTrend =
        { labels := ["Jan".toList], data := [Value.number (num 5)] } ∧
    (Machine.updateCharts (fun _ _ => 0) plainHost noFilters infiniteJanuary).expenseMode =
        { labels := ["Cash".toList], data := [Value.number (num 5)] } ∧
    (Machine.updateCharts (fun _ _ => 0) plainHost noFilters infiniteJanuary).expenseGroup =
        { labels := ["Food".toList], data := [Value.number (num 5)] } ∧
    (Machine.updateCharts (fun _ _ => 0) plainHost noFilters infiniteJanuary).receiptVsExpense =
        { labels := ["Expense (Net)".toList, "Receipts".toList],
          data := [Value.number nan, Value.number (num 0)] } ∧
    applyFilters plainHost noFilters infiniteJanuary.expenseData "expense".toList =
      infiniteJanuary.expenseData ∧
    ((infiniteJanuary.expenseData.filter (fun r => monthOf r = "Jan".toList)).map
        Machine.amountOf).sum = nan ∧
    ((infiniteJanuary.expenseData.filter (fun r => modeOf r = "Cash".toList)).map
        Machine.amountOf).sum = nan ∧
    ((infiniteJanuary.expenseData.filter (fun r => groupOf r = "Food".toList)).map
        Machine.amountOf).sum = nan ∧
    infiniteJanuary.expenseData.map Machine.amountOf = [inf false, inf true, num 5] := by
  refine ⟨by decide!, by decide!, by decide!, by decide!, by decide!, by decide!, by decide!,
    by decide!, by decide!⟩

end Expenseinr
